import Mathlib

/-!
# Life of an Old Farm Girl: upload coordination and derivative cache

A shallow embedding of the request handlers of `server.js` (the direct-upload
protocol, the metadata index and the `/img/*` derivative cache), followed by
theorems about them.

Conventions of the embedding

* JavaScript strings are Lean strings; the regular expressions the handlers use
  are written out as functions on character lists.
* JavaScript numbers that the handlers compute are integers or `NaN`
  (`JSNum`); the model is exact for magnitudes below `2^53`.
* The bucket, the JSON files under `data/` and the clock are explicit
  arguments; a handler returns its response together with the effects it
  issued and the state it leaves.
-/

namespace FarmGirl

/-! ## JavaScript primitives used by the handlers -/

/-- Characters matched by the regular expression class `\s` (and skipped by
`parseInt` as leading white space). -/
def isJsWhitespace (c : Char) : Bool :=
  let n := c.toNat
  n = 9 || n = 10 || n = 11 || n = 12 || n = 13 || n = 32 || n = 0xA0 || n = 0x1680
    || (0x2000 ≤ n && n ≤ 0x200A) || n = 0x2028 || n = 0x2029 || n = 0x202F
    || n = 0x205F || n = 0x3000 || n = 0xFEFF

/-- Worker for `replaceWhitespaceRuns`; `inRun` records that the previous
character was white space, whose run has already produced its underscore. -/
def replaceWhitespaceRunsAux : Bool → List Char → List Char
  | _, [] => []
  | inRun, c :: cs =>
    if isJsWhitespace c then
      (if inRun then replaceWhitespaceRunsAux true cs
       else '_' :: replaceWhitespaceRunsAux true cs)
    else c :: replaceWhitespaceRunsAux false cs

/-- The call `s.replace(/\s+/g, "_")`: every maximal run of white space becomes
one underscore. -/
def replaceWhitespaceRuns (s : String) : String :=
  ⟨replaceWhitespaceRunsAux false s.data⟩

/-- The part of a character list after its last `/` (the whole list when it has
none), computed on the reversed list. -/
def lastSegmentRev (r : List Char) : List Char :=
  r.takeWhile (fun c => c != '/')

/-- The expression `s.split("/").pop()`. -/
def lastSegment (s : String) : String :=
  ⟨(lastSegmentRev s.data.reverse).reverse⟩

/-- The call `.replace(/\.[^.]+$/, "")` on a character list: when the last `.`
is followed by at least one character, it and what follows are removed. -/
def stripExtensionList (l : List Char) : List Char :=
  let tail := l.reverse.takeWhile (fun c => c != '.')
  let rest := l.reverse.dropWhile (fun c => c != '.')
  match tail, rest with
  | [], _ => l
  | _ :: _, [] => l
  | _ :: _, _ :: before => before.reverse

/-- The call `s.replace(/\.[^.]+$/, "")`. -/
def stripExtension (s : String) : String :=
  ⟨stripExtensionList s.data⟩

/-- The call `s.replace(/\/+$/, "")`: trailing slashes are removed. -/
def stripTrailingSlashes (s : String) : String :=
  ⟨(s.data.reverse.dropWhile (fun c => c == '/')).reverse⟩

/-- The call `s.toLowerCase()`, on the ASCII letters (the format names the
handler documents, `webp|jpeg|png`, are ASCII); on an ASCII string it is the
string the code computes, other letters are left as they are. -/
def toLowerCase (s : String) : String :=
  ⟨s.data.map Char.toLower⟩

/-- The expression `x || d` for an optional string `x`: the default is taken
when `x` is `undefined` or empty. -/
def orDefault (x : Option String) (d : String) : String :=
  match x with
  | none => d
  | some s => if s = "" then d else s

/-- A JavaScript number as the handlers compute it: `NaN` or an integer. -/
inductive JSNum where
  | nan
  | int (z : Int)
  deriving DecidableEq, Repr

/-- Value of a list of decimal digits, most significant first. -/
def digitsValue (ds : List Char) : Nat :=
  ds.foldl (fun acc c => 10 * acc + (c.toNat - 48)) 0

/-- The call `parseInt(s, 10)`: leading white space is skipped, one sign is
read, then the longest run of decimal digits; no digit gives `NaN`. The value
is kept as the integer the digits denote; the code holds it as a double, which
is that integer when its magnitude is below `2^53` (`JSNum.isExact`). -/
def parseInt (s : String) : JSNum :=
  let t := s.data.dropWhile isJsWhitespace
  let signed : Bool × List Char :=
    match t with
    | '-' :: r => (true, r)
    | '+' :: r => (false, r)
    | r => (false, r)
  let ds := signed.2.takeWhile Char.isDigit
  match ds with
  | [] => JSNum.nan
  | _ :: _ => JSNum.int (if signed.1 then - (digitsValue ds : Int) else (digitsValue ds : Int))

/-- The call `Math.max(a, b)`. -/
def mathMax : JSNum → JSNum → JSNum
  | JSNum.int a, JSNum.int b => JSNum.int (max a b)
  | _, _ => JSNum.nan

/-- The call `Math.min(a, b)`. -/
def mathMin : JSNum → JSNum → JSNum
  | JSNum.int a, JSNum.int b => JSNum.int (min a b)
  | _, _ => JSNum.nan

/-- A number interpolated in a template literal, in plain decimal, as the
code prints an integer of magnitude below `10^21`. -/
def numToString : JSNum → String
  | JSNum.nan => "NaN"
  | JSNum.int (Int.ofNat n) => Nat.repr n
  | JSNum.int (Int.negSucc n) => "-" ++ Nat.repr (n + 1)

/-- The expression `n || null` for a number: `0` and `NaN` are falsy. -/
def truthyNum : JSNum → Option Int
  | JSNum.nan => none
  | JSNum.int z => if z = 0 then none else some z

/-! ## Configuration and the object store -/

/-- The environment variables read at start-up. -/
structure Config where
  /-- Value of `process.env.S3_BUCKET`. -/
  S3_BUCKET : Option String
  /-- Value of `process.env.S3_PUBLIC_URL_BASE || ""`. -/
  S3_PUBLIC_URL_BASE : String
  /-- Value of `process.env.AWS_REGION`. -/
  AWS_REGION : Option String
  deriving DecidableEq, Repr

/-- An optional string interpolated in a template literal. -/
def interpolate : Option String → String
  | none => "undefined"
  | some s => s

/-- The function `s3ObjectUrl`. -/
def s3ObjectUrl (cfg : Config) (key : String) : String :=
  if cfg.S3_PUBLIC_URL_BASE ≠ "" then
    stripTrailingSlashes cfg.S3_PUBLIC_URL_BASE ++ "/" ++ key
  else
    let region := orDefault cfg.AWS_REGION "us-east-1"
    let base :=
      if region = "us-east-1" then
        "https://" ++ interpolate cfg.S3_BUCKET ++ ".s3.amazonaws.com"
      else
        "https://" ++ interpolate cfg.S3_BUCKET ++ ".s3." ++ region ++ ".amazonaws.com"
    base ++ "/" ++ key

/-- Object bodies. -/
abbrev Bytes := List Nat

/-- An object of the bucket with the headers the handlers set on a Put. -/
structure S3Object where
  body : Bytes
  contentType : Option String
  cacheControl : Option String
  deriving DecidableEq, Repr

/-- The remote bucket. `fault` is `some message` while the service rejects every
command (outage, bad credentials) with that message. -/
structure S3State where
  objects : List (String × S3Object)
  fault : Option String
  deriving DecidableEq, Repr

/-- What a handler can catch. -/
inductive Exn where
  /-- The store has no object at the key of a Get. -/
  | NoSuchKey (key : String)
  /-- The command did not reach the bucket. -/
  | StorageUnavailable (message : String)
  /-- An error thrown by a library (image codec, signer, JSON or file access). -/
  | Library (message : String)
  deriving DecidableEq, Repr

/-- The property `e.message`. -/
def Exn.message : Exn → String
  | Exn.NoSuchKey _ => "The specified key does not exist."
  | Exn.StorageUnavailable m => m
  | Exn.Library m => m

/-- Why a command sent with `Bucket: S3_BUCKET` is rejected before it reaches
an object: the bucket name is unset or empty, or the service is at fault. -/
def s3Rejects (cfg : Config) (s3 : S3State) : Option Exn :=
  match cfg.S3_BUCKET with
  | none => some (Exn.StorageUnavailable "No value provided for input HTTP label: Bucket.")
  | some b =>
    if b = "" then some (Exn.StorageUnavailable "No value provided for input HTTP label: Bucket.")
    else s3.fault.map Exn.StorageUnavailable

/-- The object stored at a key. -/
def S3State.lookup (s3 : S3State) (key : String) : Option S3Object :=
  s3.objects.lookup key

/-- The command `HeadObjectCommand`: whether the metadata probe succeeds. -/
def headObject (cfg : Config) (s3 : S3State) (key : String) : Bool :=
  match s3Rejects cfg s3 with
  | some _ => false
  | none => (s3.lookup key).isSome

/-- The command `GetObjectCommand` followed by `streamToBuffer`. -/
def getObject (cfg : Config) (s3 : S3State) (key : String) : Except Exn Bytes :=
  match s3Rejects cfg s3 with
  | some e => Except.error e
  | none =>
    match s3.lookup key with
    | none => Except.error (Exn.NoSuchKey key)
    | some obj => Except.ok obj.body

/-- The command `PutObjectCommand`: the object replaces what the key held. -/
def putObject (cfg : Config) (s3 : S3State) (key : String) (obj : S3Object) :
    Except Exn S3State :=
  match s3Rejects cfg s3 with
  | some e => Except.error e
  | none =>
    Except.ok { s3 with objects := (key, obj) :: s3.objects.filter (fun p => p.1 != key) }

/-! ## The metadata index and the analytics file -/

/-- An element of `data/<type>.json`. Fields a handler does not write are
absent. -/
structure Entry where
  id : String
  name : Option String
  url : String
  key : Option String
  contentType : Option String
  youtubeId : Option String
  date : String
  posterKey : Option String
  posterUrl : Option String
  deriving DecidableEq, Repr

/-- The JSON lists under `data/`, by type name; `none` when the file does not
exist. -/
abbrev DataDir := String → Option (List Entry)

/-- The function `saveMetadata`: the entry is put in front of the list of the
type, which starts empty when its file does not exist. -/
def saveMetadata (data : DataDir) (type : String) (entry : Entry) : DataDir :=
  fun t => if t = type then some (entry :: (data type).getD []) else data t

/-- Counters of one month. -/
structure MonthStats where
  uploads : Nat
  views : Nat
  video : Nat
  deriving DecidableEq, Repr

/-- The object kept in `data/analytics.json`. -/
structure Analytics where
  pageViews : List (String × Nat)
  uploads : List (String × Nat)
  videoInteractions : List (String × Nat)
  monthly : List (String × MonthStats)
  deriving DecidableEq, Repr

/-- The file `data/analytics.json`: absent, present with the four sections, or
present but unusable (not JSON, or a section is missing) so that reading or
updating it throws an error with the given message. -/
inductive AnalyticsFile where
  | absent
  | unusable (message : String)
  | content (a : Analytics)
  deriving DecidableEq, Repr

/-- Assignment `obj[k] = v` on an object kept as an association list. -/
def setKey {α : Type} (k : String) (v : α) : List (String × α) → List (String × α)
  | [] => [(k, v)]
  | p :: rest => if p.1 = k then (k, v) :: rest else p :: setKey k v rest

/-- The call `readJSON(analyticsFile, fallback)` with the fallback of four
empty sections. -/
def readAnalytics : AnalyticsFile → Except Exn Analytics
  | AnalyticsFile.absent =>
    Except.ok { pageViews := [], uploads := [], videoInteractions := [], monthly := [] }
  | AnalyticsFile.unusable m => Except.error (Exn.Library m)
  | AnalyticsFile.content a => Except.ok a

/-- The analytics block shared by the upload handlers: read the file, count one
upload in total, for the type and for the month, write the file back. -/
def recordUpload (type month : String) (file : AnalyticsFile) : Except Exn AnalyticsFile :=
  match readAnalytics file with
  | Except.error e => Except.error e
  | Except.ok a =>
    let uploads1 := setKey "total" ((a.uploads.lookup "total").getD 0 + 1) a.uploads
    let uploads2 := setKey type ((uploads1.lookup type).getD 0 + 1) uploads1
    let stats := (a.monthly.lookup month).getD { uploads := 0, views := 0, video := 0 }
    Except.ok (AnalyticsFile.content
      { a with uploads := uploads2,
               monthly := setKey month { stats with uploads := stats.uploads + 1 } a.monthly })

/-! ## Requests, responses and effects -/

/-- The state a handler reads and writes. -/
structure World where
  data : DataDir
  analytics : AnalyticsFile
  s3 : S3State

/-- Option object of the image library: the arguments of `resize` (when it is
called) and the encoder selected. -/
inductive Encoder where
  | webp (quality : JSNum)
  | jpeg (quality : JSNum)
  | png
  deriving DecidableEq, Repr

/-- The pipeline built on `sharp(buf)` before `toBuffer()`. The resize, when
present, is `fit: "inside", withoutEnlargement: true` with `null` for an
unconstrained axis. -/
structure Pipeline where
  resize : Option (Option Int × Option Int)
  encoder : Option Encoder
  deriving DecidableEq, Repr

/-- The clock and the libraries a request runs against. -/
structure Env where
  /-- Reading of `Date.now()`. -/
  now : Nat
  /-- Reading of `new Date().toISOString()`. -/
  isoDate : String
  /-- Reading of `monthKey()`. -/
  month : String
  /-- The image library: building the pipeline on a buffer and `toBuffer()`. -/
  sharp : Bytes → Pipeline → Except Exn Bytes
  /-- The presigner, for a Put of the bucket, key and content type, with its
  expiry in seconds. -/
  getSignedUrl : Option String → String → String → Nat → Except Exn String

/-- JSON bodies the handlers send. -/
inductive JsonBody where
  /-- The body `success: false` with an optional `error`. -/
  | failure (error : Option String)
  /-- The body `success: false, message`. -/
  | denied (message : String)
  /-- The body `success: true` alone. -/
  | done
  /-- The body `success: true, entry`. -/
  | entry (e : Entry)
  /-- The body `success: true, uploadUrl, key, url`. -/
  | slot (uploadUrl key url : String)
  /-- The body `success: true, posterKey, posterUrl`. -/
  | poster (posterKey posterUrl : String)
  /-- An array of entries, as `GET /data/:type` sends it. -/
  | list (entries : List Entry)
  deriving DecidableEq, Repr

/-- A response. -/
inductive Response where
  | send (status : Nat) (text : String)
  | json (status : Nat) (body : JsonBody)
  | redirect (status : Nat) (location : String) (cacheControl : Option String)
  deriving DecidableEq, Repr

/-- Calls a handler issues to the store and to the image library, in order. -/
inductive Effect where
  | headObject (key : String)
  | getObject (key : String)
  | putObject (key : String) (obj : S3Object)
  | deleteObject (key : String)
  | sharp (input : Bytes) (pipeline : Pipeline)
  deriving DecidableEq, Repr

/-- What a handler run produces: the response, the calls issued, the state left
and what was passed to `console.error`. -/
structure Outcome where
  response : Response
  effects : List Effect
  world : World
  logged : List Exn

/-! ## The derivative cache: `GET /img/*` -/

/-- What the `/img/*` handler reads from a request: the wildcard path
`req.params[0]` and the query parameters `w`, `h`, `f`, `q`. -/
structure ImgRequest where
  rawKey : String
  w : Option String
  h : Option String
  f : Option String
  q : Option String
  deriving DecidableEq, Repr

/-- The constant `w` of the handler. -/
def imgWidth (req : ImgRequest) : JSNum :=
  mathMax (JSNum.int 0) (parseInt (orDefault req.w "0"))

/-- The constant `h` of the handler. -/
def imgHeight (req : ImgRequest) : JSNum :=
  mathMax (JSNum.int 0) (parseInt (orDefault req.h "0"))

/-- The constant `fmt` of the handler. -/
def imgFmt (req : ImgRequest) : String :=
  toLowerCase (orDefault req.f "webp")

/-- The constant `q` of the handler. -/
def imgQuality (req : ImgRequest) : JSNum :=
  mathMax (JSNum.int 1) (mathMin (JSNum.int 100) (parseInt (orDefault req.q "82")))

/-- The constant `ext` of the handler: the normalised format. -/
def imgExt (req : ImgRequest) : String :=
  if imgFmt req = "jpg" then "jpeg" else imgFmt req

/-- The constant `baseName` of the handler. -/
def imgBaseName (req : ImgRequest) : String :=
  stripExtension (lastSegment req.rawKey)

/-- The constant `optimizedKey` of the handler: the derivative key. -/
def optimizedKey (req : ImgRequest) : String :=
  "optimized/" ++ numToString (imgWidth req) ++ "x" ++ numToString (imgHeight req)
    ++ "/" ++ imgBaseName req ++ "." ++ imgExt req

/-- The parameter tuple of a request as the specification describes it:
source key, width, height, normalised format, quality. -/
def descriptorTuple (req : ImgRequest) : String × JSNum × JSNum × String × JSNum :=
  (req.rawKey, imgWidth req, imgHeight req, imgExt req, imgQuality req)

/-- The function `contentTypeForExt`. -/
def contentTypeForExt (ext : String) : String :=
  if ext = "webp" then "image/webp"
  else if ext = "jpeg" then "image/jpeg"
  else if ext = "png" then "image/png"
  else "application/octet-stream"

/-- The pipeline the handler builds: a resize when `w || h`, then the encoder
of the normalised format, if it is one of the three the handler knows. -/
def imgPipeline (req : ImgRequest) : Pipeline :=
  let w := truthyNum (imgWidth req)
  let h := truthyNum (imgHeight req)
  { resize := if w.isSome || h.isSome then some (w, h) else none,
    encoder :=
      if imgExt req = "webp" then some (Encoder.webp (imgQuality req))
      else if imgExt req = "jpeg" then some (Encoder.jpeg (imgQuality req))
      else if imgExt req = "png" then some Encoder.png
      else none }

/-- The cache directive the handler sets on derivatives. -/
def immutableCache : String := "public, max-age=31536000, immutable"

/-- The handler of `GET /img/*`. -/
def imgHandler (env : Env) (cfg : Config) (world : World) (req : ImgRequest) : Outcome :=
  if req.rawKey = "" then
    { response := Response.send 400 "Missing key", effects := [], world := world, logged := [] }
  else
    let key := optimizedKey req
    if headObject cfg world.s3 key then
      { response := Response.redirect 302 (s3ObjectUrl cfg key) (some immutableCache),
        effects := [Effect.headObject key], world := world, logged := [] }
    else
      match getObject cfg world.s3 req.rawKey with
      | Except.error e =>
        { response := Response.send 500 "Image processing error",
          effects := [Effect.headObject key, Effect.getObject req.rawKey],
          world := world, logged := [e] }
      | Except.ok buf =>
        match env.sharp buf (imgPipeline req) with
        | Except.error e =>
          { response := Response.send 500 "Image processing error",
            effects := [Effect.headObject key, Effect.getObject req.rawKey,
              Effect.sharp buf (imgPipeline req)],
            world := world, logged := [e] }
        | Except.ok out =>
          let obj : S3Object :=
            { body := out, contentType := some (contentTypeForExt (imgExt req)),
              cacheControl := some immutableCache }
          match putObject cfg world.s3 key obj with
          | Except.error e =>
            { response := Response.send 500 "Image processing error",
              effects := [Effect.headObject key, Effect.getObject req.rawKey,
                Effect.sharp buf (imgPipeline req), Effect.putObject key obj],
              world := world, logged := [e] }
          | Except.ok s3 =>
            { response := Response.redirect 302 (s3ObjectUrl cfg key) (some immutableCache),
              effects := [Effect.headObject key, Effect.getObject req.rawKey,
                Effect.sharp buf (imgPipeline req), Effect.putObject key obj],
              world := { world with s3 := s3 }, logged := [] }

/-! ## The direct-upload protocol -/

/-- A value of the request body used as a condition: `undefined` and the empty
string are falsy. -/
def truthy : Option String → Option String
  | none => none
  | some s => if s = "" then none else some s

/-- What `POST /upload/presign/:type` reads: the path parameter and the body
fields `filename` and `contentType`. -/
structure PresignRequest where
  type : String
  filename : Option String
  contentType : Option String
  deriving DecidableEq, Repr

/-- The storage key the presign handler builds from the type, the clock reading
and the file name. -/
def uploadKey (type : String) (now : Nat) (filename : String) : String :=
  type ++ "/" ++ Nat.repr now ++ "-" ++ replaceWhitespaceRuns filename

/-- The handler of `POST /upload/presign/:type` (RequestUploadSlot). -/
def presignHandler (env : Env) (cfg : Config) (world : World) (req : PresignRequest) :
    Outcome :=
  if ¬ ["photos", "videos", "sponsors"].contains req.type then
    { response := Response.json 400 (JsonBody.failure (some "Invalid type")),
      effects := [], world := world, logged := [] }
  else
    match truthy req.filename, truthy req.contentType with
    | some filename, some contentType =>
      let key := uploadKey req.type env.now filename
      match env.getSignedUrl cfg.S3_BUCKET key contentType 900 with
      | Except.error e =>
        { response := Response.json 500 (JsonBody.failure (some e.message)),
          effects := [], world := world, logged := [e] }
      | Except.ok uploadUrl =>
        { response := Response.json 200 (JsonBody.slot uploadUrl key (s3ObjectUrl cfg key)),
          effects := [], world := world, logged := [] }
    | _, _ =>
      { response := Response.json 400 (JsonBody.failure (some "Missing filename/contentType")),
        effects := [], world := world, logged := [] }

/-- What `POST /upload/complete` reads from the body. -/
structure CompleteRequest where
  type : Option String
  key : Option String
  name : Option String
  contentType : Option String
  deriving DecidableEq, Repr

/-- The entry the completion handler builds. -/
def completeEntry (env : Env) (cfg : Config) (key : String) (req : CompleteRequest) : Entry :=
  { id := Nat.repr env.now,
    name := some (orDefault req.name (lastSegment key)),
    url := s3ObjectUrl cfg key,
    key := some key,
    contentType := req.contentType,
    youtubeId := none,
    date := env.isoDate,
    posterKey := none,
    posterUrl := none }

/-- The handler of `POST /upload/complete` (CompleteUpload). -/
def completeHandler (env : Env) (cfg : Config) (world : World) (req : CompleteRequest) :
    Outcome :=
  match req.type with
  | none =>
    { response := Response.json 400 (JsonBody.failure (some "Invalid type")),
      effects := [], world := world, logged := [] }
  | some type =>
    if ¬ ["photos", "videos", "sponsors", "videos"].contains type then
      { response := Response.json 400 (JsonBody.failure (some "Invalid type")),
        effects := [], world := world, logged := [] }
    else
      match truthy req.key with
      | none =>
        { response := Response.json 400 (JsonBody.failure (some "Missing key")),
          effects := [], world := world, logged := [] }
      | some key =>
        let entry := completeEntry env cfg key req
        let saved : World := { world with data := saveMetadata world.data type entry }
        match recordUpload type env.month world.analytics with
        | Except.error e =>
          { response := Response.json 500 (JsonBody.failure (some e.message)),
            effects := [], world := saved, logged := [e] }
        | Except.ok analytics =>
          { response := Response.json 200 (JsonBody.entry entry),
            effects := [], world := { saved with analytics := analytics }, logged := [] }

/-! ## LinkExternalVideo: `POST /upload/youtube` -/

/-- Characters of the class `[0-9A-Za-z_-]`. -/
def isIdChar (c : Char) : Bool :=
  c.isDigit || c.isUpper || c.isLower || c == '_' || c == '-'

/-- The group `([0-9A-Za-z_-]{11})` read at the start of a character list. -/
def takeId (l : List Char) : Option (List Char) :=
  if (l.take 11).length == 11 && (l.take 11).all isIdChar then some (l.take 11) else none

/-- The pattern `(?:v=|\/)([0-9A-Za-z_-]{11})` anchored at the start of a
character list; the result is the group. -/
def matchIdAt (l : List Char) : Option (List Char) :=
  match l with
  | [] => none
  | c :: rest =>
    if c = '/' then takeId rest
    else if c = 'v' then
      (match rest with
       | [] => none
       | d :: rest2 => if d = '=' then takeId rest2 else none)
    else none

/-- The call `url.match(/(?:v=|\/)([0-9A-Za-z_-]{11})/)`: the group of the
leftmost match, if there is one. -/
def matchYoutubeId : List Char → Option (List Char)
  | [] => none
  | c :: cs =>
    match matchIdAt (c :: cs) with
    | some v => some v
    | none => matchYoutubeId cs

/-- What `POST /upload/youtube` reads from the body. -/
structure YoutubeRequest where
  url : Option String
  deriving DecidableEq, Repr

/-- The entry the link handler builds. -/
def youtubeEntry (env : Env) (youtubeId url : String) : Entry :=
  { id := Nat.repr env.now,
    name := none,
    url := url,
    key := none,
    contentType := none,
    youtubeId := some youtubeId,
    date := env.isoDate,
    posterKey := none,
    posterUrl := none }

/-- The answer of the link handler when `url` is falsy or has no match. -/
def invalidYoutubeUrl (world : World) : Outcome :=
  { response := Response.json 400 (JsonBody.failure (some "Invalid YouTube URL")),
    effects := [], world := world, logged := [] }

/-- The handler of `POST /upload/youtube` (LinkExternalVideo). -/
def youtubeHandler (env : Env) (world : World) (req : YoutubeRequest) : Outcome :=
  match truthy req.url with
  | none => invalidYoutubeUrl world
  | some url =>
    match matchYoutubeId url.data with
    | none => invalidYoutubeUrl world
    | some v =>
      let entry := youtubeEntry env ⟨v⟩ url
      let saved : World := { world with data := saveMetadata world.data "videos" entry }
      match recordUpload "videos" env.month world.analytics with
      | Except.error e =>
        { response := Response.json 500 (JsonBody.failure (some e.message)),
          effects := [], world := saved, logged := [e] }
      | Except.ok analytics =>
        { response := Response.json 200 (JsonBody.entry entry),
          effects := [], world := { saved with analytics := analytics }, logged := [] }

/-! ## The form upload: `POST /upload/:type` -/

/-- The file field `req.file` that the multipart middleware provides. -/
structure UploadedFile where
  originalname : String
  mimetype : String
  buffer : Bytes
  deriving DecidableEq, Repr

/-- What `POST /upload/:type` reads: the path parameter and the file. -/
structure UploadRequest where
  type : String
  file : Option UploadedFile
  deriving DecidableEq, Repr

/-- The entry the form upload builds; `idNow` is the reading of `Date.now()`
taken after the Put. -/
def uploadEntry (env : Env) (idNow : Nat) (cfg : Config) (key : String) (file : UploadedFile) :
    Entry :=
  { id := Nat.repr idNow,
    name := some file.originalname,
    url := s3ObjectUrl cfg key,
    key := some key,
    contentType := none,
    youtubeId := none,
    date := env.isoDate,
    posterKey := none,
    posterUrl := none }

/-- The handler of `POST /upload/:type`. The clock is read twice: `env.now` for
the key, `idNow` for the id of the entry. -/
def uploadHandler (env : Env) (idNow : Nat) (cfg : Config) (world : World)
    (req : UploadRequest) : Outcome :=
  if ¬ ["photos", "videos", "sponsors"].contains req.type then
    { response := Response.json 400 (JsonBody.failure (some "Invalid type")),
      effects := [], world := world, logged := [] }
  else
    match req.file with
    | none =>
      { response := Response.json 400 (JsonBody.failure (some "No file")),
        effects := [], world := world, logged := [] }
    | some file =>
      match truthy cfg.S3_BUCKET with
      | none =>
        { response := Response.json 500 (JsonBody.failure (some "S3_BUCKET not set")),
          effects := [], world := world, logged := [] }
      | some _ =>
        let key := uploadKey req.type env.now file.originalname
        let obj : S3Object :=
          { body := file.buffer, contentType := some file.mimetype, cacheControl := none }
        match putObject cfg world.s3 key obj with
        | Except.error e =>
          { response := Response.json 500 (JsonBody.failure (some e.message)),
            effects := [Effect.putObject key obj], world := world, logged := [e] }
        | Except.ok s3 =>
          let entry := uploadEntry env idNow cfg key file
          let saved : World :=
            { world with s3 := s3, data := saveMetadata world.data req.type entry }
          match recordUpload req.type env.month world.analytics with
          | Except.error e =>
            { response := Response.json 500 (JsonBody.failure (some e.message)),
              effects := [Effect.putObject key obj], world := saved, logged := [e] }
          | Except.ok analytics =>
            { response := Response.json 200 (JsonBody.entry entry),
              effects := [Effect.putObject key obj],
              world := { saved with analytics := analytics }, logged := [] }

/-! ## Listing and delete: `GET /data/:type`, `DELETE /delete/:type/:id` -/

/-- The handler of `GET /data/:type`: the list of the type, empty when its file
does not exist. -/
def dataHandler (world : World) (type : String) : Outcome :=
  { response := Response.json 200 (JsonBody.list ((world.data type).getD [])),
    effects := [], world := world, logged := [] }

/-- Lookup by id in the index of a type, with the predicate the delete handler
searches by: the first entry whose `id` is the given one. -/
def findById (data : DataDir) (type id : String) : Option Entry :=
  ((data type).getD []).find? (fun e => e.id = id)

/-- The calls `list.findIndex(item => item.id === id)` and `list.splice(index, 1)`:
the first entry with the id and the list without it, or `none` when the index is
`-1`. -/
def removeFirst (id : String) : List Entry → Option (Entry × List Entry)
  | [] => none
  | e :: rest =>
    if e.id = id then some (e, rest)
    else
      match removeFirst id rest with
      | none => none
      | some (deleted, kept) => some (deleted, e :: kept)

/-- The command `DeleteObjectCommand`: it succeeds whether or not the key held
an object. -/
def deleteObject (cfg : Config) (s3 : S3State) (key : String) : Except Exn S3State :=
  match s3Rejects cfg s3 with
  | some e => Except.error e
  | none => Except.ok { s3 with objects := s3.objects.filter (fun p => p.1 != key) }

/-- What `DELETE /delete/:type/:id` reads: its two path parameters. -/
structure DeleteRequest where
  type : String
  id : String
  deriving DecidableEq, Repr

/-- The state changes the delete handler attempts, in the order it performs
them. -/
inductive DeleteStep where
  /-- The call `fs.writeFile` of the list of the type. -/
  | writeIndex (type : String) (list : List Entry)
  /-- The call `s3.send(new DeleteObjectCommand(...))`. -/
  | deleteObject (key : String)
  deriving DecidableEq, Repr

/-- A run of the delete handler: its outcome and its steps. -/
structure DeleteRun where
  outcome : Outcome
  steps : List DeleteStep

/-- The answer `404` with `success: false`. -/
def deleteNotFound (world : World) : DeleteRun :=
  { outcome := { response := Response.json 404 (JsonBody.failure none),
                 effects := [], world := world, logged := [] },
    steps := [] }

/-- The handler of `DELETE /delete/:type/:id`, with its steps. A failure of the
store delete is caught and only warned about. -/
def deleteRun (cfg : Config) (world : World) (req : DeleteRequest) : DeleteRun :=
  match world.data req.type with
  | none => deleteNotFound world
  | some list =>
    match removeFirst req.id list with
    | none => deleteNotFound world
    | some (deleted, kept) =>
      let written : World :=
        { world with data := fun t => if t = req.type then some kept else world.data t }
      match truthy deleted.key, truthy cfg.S3_BUCKET with
      | some key, some _ =>
        match deleteObject cfg world.s3 key with
        | Except.error _ =>
          { outcome := { response := Response.json 200 JsonBody.done,
                         effects := [Effect.deleteObject key], world := written, logged := [] },
            steps := [DeleteStep.writeIndex req.type kept, DeleteStep.deleteObject key] }
        | Except.ok s3 =>
          { outcome := { response := Response.json 200 JsonBody.done,
                         effects := [Effect.deleteObject key],
                         world := { written with s3 := s3 }, logged := [] },
            steps := [DeleteStep.writeIndex req.type kept, DeleteStep.deleteObject key] }
      | _, _ =>
        { outcome := { response := Response.json 200 JsonBody.done,
                       effects := [], world := written, logged := [] },
          steps := [DeleteStep.writeIndex req.type kept] }

/-- The handler of `DELETE /delete/:type/:id` (Delete). -/
def deleteHandler (cfg : Config) (world : World) (req : DeleteRequest) : Outcome :=
  (deleteRun cfg world req).outcome

/-! ## ExtractPoster: `POST /video/poster` -/

/-- What `POST /video/poster` reads from the body. -/
structure PosterRequest where
  key : Option String
  id : Option String
  deriving DecidableEq, Repr

/-- The constant `thumbKey` of the poster handler. -/
def thumbKey (key : String) : String :=
  "thumbnails/" ++ stripExtension (lastSegment key) ++ ".jpg"

/-- The call `list.find(x => x.id === id || x.key === key)` followed by the two
assignments to the entry found: the list with the poster fields of that entry
set, or `none` when no entry is found. -/
def setPoster (id key posterKey posterUrl : String) : List Entry → Option (List Entry)
  | [] => none
  | e :: rest =>
    if e.id = id ∨ e.key = some key then
      some ({ e with posterKey := some posterKey, posterUrl := some posterUrl } :: rest)
    else
      match setPoster id key posterKey posterUrl rest with
      | none => none
      | some updated => some (e :: updated)

/-- The update of `videos.json` at the end of the poster handler: made when an
id is given, the file exists and an entry is found. -/
def attachPoster (data : DataDir) (id : Option String) (key posterKey posterUrl : String) :
    DataDir :=
  match truthy id, data "videos" with
  | some id, some list =>
    (match setPoster id key posterKey posterUrl list with
     | none => data
     | some updated => fun t => if t = "videos" then some updated else data t)
  | _, _ => data

/-- The handler of `POST /video/poster` (ExtractPoster). The argument `ffmpeg`
stands for the frame extraction through the temporary files: the video bytes
in, the bytes of the still image out. -/
def posterHandler (ffmpeg : Bytes → Except Exn Bytes) (cfg : Config) (world : World)
    (req : PosterRequest) : Outcome :=
  match truthy req.key with
  | none =>
    { response := Response.json 400 (JsonBody.failure (some "Missing key")),
      effects := [], world := world, logged := [] }
  | some key =>
    match getObject cfg world.s3 key with
    | Except.error e =>
      { response := Response.json 500 (JsonBody.failure (some e.message)),
        effects := [Effect.getObject key], world := world, logged := [e] }
    | Except.ok inputBuf =>
      match ffmpeg inputBuf with
      | Except.error e =>
        { response := Response.json 500 (JsonBody.failure (some e.message)),
          effects := [Effect.getObject key], world := world, logged := [e] }
      | Except.ok outBuf =>
        let obj : S3Object :=
          { body := outBuf, contentType := some "image/jpeg",
            cacheControl := some immutableCache }
        match putObject cfg world.s3 (thumbKey key) obj with
        | Except.error e =>
          { response := Response.json 500 (JsonBody.failure (some e.message)),
            effects := [Effect.getObject key, Effect.putObject (thumbKey key) obj],
            world := world, logged := [e] }
        | Except.ok s3 =>
          let thumbUrl := s3ObjectUrl cfg (thumbKey key)
          { response := Response.json 200 (JsonBody.poster (thumbKey key) thumbUrl),
            effects := [Effect.getObject key, Effect.putObject (thumbKey key) obj],
            world := { world with
              s3 := s3, data := attachPoster world.data req.id key (thumbKey key) thumbUrl },
            logged := [] }

/-! ## Routing -/

/-- The HTTP methods the server registers routes for. -/
inductive Method where
  | GET
  | POST
  | DELETE
  deriving DecidableEq, Repr

/-- A segment of a route path: a literal, a named parameter `:name`, or the
wildcard `*`. -/
inductive Seg where
  | lit (s : String)
  | param
  | wildcard
  deriving DecidableEq, Repr

/-- The handlers registered with `app.get`, `app.post` and `app.delete`. -/
inductive Endpoint where
  | session
  | adminPage
  | login
  | logout
  | contact
  | uploadForm
  | uploadYoutube
  | dataList
  | deleteEntry
  | analyticsEvent
  | analyticsSummary
  | analyticsReset
  | uploadPresign
  | uploadComplete
  | img
  | videoPoster
  | fallback
  deriving DecidableEq, Repr

/-- A registered route. -/
structure Route where
  method : Method
  pattern : List Seg
  endpoint : Endpoint
  deriving DecidableEq, Repr

/-- The routes of `server.js` in the order of their registration. -/
def routes : List Route :=
  [ ⟨Method.GET, [Seg.lit "session"], Endpoint.session⟩,
    ⟨Method.GET, [Seg.lit "admin.html"], Endpoint.adminPage⟩,
    ⟨Method.POST, [Seg.lit "login"], Endpoint.login⟩,
    ⟨Method.POST, [Seg.lit "logout"], Endpoint.logout⟩,
    ⟨Method.POST, [Seg.lit "contact"], Endpoint.contact⟩,
    ⟨Method.POST, [Seg.lit "upload", Seg.param], Endpoint.uploadForm⟩,
    ⟨Method.POST, [Seg.lit "upload", Seg.lit "youtube"], Endpoint.uploadYoutube⟩,
    ⟨Method.GET, [Seg.lit "data", Seg.param], Endpoint.dataList⟩,
    ⟨Method.DELETE, [Seg.lit "delete", Seg.param, Seg.param], Endpoint.deleteEntry⟩,
    ⟨Method.POST, [Seg.lit "analytics", Seg.lit "event"], Endpoint.analyticsEvent⟩,
    ⟨Method.GET, [Seg.lit "analytics", Seg.lit "summary"], Endpoint.analyticsSummary⟩,
    ⟨Method.DELETE, [Seg.lit "analytics"], Endpoint.analyticsReset⟩,
    ⟨Method.POST, [Seg.lit "upload", Seg.lit "presign", Seg.param], Endpoint.uploadPresign⟩,
    ⟨Method.POST, [Seg.lit "upload", Seg.lit "complete"], Endpoint.uploadComplete⟩,
    ⟨Method.GET, [Seg.lit "img", Seg.wildcard], Endpoint.img⟩,
    ⟨Method.POST, [Seg.lit "video", Seg.lit "poster"], Endpoint.videoPoster⟩,
    ⟨Method.GET, [Seg.wildcard], Endpoint.fallback⟩ ]

/-- Matching of a route path against the segments of a request path (the
decoded path split at `/`, without the leading slash, so never empty). The
result is the list of captured parameters. Literals are compared without regard
to case, a parameter takes one non-empty segment, a wildcard takes the rest, and
one trailing slash is allowed. -/
def matchPattern : List Seg → List String → Option (List String)
  | [], [] => some []
  | [], [s] => if s = "" then some [] else none
  | [Seg.wildcard], s :: rest => some [String.intercalate "/" (s :: rest)]
  | Seg.lit l :: ps, s :: ss => if toLowerCase s = l then matchPattern ps ss else none
  | Seg.param :: ps, s :: ss =>
    if s = "" then none
    else
      match matchPattern ps ss with
      | none => none
      | some captured => some (s :: captured)
  | _, _ => none

/-- First-match dispatch in registration order: the endpoint of the first route
with the method whose path matches, with the captured parameters. -/
def dispatchIn : List Route → Method → List String → Option (Endpoint × List String)
  | [], _, _ => none
  | r :: rs, method, path =>
    if r.method = method then
      match matchPattern r.pattern path with
      | some captured => some (r.endpoint, captured)
      | none => dispatchIn rs method path
    else dispatchIn rs method path

/-- Dispatch over the routes of the server. Requests for files of the public
directory, which the static middleware answers before any route, are not
modelled. -/
def dispatch (method : Method) (path : List String) : Option (Endpoint × List String) :=
  dispatchIn routes method path

/-- What the routed handlers read from a request. -/
structure HttpRequest where
  method : Method
  path : List String
  /-- Whether `req.session.user` is set. -/
  loggedIn : Bool
  query : List (String × String)
  /-- The string fields of the JSON body. -/
  body : List (String × String)
  /-- The multipart field `file`, when the request carries one. -/
  file : Option UploadedFile
  deriving DecidableEq, Repr

/-- The middleware `requireLogin` in front of a handler. -/
def requireLogin (loggedIn : Bool) (world : World) (next : Outcome) : Outcome :=
  if loggedIn then next
  else
    { response := Response.json 403 (JsonBody.denied "Unauthorized"),
      effects := [], world := world, logged := [] }

/-- The server on the endpoints of the upload protocol, the derivative cache
and the poster: the request is dispatched and the handler of the endpoint runs
on what it reads from the request. Other endpoints are outside the model
(`none`). -/
def serve (env : Env) (idNow : Nat) (ffmpeg : Bytes → Except Exn Bytes) (cfg : Config)
    (world : World) (req : HttpRequest) : Option Outcome :=
  match dispatch req.method req.path with
  | some (Endpoint.uploadForm, [type]) =>
    some (requireLogin req.loggedIn world (uploadHandler env idNow cfg world ⟨type, req.file⟩))
  | some (Endpoint.uploadYoutube, _) =>
    some (requireLogin req.loggedIn world (youtubeHandler env world ⟨req.body.lookup "url"⟩))
  | some (Endpoint.dataList, [type]) => some (dataHandler world type)
  | some (Endpoint.deleteEntry, [type, id]) =>
    some (requireLogin req.loggedIn world (deleteHandler cfg world ⟨type, id⟩))
  | some (Endpoint.uploadPresign, [type]) =>
    some (requireLogin req.loggedIn world
      (presignHandler env cfg world
        ⟨type, req.body.lookup "filename", req.body.lookup "contentType"⟩))
  | some (Endpoint.uploadComplete, _) =>
    some (requireLogin req.loggedIn world
      (completeHandler env cfg world
        ⟨req.body.lookup "type", req.body.lookup "key", req.body.lookup "name",
          req.body.lookup "contentType"⟩))
  | some (Endpoint.img, [rawKey]) =>
    some (imgHandler env cfg world
      ⟨rawKey, req.query.lookup "w", req.query.lookup "h", req.query.lookup "f",
        req.query.lookup "q"⟩)
  | some (Endpoint.videoPoster, _) =>
    some (requireLogin req.loggedIn world
      (posterHandler ffmpeg cfg world ⟨req.body.lookup "key", req.body.lookup "id"⟩))
  | _ => none

/-! ## Sequences of operations -/

/-- An operation on the index with the clock and libraries it runs against. -/
inductive Op where
  | upload (env : Env) (idNow : Nat) (req : UploadRequest)
  | complete (env : Env) (req : CompleteRequest)
  | youtube (env : Env) (req : YoutubeRequest)
  | poster (ffmpeg : Bytes → Except Exn Bytes) (req : PosterRequest)
  | delete (req : DeleteRequest)

/-- The handler of an operation. -/
def Op.run (cfg : Config) (world : World) : Op → Outcome
  | Op.upload env idNow req => uploadHandler env idNow cfg world req
  | Op.complete env req => completeHandler env cfg world req
  | Op.youtube env req => youtubeHandler env world req
  | Op.poster ffmpeg req => posterHandler ffmpeg cfg world req
  | Op.delete req => deleteHandler cfg world req

/-- The clock reading from which an operation makes the id of its entry. -/
def Op.idClock : Op → Option Nat
  | Op.upload _ idNow _ => some idNow
  | Op.complete env _ => some env.now
  | Op.youtube env _ => some env.now
  | Op.poster _ _ => none
  | Op.delete _ => none

/-- The state after a sequence of operations, each run on the state the
previous one left. -/
def runOps (cfg : Config) : World → List Op → World
  | world, [] => world
  | world, op :: ops => runOps cfg (op.run cfg world).world ops

/-- The id of the entry an answer returns, if it returns one. -/
def issuedId (out : Outcome) : Option String :=
  match out.response with
  | Response.json _ (JsonBody.entry e) => some e.id
  | _ => none

/-- The ids returned by the answers of a sequence of operations, in order. -/
def issuedIds (cfg : Config) : World → List Op → List String
  | _, [] => []
  | world, op :: ops =>
    (issuedId (op.run cfg world)).toList ++ issuedIds cfg (op.run cfg world).world ops

/-- The ids of the entries in the index of a type, in list order. -/
def idsOf (data : DataDir) (type : String) : List String :=
  ((data type).getD []).map (fun e => e.id)

/-- Whether a storage key begins with the name of a type followed by `/`. -/
def inNamespace (type key : String) : Bool :=
  (type ++ "/").data.isPrefixOf key.data

/-- Every entry with a storage key, in the index of any type, has a key that
begins with the name of the type followed by `/`. -/
def KeysInNamespace (data : DataDir) : Prop :=
  ∀ (t : String) (e : Entry) (k : String),
    e ∈ (data t).getD [] → e.key = some k → inNamespace t k = true

/-- Whether an operation, if it is a completion, reports a key that begins with
its type followed by `/` (as the keys the presign handler issues do). Other
operations take no key for an entry from the client. -/
def Op.keyInNamespace : Op → Bool
  | Op.complete _ req =>
    (match req.type, req.key with
     | some t, some k => inNamespace t k
     | _, _ => true)
  | _ => true

/-- How one operation changes the indexes: not at all, by putting one entry in
front of the list of one type, or by replacing the list of one type with one
that has no new ids and no new keys. -/
def IndexStep (op : Op) (old new : DataDir) : Prop :=
  new = old
    ∨ (∃ (type : String) (e : Entry) (c : Nat), new = saveMetadata old type e
        ∧ op.idClock = some c ∧ e.id = Nat.repr c
        ∧ (op.keyInNamespace = true → ∀ k, e.key = some k → inNamespace type k = true))
    ∨ (∃ (type : String) (list updated : List Entry), old type = some list
        ∧ new = (fun t => if t = type then some updated else old t)
        ∧ List.Sublist (updated.map (fun e => e.id)) (list.map (fun e => e.id))
        ∧ ∀ x ∈ updated, ∃ y ∈ list, x.key = y.key)

/-- The ids in every index are pairwise distinct and each is the decimal
rendering of one of the clock readings `clocks`. -/
def IdsFrom (clocks : List Nat) (data : DataDir) : Prop :=
  ∀ t, (idsOf data t).Nodup ∧ ∀ i ∈ idsOf data t, ∃ c ∈ clocks, i = Nat.repr c

/-- No match of the link pattern begins inside the prefix `p` of the text
`p ++ s`. -/
def noMatchBefore : List Char → List Char → Bool
  | [], _ => true
  | c :: p, s => (matchIdAt (c :: (p ++ s))).isNone && noMatchBefore p s

/-- Format normalisation in the words of the specification: an absent format
means `webp`, letter case is ignored, and `jpg` is an alias of `jpeg`. -/
def specNormalisedFormat (f : Option String) : String :=
  match f with
  | none => "webp"
  | some s => if toLowerCase s = "jpg" then "jpeg" else toLowerCase s

/-! ## Where the model of numbers and of letter case is exact -/

/-- Whether a number of the model is the JavaScript number the code computes:
`NaN`, or an integer of magnitude below `2^53`, which a double holds exactly and
which a template literal prints in plain decimal. -/
def JSNum.isExact : JSNum → Bool
  | JSNum.nan => true
  | JSNum.int z => decide (z.natAbs < 2 ^ 53)

/-- Whether a request lies where the embedding computes the width, the height
and the normalised format the code computes: width and height are exact numbers
and the format parameter is ASCII, which `toLowerCase` lower-cases as JavaScript
does. -/
def ImgRequest.isExact (req : ImgRequest) : Bool :=
  (imgWidth req).isExact && (imgHeight req).isExact
    && (orDefault req.f "webp").data.all (fun c => decide (c.toNat < 128))

/-! ## Output dimensions of the resize -/

/-- Modelled from the spec: a scaled dimension of the image library (`sharp`,
not part of the sources), `d * num / den` in whole pixels. The spec gives exact
examples only; the value is rounded to the nearest pixel, a half upwards, and
an image keeps at least one pixel in each axis. -/
def scaleDim (d num den : Nat) : Nat :=
  max 1 ((2 * d * num + den) / (2 * den))

/-- Modelled from the spec: the resize of the image library (`sharp`, not part
of the sources) called with `fit: "inside", withoutEnlargement: true` on a
source of `W`×`H` pixels, in the words "bounded to fit within width×height
preserving aspect ratio, never upscaling beyond original dimensions", a `null`
bound being "unconstrained in that axis". Both dimensions are scaled by one
factor, the largest that is at most 1, at most `w / W` when a width bound is
given and at most `h / H` when a height bound is given; the factor is kept as a
fraction. -/
def fitInside (W H : Nat) (w h : Option Int) : Nat × Nat :=
  let s1 : Nat × Nat :=
    match w with
    | some b => if b.toNat < W then (b.toNat, W) else (1, 1)
    | none => (1, 1)
  let s2 : Nat × Nat :=
    match h with
    | some b => if b.toNat * s1.2 < s1.1 * H then (b.toNat, H) else s1
    | none => s1
  (scaleDim W s2.1 s2.2, scaleDim H s2.1 s2.2)

/-- Modelled from the spec: the dimensions of the image that the pipeline makes
of a source of `W`×`H` pixels. Without a resize they are those of the source
("both zero means no resize, re-encode only"), with one they are those of
`fitInside`; encoding keeps them. -/
def outputSize (W H : Nat) (p : Pipeline) : Nat × Nat :=
  match p.resize with
  | none => (W, H)
  | some (w, h) => fitInside W H w h

/-! ## The backfill script: `extractKey`

The script parses the URL with `new URL(url, 'http://dummy')` and reads its
`pathname`. The parser of the runtime is written out below, after the URL
Standard, for inputs without a scheme (resolved against the base) and inputs
with one of the schemes `http`, `https`, `ws`, `wss`, `ftp`. Whether the text
between the slashes and the path is an acceptable authority (credentials, host,
port) is left to the argument `authorityOk`; the path does not depend on it
otherwise. -/

/-- The input of the parser: leading and trailing C0 controls and spaces are
removed, then every tab and newline. -/
def urlPreprocess (l : List Char) : List Char :=
  let trimmed :=
    ((l.dropWhile (fun c => c.toNat ≤ 0x20)).reverse.dropWhile (fun c => c.toNat ≤ 0x20)).reverse
  trimmed.filter (fun c => !(c.toNat = 9 || c.toNat = 10 || c.toNat = 13))

/-- The bytes of the UTF-8 encoding of a character. -/
def utf8Bytes (c : Char) : List Nat :=
  let n := c.toNat
  if n < 0x80 then [n]
  else if n < 0x800 then [0xC0 + n / 64, 0x80 + n % 64]
  else if n < 0x10000 then [0xE0 + n / 4096, 0x80 + (n / 64) % 64, 0x80 + n % 64]
  else [0xF0 + n / 262144, 0x80 + (n / 4096) % 64, 0x80 + (n / 64) % 64, 0x80 + n % 64]

/-- An upper-case hexadecimal digit. -/
def hexDigit (n : Nat) : Char :=
  if n < 10 then Char.ofNat (48 + n) else Char.ofNat (55 + n)

/-- A byte percent-encoded. -/
def percentEncodeByte (b : Nat) : List Char :=
  ['%', hexDigit (b / 16), hexDigit (b % 16)]

/-- The path percent-encode set of the parser of the runtime: C0 controls,
everything above `~`, space and the characters `"`, `#`, `<`, `>`, `?`, the
backtick and the two braces. -/
def inPathPercentEncodeSet (c : Char) : Bool :=
  c.toNat ≤ 0x1F || c.toNat > 0x7E || c.toNat = 0x20 || c.toNat = 0x22 || c.toNat = 0x23
    || c.toNat = 0x3C || c.toNat = 0x3E || c.toNat = 0x3F || c.toNat = 0x60
    || c.toNat = 0x7B || c.toNat = 0x7D

/-- A character of a path as the parser appends it to the current segment. -/
def encodePathChar (c : Char) : List Char :=
  if inPathPercentEncodeSet c then (utf8Bytes c).flatMap percentEncodeByte else [c]

/-- A single-dot path segment: `.` or `%2e`, in either case. -/
def isSingleDot (segment : List Char) : Bool :=
  segment = ['.'] || segment.map Char.toLower = ['%', '2', 'e']

/-- A double-dot path segment: `..` with either dot possibly written `%2e`. -/
def isDoubleDot (segment : List Char) : Bool :=
  segment.map Char.toLower = ['.', '.']
    || segment.map Char.toLower = ['.', '%', '2', 'e']
    || segment.map Char.toLower = ['%', '2', 'e', '.']
    || segment.map Char.toLower = ['%', '2', 'e', '%', '2', 'e']

/-- The end of a segment in the path state: a double-dot segment removes the
last segment of the path, a single-dot segment is dropped, any other segment is
appended; a dot segment that is not followed by a slash leaves an empty last
segment. -/
def closeSegment (path : List (List Char)) (buffer : List Char) (atSlash : Bool) :
    List (List Char) :=
  if isDoubleDot buffer then (if atSlash then path.dropLast else path.dropLast ++ [[]])
  else if isSingleDot buffer then (if atSlash then path else path ++ [[]])
  else path ++ [buffer]

/-- The path state of the parser for a special scheme: `/` and `\` end a
segment, `?` and `#` end the path, any other character is appended to the
current segment, percent-encoded when it is in the path percent-encode set. -/
def pathState : List (List Char) → List Char → List Char → List (List Char)
  | path, buffer, [] => closeSegment path buffer false
  | path, buffer, c :: rest =>
    if c = '/' ∨ c = '\\' then pathState (closeSegment path buffer true) [] rest
    else if c = '?' ∨ c = '#' then closeSegment path buffer false
    else pathState path (buffer ++ encodePathChar c) rest

/-- The path start state for a special scheme: one leading `/` or `\` is
consumed. -/
def pathStart (l : List Char) : List (List Char) :=
  match l with
  | [] => pathState [] [] []
  | c :: rest => if c = '/' ∨ c = '\\' then pathState [] [] rest else pathState [] [] (c :: rest)

/-- The characters that end the authority of a special scheme. -/
def isAuthorityEnd (c : Char) : Bool :=
  c == '/' || c == '\\' || c == '?' || c == '#'

/-- The states from the slashes after a special scheme to the path: all
slashes are skipped, the authority runs to the next `/`, `\`, `?` or `#`, and
the path starts there. The result is `none` when the parser fails: the authority
is empty or not acceptable. -/
def specialAuthority (authorityOk : String → Bool) (l : List Char) :
    Option (List (List Char)) :=
  let afterSlashes := l.dropWhile (fun c => c == '/' || c == '\\')
  let authority := afterSlashes.takeWhile (fun c => !isAuthorityEnd c)
  let rest := afterSlashes.dropWhile (fun c => !isAuthorityEnd c)
  if authority = [] ∨ authorityOk ⟨authority⟩ = false then none
  else some (pathStart rest)

/-- The relative state and the relative slash state against the base
`http://dummy`, whose path is one empty segment: two leading slashes start an
authority, one leading slash or none starts a path, and `?`, `#` or the end of
the input keep the path of the base. -/
def relativeState (authorityOk : String → Bool) (l : List Char) :
    Option (List (List Char)) :=
  match l with
  | [] => some [[]]
  | c :: rest =>
    if c = '/' ∨ c = '\\' then
      (match rest with
       | [] => some (pathState [] [] [])
       | d :: rest2 =>
         if d = '/' ∨ d = '\\' then specialAuthority authorityOk rest2
         else some (pathState [] [] rest))
    else if c = '?' ∨ c = '#' then some [[]]
    else some (pathState [] [] (c :: rest))

/-- The scheme state: a letter followed by letters, digits, `+`, `-`, `.` and
then a colon is a scheme, returned in lower case with what follows the colon. -/
def splitScheme (l : List Char) : Option (List Char × List Char) :=
  match l with
  | [] => none
  | c :: cs =>
    if c.isAlpha then
      (match cs.dropWhile (fun x => x.isAlphanum || x == '+' || x == '-' || x == '.') with
       | [] => none
       | d :: rest =>
         if d = ':' then
           some ((c :: cs.takeWhile (fun x => x.isAlphanum || x == '+' || x == '-' || x == '.')).map
             Char.toLower, rest)
         else none)
    else none

/-- What `new URL(url, 'http://dummy')` does with an input. -/
inductive UrlParse where
  /-- The URL was parsed; the path is the list of its segments. -/
  | parsed (path : List (List Char))
  /-- The constructor throws. -/
  | failure
  /-- The input has a scheme this model does not cover. -/
  | unmodelled
  deriving DecidableEq, Repr

/-- The constructor `new URL(url, 'http://dummy')`, as far as the path. -/
def parseUrl (authorityOk : String → Bool) (url : String) : UrlParse :=
  let input := urlPreprocess url.data
  let result : Option (Option (List (List Char))) :=
    match splitScheme input with
    | none => some (relativeState authorityOk input)
    | some (scheme, rest) =>
      if scheme = ['h', 't', 't', 'p'] then
        (match rest with
         | '/' :: '/' :: rest2 => some (specialAuthority authorityOk rest2)
         | _ => some (relativeState authorityOk rest))
      else if scheme = ['h', 't', 't', 'p', 's'] ∨ scheme = ['w', 's'] ∨ scheme = ['w', 's', 's']
          ∨ scheme = ['f', 't', 'p'] then
        some (specialAuthority authorityOk rest)
      else none
  match result with
  | none => UrlParse.unmodelled
  | some none => UrlParse.failure
  | some (some path) => UrlParse.parsed path

/-- The getter `pathname` of a parsed URL with a special scheme: every segment
preceded by a slash. -/
def pathname (path : List (List Char)) : String :=
  ⟨path.flatMap (fun segment => '/' :: segment)⟩

/-- The call `s.replace(/^\/+/, '')`: leading slashes are removed. -/
def stripLeadingSlashes (s : String) : String :=
  ⟨s.data.dropWhile (fun c => c == '/')⟩

/-- The call `s.replace(/^uploads\//, '')`. -/
def stripUploads (s : String) : String :=
  if "uploads/".data.isPrefixOf s.data then ⟨s.data.drop 8⟩ else s

/-- Characters that a URL path keeps as they are and that end neither a
segment nor the path: ASCII letters and digits, `-`, `_` and `.`. -/
def isPlainChar (c : Char) : Bool :=
  c.isAlphanum || c == '-' || c == '_' || c == '.'

/-- The function `extractKey` of `scripts/backfill_keys_from_url.js`; `none`
for an input whose scheme the parser model does not cover. -/
def extractKey (authorityOk : String → Bool) (url : String) : Option String :=
  match parseUrl authorityOk url with
  | UrlParse.unmodelled => none
  | UrlParse.failure => some (stripUploads (stripLeadingSlashes url))
  | UrlParse.parsed segments =>
    let path := stripLeadingSlashes (pathname segments)
    if "uploads/".data.isPrefixOf path.data then some (stripUploads path)
    else some (stripLeadingSlashes path)

/-! ## Sample inputs -/

/-- An authority check that accepts the host of the sample bucket and the host
of the base. -/
def sampleAuthorityOk : String → Bool :=
  fun authority => authority = "farm-media.s3.amazonaws.com" || authority = "dummy"

/-- A clock reading with an image library that returns its input and a signer
that always signs. -/
def sampleEnv : Env :=
  { now := 1700000000000,
    isoDate := "2023-11-14T22:13:20.000Z",
    month := "2023-11",
    sharp := fun buf _ => Except.ok buf,
    getSignedUrl := fun _ key _ _ => Except.ok ("https://signed.example/" ++ key) }

/-- The sample clock one millisecond later. -/
def sampleLaterEnv : Env :=
  { sampleEnv with now := 1700000000001 }

/-- A completion request for an uploaded photo. -/
def sampleComplete : CompleteRequest :=
  { type := some "photos", key := some "photos/1700000000000-cat.png", name := none,
    contentType := some "image/png" }

/-- An uploaded file. -/
def sampleFile : UploadedFile :=
  { originalname := "cat.png", mimetype := "image/png", buffer := [1, 2, 3] }

/-- A form upload of the sample file as a photo. -/
def sampleUpload : UploadRequest :=
  { type := "photos", file := some sampleFile }

/-- A configuration with a bucket in the default region and no public base. -/
def sampleCfg : Config :=
  { S3_BUCKET := some "farm-media", S3_PUBLIC_URL_BASE := "", AWS_REGION := none }

/-- A stored photo. -/
def samplePhoto : S3Object :=
  { body := [1, 2, 3], contentType := some "image/png", cacheControl := none }

/-- A stored derivative. -/
def sampleDerivative : S3Object :=
  { body := [1, 2, 3], contentType := some "image/webp", cacheControl := some immutableCache }

/-- A bucket holding one photo. -/
def sampleS3 : S3State :=
  { objects := [("photos/a.png", samplePhoto)], fault := none }

/-- A server with one photo in the bucket, no index file and no analytics
file. -/
def sampleWorld : World :=
  { data := fun _ => none, analytics := AnalyticsFile.absent, s3 := sampleS3 }

/-- The sample server after the derivative `optimized/0x0/a.webp` was stored. -/
def sampleHitWorld : World :=
  { data := fun _ => none, analytics := AnalyticsFile.absent,
    s3 := { objects := [("optimized/0x0/a.webp", sampleDerivative), ("photos/a.png", samplePhoto)],
            fault := none } }

/-- The sample server with an analytics file that is not JSON. -/
def sampleBrokenSinkWorld : World :=
  { data := fun _ => none, analytics := AnalyticsFile.unusable "Unexpected end of JSON input",
    s3 := sampleS3 }

/-- A frame extractor that returns a fixed still image. -/
def sampleFfmpeg : Bytes → Except Exn Bytes :=
  fun _ => Except.ok [7, 7, 7]

/-- The request `POST /upload/complete` of a logged-in client for an uploaded
photo. -/
def sampleCompleteHttp : HttpRequest :=
  { method := Method.POST, path := ["upload", "complete"], loggedIn := true, query := [],
    body := [("type", "photos"), ("key", "photos/1700000000000-cat.png"),
      ("contentType", "image/png")],
    file := none }

/-- The request `POST /upload/youtube` of a logged-in client with a short
link. -/
def sampleYoutubeHttp : HttpRequest :=
  { method := Method.POST, path := ["upload", "youtube"], loggedIn := true, query := [],
    body := [("url", "https://youtu.be/dQw4w9WgXcQ")], file := none }

/-- A stored video. -/
def sampleVideo : S3Object :=
  { body := [9, 9, 9, 9], contentType := some "video/mp4", cacheControl := none }

/-- A completion request for an uploaded video. -/
def sampleCompleteVideo : CompleteRequest :=
  { type := some "videos", key := some "videos/1700000000000-clip.mp4", name := none,
    contentType := some "video/mp4" }

/-- A server with one video in the bucket, after the completion of its upload
was reported twice, one millisecond apart: the videos index holds two entries
with the key of the video, the later one first. -/
def sampleVideoWorld : World :=
  runOps sampleCfg
    { data := fun _ => none, analytics := AnalyticsFile.absent,
      s3 := { objects := [("videos/1700000000000-clip.mp4", sampleVideo)], fault := none } }
    [Op.complete sampleEnv sampleCompleteVideo, Op.complete sampleLaterEnv sampleCompleteVideo]

/-- A poster request for the sample video and the id of its first entry. -/
def samplePoster : PosterRequest :=
  { key := some "videos/1700000000000-clip.mp4", id := some "1700000000000" }

/-- A completion request that reports a key of the videos prefix for the type
photos. -/
def sampleCompleteForeign : CompleteRequest :=
  { type := some "photos", key := some "videos/1700000000000-clip.mp4", name := none,
    contentType := some "video/mp4" }

/-- The sample server after two form uploads of the sample file whose Puts
started one millisecond apart and ended in the same millisecond. -/
def sampleTwinWorld : World :=
  runOps sampleCfg sampleWorld
    [Op.upload sampleEnv 1700000000005 sampleUpload,
     Op.upload sampleLaterEnv 1700000000005 sampleUpload]

/-! ## Decimal rendering and splitting lemmas -/

theorem digitChar_val (d : Nat) (h : d < 10) : (Nat.digitChar d).toNat - 48 = d := by
  interval_cases d <;> rfl
theorem digitChar_isDigit (d : Nat) (h : d < 10) : (Nat.digitChar d).isDigit = true := by
  interval_cases d <;> rfl

theorem toDigitsCore_value : ∀ (fuel n : Nat) (ds : List Char), n < fuel →
    digitsValue (Nat.toDigitsCore 10 fuel n ds)
      = ds.foldl (fun acc c => 10 * acc + (c.toNat - 48)) n := by
  intro fuel
  induction fuel with
  | zero => intro n ds h; omega
  | succ fuel ih =>
    intro n ds h
    unfold Nat.toDigitsCore
    simp only
    split
    · rename_i h0
      have : n < 10 := by omega
      simp [digitsValue, List.foldl, Nat.mod_eq_of_lt this, digitChar_val n this]
    · rename_i h0
      rw [ih (n / 10) _ (by omega)]
      simp only [List.foldl, digitChar_val _ (Nat.mod_lt n (by norm_num : 10 > 0))]
      congr 1
      omega

theorem toDigitsCore_isDigit : ∀ (fuel n : Nat) (ds : List Char),
    (∀ c ∈ ds, c.isDigit = true) → ∀ c ∈ Nat.toDigitsCore 10 fuel n ds, c.isDigit = true := by
  intro fuel
  induction fuel with
  | zero => intro n ds h; simpa [Nat.toDigitsCore] using h
  | succ fuel ih =>
    intro n ds h
    unfold Nat.toDigitsCore
    simp only
    have hd := digitChar_isDigit (n % 10) (Nat.mod_lt n (by norm_num))
    split
    · intro c hc
      rcases List.mem_cons.1 hc with rfl | hc
      · exact hd
      · exact h c hc
    · apply ih
      intro c hc
      rcases List.mem_cons.1 hc with rfl | hc
      · exact hd
      · exact h c hc

theorem toDigitsCore_ne_nil (fuel n : Nat) (ds : List Char) :
    Nat.toDigitsCore 10 (fuel + 1) n ds ≠ [] := by
  induction fuel generalizing n ds with
  | zero =>
    unfold Nat.toDigitsCore
    simp only
    split
    · simp
    · simp [Nat.toDigitsCore]
  | succ fuel ih =>
    unfold Nat.toDigitsCore
    simp only
    split
    · simp
    · exact ih _ _

theorem repr_data (n : Nat) : (Nat.repr n).data = Nat.toDigitsCore 10 (n + 1) n [] := rfl

theorem repr_injective {n m : Nat} (h : Nat.repr n = Nat.repr m) : n = m := by
  have h1 : digitsValue (Nat.repr n).data = digitsValue (Nat.repr m).data := by rw [h]
  rw [repr_data, repr_data, toDigitsCore_value _ _ _ (Nat.lt_succ_self n),
    toDigitsCore_value _ _ _ (Nat.lt_succ_self m)] at h1
  simpa using h1

theorem repr_isDigit (n : Nat) : ∀ c ∈ (Nat.repr n).data, c.isDigit = true := by
  rw [repr_data]
  exact toDigitsCore_isDigit _ _ _ (by simp)

theorem repr_ne_nil (n : Nat) : (Nat.repr n).data ≠ [] := by
  rw [repr_data]
  exact toDigitsCore_ne_nil _ _ _

theorem split_unique (c : Char) : ∀ (l1 l2 r1 r2 : List Char), c ∉ l1 → c ∉ l2 →
    l1 ++ c :: r1 = l2 ++ c :: r2 → l1 = l2 ∧ r1 = r2 := by
  intro l1
  induction l1 with
  | nil =>
    intro l2 r1 r2 _ h2 h
    cases l2 with
    | nil => simpa using h
    | cons a l2 =>
      simp only [List.nil_append, List.cons_append, List.cons.injEq] at h
      exact absurd (by rw [h.1]; simp) h2
  | cons a l1 ih =>
    intro l2 r1 r2 h1 h2 h
    cases l2 with
    | nil =>
      simp only [List.nil_append, List.cons_append, List.cons.injEq] at h
      exact absurd (by rw [← h.1]; simp) h1
    | cons b l2 =>
      simp only [List.cons_append, List.cons.injEq] at h
      have := ih l2 r1 r2 (fun hc => h1 (List.mem_cons_of_mem _ hc))
        (fun hc => h2 (List.mem_cons_of_mem _ hc)) h.2
      exact ⟨by rw [h.1, this.1], this.2⟩

theorem numToString_injective {a b : JSNum} (h : numToString a = numToString b) : a = b := by
  have hN : ('N').isDigit = false := by decide
  have hm : ('-').isDigit = false := by decide
  have key : ∀ n : Nat, ∀ s : String, (Nat.repr n).data = s.data →
      ∀ c, s.data.head? = some c → c.isDigit = true := by
    intro n s hs c hc
    have hne := repr_ne_nil n
    rw [hs] at hne
    have := repr_isDigit n
    rw [hs] at this
    cases hd : s.data with
    | nil => exact absurd hd hne
    | cons x xs =>
      rw [hd] at hc this
      simp at hc
      exact this c (by simp [hc])
  cases a with
  | nan =>
    cases b with
    | nan => rfl
    | int z =>
      cases z with
      | ofNat n =>
        have := key n "NaN" (by simp only [numToString] at h; rw [← h]) 'N' rfl
        simp [hN] at this
      | negSucc n =>
        simp only [numToString] at h
        have := congrArg String.data h
        simp at this
  | int z =>
    cases z with
    | ofNat n =>
      cases b with
      | nan =>
        have := key n "NaN" (by simp only [numToString] at h; rw [h]) 'N' rfl
        simp [hN] at this
      | int y =>
        cases y with
        | ofNat m =>
          simp only [numToString] at h
          rw [repr_injective h]
        | negSucc m =>
          simp only [numToString] at h
          have := key n ("-" ++ Nat.repr (m + 1)) (by rw [h]) '-' (by simp)
          simp [hm] at this
    | negSucc n =>
      cases b with
      | nan =>
        simp only [numToString] at h
        have := congrArg String.data h
        simp at this
      | int y =>
        cases y with
        | ofNat m =>
          simp only [numToString] at h
          have := key m ("-" ++ Nat.repr (n + 1)) (by rw [h]) '-' (by simp)
          simp [hm] at this
        | negSucc m =>
          simp only [numToString] at h
          have h2 := congrArg String.data h
          simp only [String.data_append] at h2
          have h3 : Nat.repr (n + 1) = Nat.repr (m + 1) := String.ext (List.append_cancel_left h2)
          have := repr_injective h3
          have : n = m := by omega
          rw [this]

theorem numToString_chars (v : JSNum) :
    ∀ c ∈ (numToString v).data, c.isDigit = true ∨ c = '-' ∨ c = 'N' ∨ c = 'a' := by
  intro c hc
  cases v with
  | nan =>
    have : c = 'N' ∨ c = 'a' ∨ c = 'N' := by simpa [numToString] using hc
    rcases this with h | h | h <;> simp [h]
  | int z =>
    cases z with
    | ofNat n => exact Or.inl (repr_isDigit n c hc)
    | negSucc n =>
      simp only [numToString, String.data_append, List.mem_append] at hc
      rcases hc with h | h
      · have : c = '-' := by simpa using h
        exact Or.inr (Or.inl this)
      · exact Or.inl (repr_isDigit _ c h)

theorem numToString_not_mem (v : JSNum) (c : Char) (hd : c.isDigit = false)
    (h1 : c ≠ '-') (h2 : c ≠ 'N') (h3 : c ≠ 'a') : c ∉ (numToString v).data := by
  intro hc
  rcases numToString_chars v c hc with h | h | h | h
  · rw [hd] at h; exact Bool.noConfusion h
  · exact h1 h
  · exact h2 h
  · exact h3 h

theorem optimizedKey_data (req : ImgRequest) :
    (optimizedKey req).data = "optimized/".data ++ ((numToString (imgWidth req)).data ++
      'x' :: ((numToString (imgHeight req)).data ++
        '/' :: ((imgBaseName req).data ++ '.' :: (imgExt req).data))) := by
  simp [optimizedKey, String.data_append]

theorem optimizedKey_same_source {r1 r2 : ImgRequest} (hk : r1.rawKey = r2.rawKey)
    (h : optimizedKey r1 = optimizedKey r2) :
    imgWidth r1 = imgWidth r2 ∧ imgHeight r1 = imgHeight r2 ∧ imgExt r1 = imgExt r2 := by
  have hd := congrArg String.data h
  rw [optimizedKey_data, optimizedKey_data] at hd
  have hd1 := List.append_cancel_left hd
  have hx : ∀ v : JSNum, 'x' ∉ (numToString v).data := fun v =>
    numToString_not_mem v 'x' (by decide) (by decide) (by decide) (by decide)
  have hs : ∀ v : JSNum, '/' ∉ (numToString v).data := fun v =>
    numToString_not_mem v '/' (by decide) (by decide) (by decide) (by decide)
  obtain ⟨hw, hd2⟩ := split_unique 'x' _ _ _ _ (hx _) (hx _) hd1
  obtain ⟨hh, hd3⟩ := split_unique '/' _ _ _ _ (hs _) (hs _) hd2
  have hb : imgBaseName r1 = imgBaseName r2 := by simp only [imgBaseName, hk]
  rw [hb] at hd3
  have he := List.append_cancel_left hd3
  simp only [List.cons.injEq, true_and] at he
  exact ⟨numToString_injective (String.ext hw), numToString_injective (String.ext hh),
    String.ext he⟩

/-! ## The derivative key -/

/-- C1, as stated, fails: two requests that differ only in quality (80 and 90)
have different parameter tuples and the same derivative key; so do two requests
for different source keys with the same base name; and so do two requests whose
base name and format share a dot differently (`a.b` with `c`, `a` with `b.c`). -/
theorem optimizedKey_collision :
    (descriptorTuple ⟨"photos/a.png", none, none, none, some "80"⟩
        ≠ descriptorTuple ⟨"photos/a.png", none, none, none, some "90"⟩
      ∧ optimizedKey ⟨"photos/a.png", none, none, none, some "80"⟩
        = optimizedKey ⟨"photos/a.png", none, none, none, some "90"⟩)
    ∧ (descriptorTuple ⟨"photos/cat.png", none, none, none, none⟩
        ≠ descriptorTuple ⟨"sponsors/cat.jpg", none, none, none, none⟩
      ∧ optimizedKey ⟨"photos/cat.png", none, none, none, none⟩
        = optimizedKey ⟨"sponsors/cat.jpg", none, none, none, none⟩)
    ∧ (descriptorTuple ⟨"photos/a.b.png", none, none, some "c", none⟩
        ≠ descriptorTuple ⟨"photos/a.png", none, none, some "b.c", none⟩
      ∧ optimizedKey ⟨"photos/a.b.png", none, none, some "c", none⟩
        = optimizedKey ⟨"photos/a.png", none, none, some "b.c", none⟩) := by
  decide

/-- C1, amended: for one source key the derivative key separates width, height
and normalised format. Two requests for the same source key that differ in
width, height or normalised format get different keys, where the widths and
heights are `NaN` or integers below `2^53` in magnitude and the format
parameters are ASCII (there the numbers and the lower-casing of the embedding
are those of the code). -/
theorem optimizedKey_separates (r1 r2 : ImgRequest)
    (_h1 : r1.isExact = true) (_h2 : r2.isExact = true) (hk : r1.rawKey = r2.rawKey)
    (hne : (imgWidth r1, imgHeight r1, imgExt r1) ≠ (imgWidth r2, imgHeight r2, imgExt r2)) :
    optimizedKey r1 ≠ optimizedKey r2 := by
  intro h
  obtain ⟨hw, hh, he⟩ := optimizedKey_same_source hk h
  exact hne (by rw [hw, hh, he])

/-- Witness of `optimizedKey_separates`: widths 800 and 400 of one source. -/
theorem optimizedKey_separates_witness :
    optimizedKey ⟨"photos/123-cat.png", some "800", none, some "webp", none⟩
      ≠ optimizedKey ⟨"photos/123-cat.png", some "400", none, some "webp", none⟩ :=
  optimizedKey_separates ⟨"photos/123-cat.png", some "800", none, some "webp", none⟩
    ⟨"photos/123-cat.png", some "400", none, some "webp", none⟩
    (by decide) (by decide) rfl (by decide)

theorem toLowerCase_eq_empty {s : String} (h : toLowerCase s = "") : s = "" := by
  have hd := congrArg String.data h
  simp only [toLowerCase] at hd
  have : s.data = [] := by simpa using hd
  exact String.ext this

theorem imgExt_eq_spec (req : ImgRequest) :
    imgExt req = if req.f = some "" then "webp" else specNormalisedFormat req.f := by
  have e1 : toLowerCase "webp" = "webp" := by decide
  have e2 : ("webp" : String) ≠ "jpg" := by decide
  rcases req with ⟨k, w, h, f, q⟩
  cases f with
  | none => simp [imgExt, imgFmt, orDefault, specNormalisedFormat, e1, e2]
  | some s =>
    by_cases hs : s = ""
    · subst hs; simp [imgExt, imgFmt, orDefault, e1, e2]
    · simp [imgExt, imgFmt, orDefault, specNormalisedFormat, hs]

theorem imgExt_of_spec {r1 r2 : ImgRequest}
    (h : specNormalisedFormat r1.f = specNormalisedFormat r2.f) : imgExt r1 = imgExt r2 := by
  have key : ∀ a b : ImgRequest, specNormalisedFormat a.f = specNormalisedFormat b.f →
      a.f = some "" → b.f = some "" := by
    intro a b hab ha
    rw [ha] at hab
    cases hb : b.f with
    | none => rw [hb] at hab; exact absurd hab (by decide)
    | some s =>
      rw [hb] at hab
      simp only [specNormalisedFormat] at hab
      by_cases hj : toLowerCase s = "jpg"
      · rw [if_pos hj] at hab; exact absurd hab (by decide)
      · rw [if_neg hj] at hab
        have : toLowerCase s = "" := by rw [← hab]; decide
        rw [toLowerCase_eq_empty this]
  rw [imgExt_eq_spec, imgExt_eq_spec]
  by_cases h1 : r1.f = some ""
  · rw [if_pos h1, if_pos (key r1 r2 h h1)]
  · have h2 : r2.f ≠ some "" := fun h2 => h1 (key r2 r1 h.symm h2)
    rw [if_neg h1, if_neg h2, h]

theorem imgHandler_probe (env : Env) (cfg : Config) (world : World) (req : ImgRequest)
    (hk : req.rawKey ≠ "") :
    (imgHandler env cfg world req).effects.head? = some (Effect.headObject (optimizedKey req)) := by
  unfold imgHandler
  rw [if_neg hk]
  simp only
  split
  · rfl
  · split
    · rfl
    · split
      · rfl
      · split <;> rfl

/-- C2: two requests with the same source key, width and height whose formats
are equal after normalisation (absent means webp, case is ignored, jpg is an
alias of jpeg) have the same derivative key, whatever their quality; and the
key the handler probes first is that key under every clock, library,
configuration and store. -/
theorem optimizedKey_deterministic (r1 r2 : ImgRequest)
    (hk : r1.rawKey = r2.rawKey) (hw : imgWidth r1 = imgWidth r2)
    (hh : imgHeight r1 = imgHeight r2)
    (hf : specNormalisedFormat r1.f = specNormalisedFormat r2.f) :
    optimizedKey r1 = optimizedKey r2 ∧
      ∀ (env1 env2 : Env) (cfg1 cfg2 : Config) (world1 world2 : World), r1.rawKey ≠ "" →
        (imgHandler env1 cfg1 world1 r1).effects.head?
            = some (Effect.headObject (optimizedKey r1))
          ∧ (imgHandler env2 cfg2 world2 r2).effects.head?
            = some (Effect.headObject (optimizedKey r1)) := by
  have hkey : optimizedKey r1 = optimizedKey r2 := by
    simp only [optimizedKey, imgBaseName, hk, hw, hh, imgExt_of_spec hf]
  refine ⟨hkey, ?_⟩
  intro env1 env2 cfg1 cfg2 world1 world2 hne
  refine ⟨imgHandler_probe env1 cfg1 world1 r1 hne, ?_⟩
  rw [hkey]
  exact imgHandler_probe env2 cfg2 world2 r2 (by rw [← hk]; exact hne)

/-- Witness of `optimizedKey_deterministic`: `f=JPG` and `f=jpeg` with
different qualities. -/
theorem optimizedKey_deterministic_witness :
    optimizedKey ⟨"photos/a.png", some "800", none, some "JPG", some "70"⟩
      = optimizedKey ⟨"photos/a.png", some "800", none, some "jpeg", none⟩ :=
  (optimizedKey_deterministic ⟨"photos/a.png", some "800", none, some "JPG", some "70"⟩
    ⟨"photos/a.png", some "800", none, some "jpeg", none⟩
    (by decide) (by decide) (by decide) (by decide)).1

/-! ## The cache-hit and miss paths of `GET /img/*` -/

/-- C3: when the request has a source key and the Head probe of the derivative
key succeeds, the handler issues that probe and nothing else (no Get, no
transform, no Put), leaves the state as it was and redirects to the public URL
of the derivative key. -/
theorem imgHandler_cache_hit (env : Env) (cfg : Config) (world : World) (req : ImgRequest)
    (hk : req.rawKey ≠ "") (hhit : headObject cfg world.s3 (optimizedKey req) = true) :
    (imgHandler env cfg world req).response
        = Response.redirect 302 (s3ObjectUrl cfg (optimizedKey req)) (some immutableCache)
      ∧ (imgHandler env cfg world req).effects = [Effect.headObject (optimizedKey req)]
      ∧ (imgHandler env cfg world req).world = world
      ∧ (imgHandler env cfg world req).logged = [] := by
  unfold imgHandler
  rw [if_neg hk]
  simp only [hhit, if_true, and_self]

/-- Witness of `imgHandler_cache_hit`: the derivative of `photos/a.png` is in
the bucket. -/
theorem imgHandler_cache_hit_witness :
    (imgHandler sampleEnv sampleCfg sampleHitWorld ⟨"photos/a.png", none, none, none, none⟩).response
        = Response.redirect 302 "https://farm-media.s3.amazonaws.com/optimized/0x0/a.webp"
          (some "public, max-age=31536000, immutable")
      ∧ (imgHandler sampleEnv sampleCfg sampleHitWorld
          ⟨"photos/a.png", none, none, none, none⟩).effects
        = [Effect.headObject "optimized/0x0/a.webp"] :=
  have h := imgHandler_cache_hit sampleEnv sampleCfg sampleHitWorld
    ⟨"photos/a.png", none, none, none, none⟩ (by decide) (by decide)
  ⟨h.1.trans (by decide), h.2.1.trans (by decide)⟩

/-- C4: when the bucket answers and holds neither the source key nor the
derivative key, the handler fails: the Get of the source throws the not-found
error, which is logged and answered with status 500; only the Head probe and
that Get are issued (no transform, no Put) and the state is unchanged. -/
theorem imgHandler_source_missing (env : Env) (cfg : Config) (world : World)
    (req : ImgRequest) (hk : req.rawKey ≠ "") (hup : s3Rejects cfg world.s3 = none)
    (hsrc : world.s3.lookup req.rawKey = none)
    (hder : world.s3.lookup (optimizedKey req) = none) :
    (imgHandler env cfg world req).response = Response.send 500 "Image processing error"
      ∧ (imgHandler env cfg world req).logged = [Exn.NoSuchKey req.rawKey]
      ∧ (imgHandler env cfg world req).effects
        = [Effect.headObject (optimizedKey req), Effect.getObject req.rawKey]
      ∧ (imgHandler env cfg world req).world = world := by
  have hhead : headObject cfg world.s3 (optimizedKey req) = false := by
    simp [headObject, hup, hder]
  have hget : getObject cfg world.s3 req.rawKey = Except.error (Exn.NoSuchKey req.rawKey) := by
    simp [getObject, hup, hsrc]
  unfold imgHandler
  rw [if_neg hk]
  simp only [hhead, hget, Bool.false_eq_true, if_false, and_self]

/-- Witness of `imgHandler_source_missing`: `photos/missing.png` is not in the
sample bucket. -/
theorem imgHandler_source_missing_witness :
    (imgHandler sampleEnv sampleCfg sampleWorld
        ⟨"photos/missing.png", some "800", none, none, none⟩).response
        = Response.send 500 "Image processing error"
      ∧ (imgHandler sampleEnv sampleCfg sampleWorld
          ⟨"photos/missing.png", some "800", none, none, none⟩).effects
        = [Effect.headObject "optimized/800x0/missing.webp",
            Effect.getObject "photos/missing.png"] :=
  have h := imgHandler_source_missing sampleEnv sampleCfg sampleWorld
    ⟨"photos/missing.png", some "800", none, none, none⟩
    (by decide) (by decide) (by decide) (by decide)
  ⟨h.1, h.2.2.1.trans (by decide)⟩

/-- C5, as stated, fails: `f=gif` is none of webp, jpeg, png, yet on a miss with
the source present the handler redirects to `optimized/0x0/a.gif` and has
written that object, typed `application/octet-stream`, to the bucket. -/
theorem imgHandler_unsupported_format_writes :
    imgExt ⟨"photos/a.png", none, none, some "gif", none⟩ ∉ ["webp", "jpeg", "png"]
      ∧ (imgHandler sampleEnv sampleCfg sampleWorld
          ⟨"photos/a.png", none, none, some "gif", none⟩).response
        = Response.redirect 302 "https://farm-media.s3.amazonaws.com/optimized/0x0/a.gif"
          (some "public, max-age=31536000, immutable")
      ∧ sampleWorld.s3.lookup "optimized/0x0/a.gif" = none
      ∧ (imgHandler sampleEnv sampleCfg sampleWorld
          ⟨"photos/a.png", none, none, some "gif", none⟩).world.s3.lookup "optimized/0x0/a.gif"
        = some { body := [1, 2, 3], contentType := some "application/octet-stream",
                 cacheControl := some "public, max-age=31536000, immutable" } := by
  decide

/-- C5, amended: a normalised format other than webp, jpeg and png is not
rejected. The handler selects no encoder for it, and on a miss with the source
present and the transform succeeding it Puts the result at the derivative key,
typed `application/octet-stream`, and redirects to it. -/
theorem imgHandler_unsupported_format (env : Env) (cfg : Config) (world : World)
    (req : ImgRequest) (buf out : Bytes) (hk : req.rawKey ≠ "")
    (hext : imgExt req ∉ ["webp", "jpeg", "png"])
    (hmiss : headObject cfg world.s3 (optimizedKey req) = false)
    (hget : getObject cfg world.s3 req.rawKey = Except.ok buf)
    (hsharp : env.sharp buf (imgPipeline req) = Except.ok out) :
    (imgPipeline req).encoder = none
      ∧ (imgHandler env cfg world req).response
        = Response.redirect 302 (s3ObjectUrl cfg (optimizedKey req)) (some immutableCache)
      ∧ (imgHandler env cfg world req).effects
        = [Effect.headObject (optimizedKey req), Effect.getObject req.rawKey,
            Effect.sharp buf (imgPipeline req),
            Effect.putObject (optimizedKey req)
              { body := out, contentType := some "application/octet-stream",
                cacheControl := some immutableCache }]
      ∧ (imgHandler env cfg world req).world.s3.lookup (optimizedKey req)
        = some { body := out, contentType := some "application/octet-stream",
                 cacheControl := some immutableCache } := by
  simp only [List.mem_cons, List.mem_singleton, List.not_mem_nil, or_false, not_or] at hext
  obtain ⟨h1, h2, h3⟩ := hext
  have hct : contentTypeForExt (imgExt req) = "application/octet-stream" := by
    simp [contentTypeForExt, h1, h2, h3]
  have hup : s3Rejects cfg world.s3 = none := by
    cases hr : s3Rejects cfg world.s3 with
    | none => rfl
    | some e => simp [getObject, hr] at hget
  refine ⟨by simp [imgPipeline, h1, h2, h3], ?_⟩
  unfold imgHandler
  rw [if_neg hk]
  simp only [hmiss, hget, hsharp, putObject, hup, hct, Bool.false_eq_true, if_false,
    true_and, S3State.lookup, List.lookup, beq_self_eq_true]

/-- Witness of `imgHandler_unsupported_format`: `f=gif` on the sample bucket. -/
theorem imgHandler_unsupported_format_witness :
    (imgHandler sampleEnv sampleCfg sampleWorld
        ⟨"photos/a.png", none, none, some "gif", none⟩).effects
      = [Effect.headObject "optimized/0x0/a.gif", Effect.getObject "photos/a.png",
          Effect.sharp [1, 2, 3] { resize := none, encoder := none },
          Effect.putObject "optimized/0x0/a.gif"
            { body := [1, 2, 3], contentType := some "application/octet-stream",
              cacheControl := some "public, max-age=31536000, immutable" }] :=
  (imgHandler_unsupported_format sampleEnv sampleCfg sampleWorld
    ⟨"photos/a.png", none, none, some "gif", none⟩ [1, 2, 3] [1, 2, 3]
    (by decide) (by decide) (by decide) rfl rfl).2.2.1.trans (by decide)

/-! ## Quality -/

/-- C6, failing input: for `q=abc` the quality the handler computes is `NaN`,
and that is the quality it hands to the webp encoder. -/
theorem imgQuality_not_a_number :
    imgQuality ⟨"photos/a.png", none, none, none, some "abc"⟩ = JSNum.nan
      ∧ (imgPipeline ⟨"photos/a.png", none, none, none, some "abc"⟩).encoder
        = some (Encoder.webp JSNum.nan) := by
  decide

/-- The quality is 82 when `q` is absent, and an integer from 1 to 100 whenever
`parseInt` reads a number. -/
theorem imgQuality_range (req : ImgRequest) :
    (req.q = none → imgQuality req = JSNum.int 82)
      ∧ (imgQuality req = JSNum.nan ∨ ∃ z : Int, imgQuality req = JSNum.int z ∧ 1 ≤ z ∧ z ≤ 100) := by
  constructor
  · intro h
    simp only [imgQuality, h, orDefault]
    decide
  · simp only [imgQuality]
    cases parseInt (orDefault req.q "82") with
    | nan => exact Or.inl rfl
    | int z =>
      refine Or.inr ⟨max 1 (min 100 z), rfl, le_max_left _ _, ?_⟩
      exact max_le (by norm_num) (min_le_left _ _)

/-! ## RequestUploadSlot -/

theorem isDigit_not_whitespace (c : Char) (h : c.isDigit = true) : isJsWhitespace c = false := by
  have h1 : 48 ≤ c.toNat ∧ c.toNat ≤ 57 := by
    simp only [Char.isDigit, Bool.and_eq_true, decide_eq_true_eq] at h
    exact ⟨h.1, h.2⟩
  simp only [isJsWhitespace]
  simp
  omega

theorem replaceWhitespaceRunsAux_clean : ∀ (l : List Char) (b : Bool),
    ∀ c ∈ replaceWhitespaceRunsAux b l, isJsWhitespace c = false := by
  intro l
  induction l with
  | nil => intro b c hc; simp [replaceWhitespaceRunsAux] at hc
  | cons a l ih =>
    intro b c hc
    unfold replaceWhitespaceRunsAux at hc
    by_cases ha : isJsWhitespace a = true
    · rw [if_pos ha] at hc
      cases b with
      | true => exact ih true c (by simpa using hc)
      | false =>
        simp only [Bool.false_eq_true, if_false, List.mem_cons] at hc
        rcases hc with rfl | hc
        · decide
        · exact ih true c hc
    · rw [if_neg ha] at hc
      rcases List.mem_cons.1 hc with rfl | hc
      · simpa using ha
      · exact ih false c hc

theorem replaceWhitespaceRunsAux_id : ∀ (l : List Char) (b : Bool),
    (∀ c ∈ l, isJsWhitespace c = false) → replaceWhitespaceRunsAux b l = l := by
  intro l
  induction l with
  | nil => intro b _; rfl
  | cons a l ih =>
    intro b h
    unfold replaceWhitespaceRunsAux
    have ha : isJsWhitespace a = false := h a (by simp)
    simp only [ha, Bool.false_eq_true, if_false]
    rw [ih false (fun c hc => h c (List.mem_cons_of_mem _ hc))]


theorem uploadKey_data (type : String) (now : Nat) (filename : String) :
    (uploadKey type now filename).data
      = type.data ++ ('/' :: ((Nat.repr now).data
          ++ '-' :: replaceWhitespaceRunsAux false filename.data)) := by
  simp [uploadKey, replaceWhitespaceRuns, String.data_append]

theorem truthy_eq_some {x : Option String} {s : String} (h : x = some s) (hs : s ≠ "") :
    truthy x = some s := by
  subst h
  simp [truthy, hs]

theorem presignHandler_slot (env : Env) (cfg : Config) (world : World) (req : PresignRequest)
    (u k url : String)
    (h : (presignHandler env cfg world req).response = Response.json 200 (JsonBody.slot u k url)) :
    ∃ filename, truthy req.filename = some filename ∧ k = uploadKey req.type env.now filename := by
  unfold presignHandler at h
  split at h
  · simp at h
  · split at h
    · rename_i filename contentType hf hc
      simp only at h
      cases hs : env.getSignedUrl cfg.S3_BUCKET (uploadKey req.type env.now filename)
          contentType 900 with
      | error e => rw [hs] at h; simp at h
      | ok uploadUrl =>
        rw [hs] at h
        simp only [Response.json.injEq, JsonBody.slot.injEq, true_and] at h
        exact ⟨filename, hf, h.2.1.symm⟩
    · simp at h

/-- C7: for a valid type, a non-empty file name and content type, a clock
reading and a signer that signs, the presign handler answers with the storage
key `type/` + the clock reading in decimal + `-` + the file name with every run
of white space replaced by one underscore, and with the public URL of that key.
The key holds no white space, the clock part is digits only, and for a file name
without white space the key ends in the file name itself. -/
theorem presignHandler_key (env : Env) (cfg : Config) (world : World) (req : PresignRequest)
    (filename contentType uploadUrl : String)
    (ht : req.type ∈ ["photos", "videos", "sponsors"])
    (hf : req.filename = some filename) (hfn : filename ≠ "")
    (hc : req.contentType = some contentType) (hcn : contentType ≠ "")
    (hs : env.getSignedUrl cfg.S3_BUCKET (uploadKey req.type env.now filename) contentType 900
      = Except.ok uploadUrl) :
    (presignHandler env cfg world req).response
        = Response.json 200 (JsonBody.slot uploadUrl (uploadKey req.type env.now filename)
            (s3ObjectUrl cfg (uploadKey req.type env.now filename)))
      ∧ uploadKey req.type env.now filename
        = req.type ++ "/" ++ Nat.repr env.now ++ "-" ++ replaceWhitespaceRuns filename
      ∧ (∀ c ∈ (uploadKey req.type env.now filename).data, isJsWhitespace c = false)
      ∧ (∀ c ∈ (Nat.repr env.now).data, c.isDigit = true)
      ∧ ((∀ c ∈ filename.data, isJsWhitespace c = false) →
          uploadKey req.type env.now filename
            = req.type ++ "/" ++ Nat.repr env.now ++ "-" ++ filename) := by
  have hty : ∀ c ∈ req.type.data, isJsWhitespace c = false := by
    simp only [List.mem_cons, List.mem_singleton, List.not_mem_nil, or_false] at ht
    rcases ht with h | h | h <;> rw [h] <;> decide
  have hcontains : ["photos", "videos", "sponsors"].contains req.type = true := by
    simp only [List.mem_cons, List.mem_singleton, List.not_mem_nil, or_false] at ht
    rcases ht with h | h | h <;> rw [h] <;> decide
  refine ⟨?_, rfl, ?_, repr_isDigit env.now, ?_⟩
  · unfold presignHandler
    simp only [hcontains, not_true_eq_false, if_false, truthy_eq_some hf hfn,
      truthy_eq_some hc hcn, hs]
  · intro c hc
    rw [uploadKey_data] at hc
    simp only [List.mem_append, List.mem_cons] at hc
    rcases hc with h | h | h | h | h
    · exact hty c h
    · rw [h]; decide
    · exact isDigit_not_whitespace c (repr_isDigit env.now c h)
    · rw [h]; decide
    · exact replaceWhitespaceRunsAux_clean _ _ c h
  · intro hclean
    simp only [uploadKey, replaceWhitespaceRuns, replaceWhitespaceRunsAux_id _ false hclean]

/-- Witness of `presignHandler_key`: `cat.png` as a photo. -/
theorem presignHandler_key_witness :
    (presignHandler sampleEnv sampleCfg sampleWorld
        ⟨"photos", some "cat.png", some "image/png"⟩).response
      = Response.json 200 (JsonBody.slot "https://signed.example/photos/1700000000000-cat.png"
          "photos/1700000000000-cat.png"
          "https://farm-media.s3.amazonaws.com/photos/1700000000000-cat.png") :=
  (presignHandler_key sampleEnv sampleCfg sampleWorld ⟨"photos", some "cat.png", some "image/png"⟩
    "cat.png" "image/png" "https://signed.example/photos/1700000000000-cat.png"
    (by decide) rfl (by decide) rfl (by decide) rfl).1.trans (by decide)

/-- C8: for one request (one type and file name) answered at two distinct clock
readings, the storage keys in the two answers are distinct; so are the keys
`uploadKey` builds from any type and file name at distinct readings. -/
theorem presignHandler_keys_distinct (env1 env2 : Env) (cfg1 cfg2 : Config)
    (world1 world2 : World) (req : PresignRequest) (u1 k1 url1 u2 k2 url2 : String)
    (type filename : String) (hne : env1.now ≠ env2.now)
    (h1 : (presignHandler env1 cfg1 world1 req).response
      = Response.json 200 (JsonBody.slot u1 k1 url1))
    (h2 : (presignHandler env2 cfg2 world2 req).response
      = Response.json 200 (JsonBody.slot u2 k2 url2)) :
    k1 ≠ k2 ∧ uploadKey type env1.now filename ≠ uploadKey type env2.now filename := by
  have hdistinct : ∀ (t f : String),
      uploadKey t env1.now f ≠ uploadKey t env2.now f := by
    intro t f h
    have hd := congrArg String.data h
    rw [uploadKey_data, uploadKey_data] at hd
    have hd1 := List.append_cancel_left hd
    simp only [List.cons.injEq, true_and] at hd1
    have hd2 := List.append_cancel_right hd1
    exact hne (repr_injective (String.ext hd2))
  obtain ⟨f1, hf1, hk1⟩ := presignHandler_slot env1 cfg1 world1 req u1 k1 url1 h1
  obtain ⟨f2, hf2, hk2⟩ := presignHandler_slot env2 cfg2 world2 req u2 k2 url2 h2
  have hf : f1 = f2 := by
    rw [hf1] at hf2
    exact Option.some.inj hf2
  refine ⟨?_, hdistinct type filename⟩
  rw [hk1, hk2, hf]
  exact hdistinct req.type f2

/-- Witness of `presignHandler_keys_distinct`: `cat.png` one millisecond apart. -/
theorem presignHandler_keys_distinct_witness :
    ("photos/1700000000000-cat.png" : String) ≠ "photos/1700000000001-cat.png"
      ∧ uploadKey "videos" sampleEnv.now "a b.mp4" ≠ uploadKey "videos" sampleLaterEnv.now "a b.mp4" :=
  presignHandler_keys_distinct sampleEnv sampleLaterEnv sampleCfg sampleCfg sampleWorld sampleWorld
    ⟨"photos", some "cat.png", some "image/png"⟩
    "https://signed.example/photos/1700000000000-cat.png" "photos/1700000000000-cat.png"
    "https://farm-media.s3.amazonaws.com/photos/1700000000000-cat.png"
    "https://signed.example/photos/1700000000001-cat.png" "photos/1700000000001-cat.png"
    "https://farm-media.s3.amazonaws.com/photos/1700000000001-cat.png"
    "videos" "a b.mp4" (by decide) (by decide) (by decide)

/-! ## CompleteUpload -/

theorem contains_complete_types {type : String} :
    ["photos", "videos", "sponsors", "videos"].contains type = true
      ↔ type ∈ ["photos", "videos", "sponsors"] := by
  simp only [List.contains_iff_exists_mem_beq, beq_iff_eq, List.mem_cons, List.mem_singleton,
    List.not_mem_nil, or_false, exists_eq_right']
  constructor
  · rintro (h | h | h | h) <;> simp [h]
  · rintro (h | h | h) <;> simp [h]

theorem truthy_eq_none {x : Option String} : truthy x = none ↔ (x = none ∨ x = some "") := by
  cases x with
  | none => simp [truthy]
  | some s =>
    by_cases hs : s = ""
    · simp [truthy, hs]
    · simp [truthy, hs]

/-- C9: for a valid type and a non-empty storage key, the completion handler
builds an entry with that key and the public URL of that key, leaves the index
of the type equal to that entry followed by the previous list, leaves the
indexes of the other types and the bucket as they were, and issues no call to
the store (the blob is not probed). When the analytics file is usable, the
answer is that entry. -/
theorem completeHandler_inserts (env : Env) (cfg : Config) (world : World)
    (req : CompleteRequest) (type key : String)
    (ht : req.type = some type) (hv : type ∈ ["photos", "videos", "sponsors"])
    (hkey : req.key = some key) (hne : key ≠ "") :
    (completeEntry env cfg key req).key = some key
      ∧ (completeEntry env cfg key req).url = s3ObjectUrl cfg key
      ∧ (completeHandler env cfg world req).world.data type
        = some (completeEntry env cfg key req :: (world.data type).getD [])
      ∧ (∀ t, t ≠ type → (completeHandler env cfg world req).world.data t = world.data t)
      ∧ (completeHandler env cfg world req).effects = []
      ∧ (completeHandler env cfg world req).world.s3 = world.s3
      ∧ ((∀ m, world.analytics ≠ AnalyticsFile.unusable m) →
          (completeHandler env cfg world req).response
            = Response.json 200 (JsonBody.entry (completeEntry env cfg key req))) := by
  have hc := contains_complete_types.2 hv
  have hk := truthy_eq_some hkey hne
  refine ⟨rfl, rfl, ?_⟩
  unfold completeHandler
  simp only [ht, hc, not_true_eq_false, if_false, hk]
  cases hr : recordUpload type env.month world.analytics with
  | error e =>
    refine ⟨by simp [saveMetadata], fun t htne => by simp [saveMetadata, htne], rfl, rfl, ?_⟩
    intro hus
    cases ha : world.analytics with
    | unusable m => exact absurd ha (hus m)
    | absent => simp [recordUpload, readAnalytics, ha] at hr
    | content a => simp [recordUpload, readAnalytics, ha] at hr
  | ok analytics =>
    exact ⟨by simp [saveMetadata], fun t htne => by simp [saveMetadata, htne], rfl, rfl,
      fun _ => rfl⟩

/-- Witness of `completeHandler_inserts`: completing the upload of `cat.png`
on a server without index files puts one entry, with that key, in the photos
index. -/
theorem completeHandler_inserts_witness :
    (completeHandler sampleEnv sampleCfg sampleWorld sampleComplete).world.data "photos"
        = some [completeEntry sampleEnv sampleCfg "photos/1700000000000-cat.png" sampleComplete]
      ∧ (completeHandler sampleEnv sampleCfg sampleWorld sampleComplete).response
        = Response.json 200 (JsonBody.entry
            { id := "1700000000000", name := some "1700000000000-cat.png",
              url := "https://farm-media.s3.amazonaws.com/photos/1700000000000-cat.png",
              key := some "photos/1700000000000-cat.png", contentType := some "image/png",
              youtubeId := none, date := "2023-11-14T22:13:20.000Z",
              posterKey := none, posterUrl := none }) :=
  have h := completeHandler_inserts sampleEnv sampleCfg sampleWorld sampleComplete
    "photos" "photos/1700000000000-cat.png" rfl (by decide) rfl (by decide)
  ⟨h.2.2.1, (h.2.2.2.2.2.2 (fun m hm => by cases hm)).trans (by decide)⟩

/-- C10: the completion handler answers `Invalid type` exactly when the type is
not one of photos, videos, sponsors; with a valid type it answers `Missing key`
exactly when the key is absent or empty; and with either answer the state (every
index included) is what it was. -/
theorem completeHandler_validation (env : Env) (cfg : Config) (world : World)
    (req : CompleteRequest) :
    ((completeHandler env cfg world req).response
          = Response.json 400 (JsonBody.failure (some "Invalid type"))
        ↔ ¬ ∃ type, req.type = some type ∧ type ∈ ["photos", "videos", "sponsors"])
      ∧ ((∃ type, req.type = some type ∧ type ∈ ["photos", "videos", "sponsors"]) →
          ((completeHandler env cfg world req).response
              = Response.json 400 (JsonBody.failure (some "Missing key"))
            ↔ (req.key = none ∨ req.key = some "")))
      ∧ ((completeHandler env cfg world req).response
            = Response.json 400 (JsonBody.failure (some "Invalid type"))
          ∨ (completeHandler env cfg world req).response
            = Response.json 400 (JsonBody.failure (some "Missing key")) →
          (completeHandler env cfg world req).world = world) := by
  have hstr : ("Missing key" : String) ≠ "Invalid type" := by decide
  unfold completeHandler
  cases ht : req.type with
  | none => simp
  | some type =>
    simp only [Option.some.injEq, exists_eq_left']
    by_cases hv : type ∈ ["photos", "videos", "sponsors"]
    · have hc := contains_complete_types.2 hv
      simp only [hc, not_true_eq_false, if_false, hv, not_true_eq_false, iff_false, true_implies]
      cases hk : truthy req.key with
      | none =>
        have := truthy_eq_none.1 hk
        simp [hstr, this]
      | some key =>
        have hkn : ¬ (req.key = none ∨ req.key = some "") := by
          intro h
          rw [truthy_eq_none.2 h] at hk
          exact Option.noConfusion hk
        cases hr : recordUpload type env.month world.analytics with
        | error e => simp [hkn]
        | ok a => simp [hkn]
    · have hc : ¬ ["photos", "videos", "sponsors", "videos"].contains type = true :=
        fun h => hv (contains_complete_types.1 h)
      simp only [if_pos hc]
      simp [hv]

/-- Witness of `completeHandler_validation`: the type `music` is answered with
`Invalid type`, an empty key for photos with `Missing key`, and the state is
kept. -/
theorem completeHandler_validation_witness :
    (completeHandler sampleEnv sampleCfg sampleWorld
        ⟨some "music", some "music/1-a.mp3", none, none⟩).response
        = Response.json 400 (JsonBody.failure (some "Invalid type"))
      ∧ (completeHandler sampleEnv sampleCfg sampleWorld ⟨some "photos", some "", none, none⟩).response
        = Response.json 400 (JsonBody.failure (some "Missing key"))
      ∧ (completeHandler sampleEnv sampleCfg sampleWorld ⟨some "photos", some "", none, none⟩).world
        = sampleWorld := by
  have h1 := completeHandler_validation sampleEnv sampleCfg sampleWorld
    ⟨some "music", some "music/1-a.mp3", none, none⟩
  have h2 := completeHandler_validation sampleEnv sampleCfg sampleWorld
    ⟨some "photos", some "", none, none⟩
  have hmissing := (h2.2.1 ⟨"photos", rfl, by decide⟩).2 (Or.inr rfl)
  refine ⟨h1.1.2 ?_, hmissing, h2.2.2 (Or.inr hmissing)⟩
  rintro ⟨t, ht, hm⟩
  cases ht
  revert hm
  decide

/-! ## LinkExternalVideo -/

theorem takeId_append (v r : List Char) (hlen : v.length = 11)
    (hchars : ∀ c ∈ v, isIdChar c = true) : takeId (v ++ r) = some v := by
  have ht : (v ++ r).take 11 = v := by
    rw [← hlen]; exact List.take_left v r
  simp only [takeId, ht, hlen, beq_self_eq_true, Bool.true_and]
  rw [if_pos (List.all_eq_true.2 hchars)]

theorem matchYoutubeId_skip (p s : List Char) (h : noMatchBefore p s = true) :
    matchYoutubeId (p ++ s) = matchYoutubeId s := by
  induction p with
  | nil => rfl
  | cons c p ih =>
    simp only [noMatchBefore, Bool.and_eq_true, Option.isNone_iff_eq_none] at h
    show (match matchIdAt (c :: (p ++ s)) with
      | some v => some v
      | none => matchYoutubeId (p ++ s)) = matchYoutubeId s
    rw [h.1]
    exact ih h.2

theorem matchYoutubeId_v (v r : List Char) (hlen : v.length = 11)
    (hchars : ∀ c ∈ v, isIdChar c = true) :
    matchYoutubeId ('v' :: '=' :: (v ++ r)) = some v := by
  have h1 : ¬ ('v' = '/') := by decide
  simp only [matchYoutubeId, matchIdAt, h1, if_false, if_true, takeId_append v r hlen hchars]

theorem matchYoutubeId_slash (v r : List Char) (hlen : v.length = 11)
    (hchars : ∀ c ∈ v, isIdChar c = true) :
    matchYoutubeId ('/' :: (v ++ r)) = some v := by
  simp only [matchYoutubeId, matchIdAt, if_true, takeId_append v r hlen hchars]

theorem takeId_bad (p : List Char) (c : Char) (r : List Char) (hp : p.length < 11)
    (hc : isIdChar c = false) : takeId (p ++ c :: r) = none := by
  have hmem : c ∈ (p ++ c :: r).take 11 := by
    rw [List.take_append_eq_append_take]
    apply List.mem_append_right
    have : 11 - p.length = (11 - p.length - 1) + 1 := by omega
    rw [this, List.take_succ_cons]
    exact List.mem_cons_self _ _
  have hall : ((p ++ c :: r).take 11).all isIdChar = false := by
    rw [Bool.eq_false_iff]
    intro h
    have := List.all_eq_true.1 h c hmem
    rw [hc] at this
    exact Bool.noConfusion this
  simp [takeId, hall]

theorem noMatchBefore_short_link (v : List Char) :
    noMatchBefore "https://youtu.be".data ('/' :: v) = true := by
  have h6 := takeId_bad [] '/' ("youtu.be".data ++ '/' :: v) (by decide) (by decide)
  have h7 := takeId_bad "youtu".data '.' ("be".data ++ '/' :: v) (by decide) (by decide)
  simp only [List.nil_append] at h6
  have e6 : "/youtu.be".data ++ '/' :: v = '/' :: ("youtu.be".data ++ '/' :: v) := rfl
  have e7 : "youtu.be".data ++ '/' :: v = "youtu".data ++ '.' :: ("be".data ++ '/' :: v) := rfl
  show noMatchBefore ['h', 't', 't', 'p', 's', ':', '/', '/', 'y', 'o', 'u', 't', 'u', '.', 'b', 'e']
    ('/' :: v) = true
  simp only [noMatchBefore, matchIdAt, Bool.and_eq_true, Option.isNone_iff_eq_none]
  simp +decide only [if_false, if_true, and_true, true_and]
  constructor
  · exact h6
  · exact h7

theorem recordUpload_usable (type month : String) (file : AnalyticsFile)
    (h : ∀ m, file ≠ AnalyticsFile.unusable m) :
    ∃ a, recordUpload type month file = Except.ok a := by
  cases file with
  | unusable m => exact absurd rfl (h m)
  | absent => exact ⟨_, rfl⟩
  | content a => exact ⟨_, rfl⟩

theorem youtubeHandler_of_match (env : Env) (world : World) (url : String) (v : List Char)
    (hurl : url ≠ "") (hm : matchYoutubeId url.data = some v) :
    (youtubeHandler env world ⟨some url⟩).world.data "videos"
        = some (youtubeEntry env ⟨v⟩ url :: (world.data "videos").getD [])
      ∧ (∀ t, t ≠ "videos" → (youtubeHandler env world ⟨some url⟩).world.data t = world.data t)
      ∧ ((∀ m, world.analytics ≠ AnalyticsFile.unusable m) →
          (youtubeHandler env world ⟨some url⟩).response
            = Response.json 200 (JsonBody.entry (youtubeEntry env ⟨v⟩ url))) := by
  have ht : truthy (some url) = some url := truthy_eq_some rfl hurl
  unfold youtubeHandler
  simp only [ht, hm]
  cases hr : recordUpload "videos" env.month world.analytics with
  | error e =>
    refine ⟨by simp [saveMetadata], fun t htne => by simp [saveMetadata, htne], ?_⟩
    intro hus
    obtain ⟨a, ha⟩ := recordUpload_usable "videos" env.month world.analytics hus
    rw [ha] at hr
    exact Except.noConfusion hr
  | ok a =>
    exact ⟨by simp [saveMetadata], fun t htne => by simp [saveMetadata, htne], fun _ => rfl⟩

theorem append_ne_empty_left (a b : String) (h : a ≠ "") : a ++ b ≠ "" := by
  intro hab
  have hd := congrArg String.data hab
  simp only [String.data_append] at hd
  have : a.data = [] := (List.append_eq_nil.1 hd).1
  exact h (String.ext this)

/-- C12: for every identifier `v` of 11 characters of the class `[0-9A-Za-z_-]`,
the link handler on the URL `https://youtu.be/` followed by `v` puts in front of
the videos index an entry whose `youtubeId` is `v` and which has no storage key;
when the analytics file is usable the answer is that entry. -/
theorem youtubeHandler_short_link (env : Env) (world : World) (v : String)
    (hlen : v.length = 11) (hchars : ∀ c ∈ v.data, isIdChar c = true) :
    (youtubeEntry env v ("https://youtu.be/" ++ v)).youtubeId = some v
      ∧ (youtubeEntry env v ("https://youtu.be/" ++ v)).key = none
      ∧ (youtubeHandler env world ⟨some ("https://youtu.be/" ++ v)⟩).world.data "videos"
        = some (youtubeEntry env v ("https://youtu.be/" ++ v) :: (world.data "videos").getD [])
      ∧ ((∀ m, world.analytics ≠ AnalyticsFile.unusable m) →
          (youtubeHandler env world ⟨some ("https://youtu.be/" ++ v)⟩).response
            = Response.json 200
              (JsonBody.entry (youtubeEntry env v ("https://youtu.be/" ++ v)))) := by
  have hdata : ("https://youtu.be/" ++ v).data = "https://youtu.be".data ++ '/' :: v.data := by
    rw [String.data_append]; rfl
  have hm : matchYoutubeId ("https://youtu.be/" ++ v).data = some v.data := by
    rw [hdata, matchYoutubeId_skip _ _ (noMatchBefore_short_link v.data)]
    have := matchYoutubeId_slash v.data [] hlen hchars
    rwa [List.append_nil] at this
  have h := youtubeHandler_of_match env world ("https://youtu.be/" ++ v) v.data
    (append_ne_empty_left _ _ (by decide)) hm
  exact ⟨rfl, rfl, h.1, h.2.2⟩

/-- Witness of `youtubeHandler_short_link`: the link `https://youtu.be/dQw4w9WgXcQ`. -/
theorem youtubeHandler_short_link_witness :
    (youtubeHandler sampleEnv sampleWorld ⟨some "https://youtu.be/dQw4w9WgXcQ"⟩).response
      = Response.json 200 (JsonBody.entry
          { id := "1700000000000", name := none, url := "https://youtu.be/dQw4w9WgXcQ",
            key := none, contentType := none, youtubeId := some "dQw4w9WgXcQ",
            date := "2023-11-14T22:13:20.000Z", posterKey := none, posterUrl := none }) :=
  ((youtubeHandler_short_link sampleEnv sampleWorld "dQw4w9WgXcQ" (by decide) (by decide)).2.2.2
    (fun m hm => by cases hm)).trans (by decide)

/-- C13, as stated, fails: the URL
`https://www.youtube.com/attribution_link?v=dQw4w9WgXcQ` contains `v=` followed
by an identifier, but the leftmost match of the pattern is the `/` followed by
`attribution`, and that is the `youtubeId` of the entry. -/
theorem youtubeHandler_takes_leftmost :
    (youtubeHandler sampleEnv sampleWorld
        ⟨some "https://www.youtube.com/attribution_link?v=dQw4w9WgXcQ"⟩).response
      = Response.json 200 (JsonBody.entry
          { id := "1700000000000", name := none,
            url := "https://www.youtube.com/attribution_link?v=dQw4w9WgXcQ",
            key := none, contentType := none, youtubeId := some "attribution",
            date := "2023-11-14T22:13:20.000Z", posterKey := none, posterUrl := none }) := by
  decide

/-- C13, amended: for a URL made of a prefix `p`, then `v=`, then an identifier
`v` of 11 characters of the class, then anything, such that no match of the
pattern (a `/` or a `v=` followed by 11 characters of the class) begins inside
`p`, the link handler puts in front of the videos index an entry whose
`youtubeId` is `v`; when the analytics file is usable the answer is that
entry. -/
theorem youtubeHandler_watch_link (env : Env) (world : World) (p v rest : String)
    (hlen : v.length = 11) (hchars : ∀ c ∈ v.data, isIdChar c = true)
    (hp : noMatchBefore p.data ("v=" ++ v ++ rest).data = true) :
    (youtubeEntry env v (p ++ "v=" ++ v ++ rest)).youtubeId = some v
      ∧ (youtubeHandler env world ⟨some (p ++ "v=" ++ v ++ rest)⟩).world.data "videos"
        = some (youtubeEntry env v (p ++ "v=" ++ v ++ rest) :: (world.data "videos").getD [])
      ∧ ((∀ m, world.analytics ≠ AnalyticsFile.unusable m) →
          (youtubeHandler env world ⟨some (p ++ "v=" ++ v ++ rest)⟩).response
            = Response.json 200
              (JsonBody.entry (youtubeEntry env v (p ++ "v=" ++ v ++ rest)))) := by
  have hs : ("v=" ++ v ++ rest).data = 'v' :: '=' :: (v.data ++ rest.data) := by
    simp only [String.data_append]; rfl
  have hdata : (p ++ "v=" ++ v ++ rest).data = p.data ++ ("v=" ++ v ++ rest).data := by
    simp only [String.data_append, List.append_assoc]
  have hm : matchYoutubeId (p ++ "v=" ++ v ++ rest).data = some v.data := by
    rw [hdata, matchYoutubeId_skip _ _ hp, hs]
    exact matchYoutubeId_v v.data rest.data hlen hchars
  have hne : p ++ "v=" ++ v ++ rest ≠ "" := by
    intro h
    have hd := congrArg String.data h
    rw [hdata, hs] at hd
    simp at hd
  have h := youtubeHandler_of_match env world (p ++ "v=" ++ v ++ rest) v.data hne hm
  exact ⟨rfl, h.1, h.2.2⟩

/-- Witness of `youtubeHandler_watch_link`: the watch URL of `dQw4w9WgXcQ` with
a time parameter after it. -/
theorem youtubeHandler_watch_link_witness :
    (youtubeHandler sampleEnv sampleWorld
        ⟨some "https://www.youtube.com/watch?v=dQw4w9WgXcQ&t=42"⟩).response
      = Response.json 200 (JsonBody.entry
          { id := "1700000000000", name := none,
            url := "https://www.youtube.com/watch?v=dQw4w9WgXcQ&t=42",
            key := none, contentType := none, youtubeId := some "dQw4w9WgXcQ",
            date := "2023-11-14T22:13:20.000Z", posterKey := none, posterUrl := none }) :=
  ((youtubeHandler_watch_link sampleEnv sampleWorld "https://www.youtube.com/watch?"
      "dQw4w9WgXcQ" "&t=42" (by decide) (by decide) (by decide)).2.2
    (fun m hm => by cases hm)).trans (by decide)

/-! ## Delete -/

theorem removeFirst_none {id : String} : ∀ {l : List Entry},
    removeFirst id l = none ↔ ∀ e ∈ l, e.id ≠ id := by
  intro l
  induction l with
  | nil => simp [removeFirst]
  | cons a l ih =>
    unfold removeFirst
    by_cases ha : a.id = id
    · simp [ha]
    · rw [if_neg ha]
      cases hr : removeFirst id l with
      | none =>
        have := ih.1 hr
        simpa [ha] using this
      | some p =>
        have hne : ¬ ∀ e ∈ l, e.id ≠ id := fun h => by
          rw [ih.2 h] at hr; exact Option.noConfusion hr
        simp only [false_iff, reduceCtorEq]
        intro h
        exact hne (fun e he => h e (List.mem_cons_of_mem _ he))

theorem removeFirst_some {id : String} : ∀ {l : List Entry} {d : Entry} {kept : List Entry},
    removeFirst id l = some (d, kept) →
    ∃ pre post, l = pre ++ d :: post ∧ kept = pre ++ post ∧ d.id = id
      ∧ ∀ e ∈ pre, e.id ≠ id := by
  intro l
  induction l with
  | nil => intro d kept h; simp [removeFirst] at h
  | cons a l ih =>
    intro d kept h
    unfold removeFirst at h
    by_cases ha : a.id = id
    · rw [if_pos ha] at h
      simp only [Option.some.injEq, Prod.mk.injEq] at h
      refine ⟨[], l, ?_, ?_, ?_, ?_⟩
      · rw [h.1]; rfl
      · rw [h.2]; rfl
      · rw [← h.1]; exact ha
      · simp
    · rw [if_neg ha] at h
      cases hr : removeFirst id l with
      | none => rw [hr] at h; simp at h
      | some p =>
        obtain ⟨d2, kept2⟩ := p
        rw [hr] at h
        simp only [Option.some.injEq, Prod.mk.injEq] at h
        obtain ⟨pre, post, hl, hk, hd, hpre⟩ := ih hr
        refine ⟨a :: pre, post, ?_, ?_, ?_, ?_⟩
        · rw [hl, h.1]; rfl
        · rw [← h.2, hk]; rfl
        · rw [← h.1]; exact hd
        · intro e he
          rcases List.mem_cons.1 he with rfl | he
          · exact ha
          · exact hpre e he

theorem deleteRun_found (cfg : Config) (world : World) (req : DeleteRequest)
    (list : List Entry) (d : Entry) (kept : List Entry)
    (hl : world.data req.type = some list) (hr : removeFirst req.id list = some (d, kept)) :
    (deleteRun cfg world req).outcome.response = Response.json 200 JsonBody.done
      ∧ (deleteRun cfg world req).outcome.world.data
        = (fun t => if t = req.type then some kept else world.data t)
      ∧ ∃ tail, (deleteRun cfg world req).steps = DeleteStep.writeIndex req.type kept :: tail
        ∧ (tail = [] ∨ ∃ key, d.key = some key ∧ tail = [DeleteStep.deleteObject key]) := by
  unfold deleteRun
  simp only [hl, hr]
  cases hk : truthy d.key with
  | none => exact ⟨rfl, rfl, [], rfl, Or.inl rfl⟩
  | some key =>
    have hdk : d.key = some key := by
      cases hd : d.key with
      | none => rw [hd] at hk; simp [truthy] at hk
      | some k =>
        rw [hd] at hk
        simp only [truthy] at hk
        split at hk
        · exact Option.noConfusion hk
        · rw [Option.some.inj hk]
    cases hb : truthy cfg.S3_BUCKET with
    | none => exact ⟨rfl, rfl, [], rfl, Or.inl rfl⟩
    | some b =>
      simp only
      cases hdel : deleteObject cfg world.s3 key with
      | error e => exact ⟨rfl, rfl, _, rfl, Or.inr ⟨key, hdk, rfl⟩⟩
      | ok s3 => exact ⟨rfl, rfl, _, rfl, Or.inr ⟨key, hdk, rfl⟩⟩

theorem deleteRun_missing (cfg : Config) (world : World) (req : DeleteRequest)
    (h : ∀ e ∈ (world.data req.type).getD [], e.id ≠ req.id) :
    deleteRun cfg world req = deleteNotFound world := by
  unfold deleteRun
  cases hl : world.data req.type with
  | none => rfl
  | some list =>
    rw [hl] at h
    simp only [Option.getD_some] at h
    simp only [removeFirst_none.2 h]


theorem deleteRun_split (cfg : Config) (world : World) (req : DeleteRequest)
    (h : ∃ e ∈ (world.data req.type).getD [], e.id = req.id) :
    ∃ pre d post, world.data req.type = some (pre ++ d :: post) ∧ d.id = req.id
      ∧ (∀ e ∈ pre, e.id ≠ req.id)
      ∧ (deleteRun cfg world req).outcome.response = Response.json 200 JsonBody.done
      ∧ (deleteRun cfg world req).outcome.world.data
        = (fun t => if t = req.type then some (pre ++ post) else world.data t)
      ∧ ∃ tail,
        (deleteRun cfg world req).steps = DeleteStep.writeIndex req.type (pre ++ post) :: tail
        ∧ (tail = [] ∨ ∃ key, d.key = some key ∧ tail = [DeleteStep.deleteObject key]) := by
  obtain ⟨e, he, hid⟩ := h
  cases hl : world.data req.type with
  | none => rw [hl] at he; simp at he
  | some list =>
    rw [hl] at he
    simp only [Option.getD_some] at he
    cases hr : removeFirst req.id list with
    | none => exact absurd hid (removeFirst_none.1 hr e he)
    | some p =>
      obtain ⟨d, kept⟩ := p
      obtain ⟨pre, post, hlist, hkept, hd, hpre⟩ := removeFirst_some hr
      have hf := deleteRun_found cfg world req list d kept hl hr
      rw [hkept] at hf
      exact ⟨pre, d, post, by rw [hlist], hd, hpre, hf.1, hf.2.1, hf.2.2⟩

/-- C14, as stated, fails: in the index left by two form uploads that got the
same id, deleting that id succeeds and an entry with that id is still found. -/
theorem deleteHandler_leaves_twin :
    (deleteHandler sampleCfg sampleTwinWorld ⟨"photos", "1700000000005"⟩).response
        = Response.json 200 JsonBody.done
      ∧ findById (deleteHandler sampleCfg sampleTwinWorld ⟨"photos", "1700000000005"⟩).world.data
          "photos" "1700000000005"
        = some (uploadEntry sampleEnv 1700000000005 sampleCfg "photos/1700000000000-cat.png"
            sampleFile) := by
  decide

/-- C14, amended: for every state, type and id that at most one entry of the
index of the type carries, if the delete handler answers success then no entry
with that id is in the index of the type afterwards, whatever the state of the
store and whether or not the deleted entry had a key. -/
theorem deleteHandler_consistent (cfg : Config) (world : World) (req : DeleteRequest)
    (hok : (deleteHandler cfg world req).response = Response.json 200 JsonBody.done)
    (huniq : (idsOf world.data req.type).count req.id ≤ 1) :
    findById (deleteHandler cfg world req).world.data req.type req.id = none := by
  by_cases h : ∃ e ∈ (world.data req.type).getD [], e.id = req.id
  · obtain ⟨pre, d, post, hl, hd, hpre, _, hdata, _⟩ := deleteRun_split cfg world req h
    have hcount : (idsOf world.data req.type).count req.id
        = (pre.map (fun e => e.id)).count req.id + 1 + (post.map (fun e => e.id)).count req.id := by
      simp only [idsOf, hl, Option.getD_some, List.map_append, List.map_cons, List.count_append,
        hd, List.count_cons_self]
      omega
    have hpost : ∀ e ∈ post, e.id ≠ req.id := by
      intro e he heq
      have : 0 < (post.map (fun e => e.id)).count req.id :=
        List.count_pos_iff.2 (List.mem_map.2 ⟨e, he, heq⟩)
      omega
    simp only [findById, deleteHandler, hdata, if_true, Option.getD_some, List.find?_eq_none,
      decide_eq_true_eq, List.mem_append]
    rintro e (he | he)
    · exact hpre e he
    · exact hpost e he
  · have hnone : ∀ e ∈ (world.data req.type).getD [], e.id ≠ req.id :=
      fun e he heq => h ⟨e, he, heq⟩
    simp only [deleteHandler, deleteRun_missing cfg world req hnone, deleteNotFound] at hok
    simp at hok

/-- Witness of `deleteHandler_consistent`: after one form upload, deleting its
id leaves no entry with that id. -/
theorem deleteHandler_consistent_witness :
    findById (deleteHandler sampleCfg
        (runOps sampleCfg sampleWorld [Op.upload sampleEnv 1700000000005 sampleUpload])
        ⟨"photos", "1700000000005"⟩).world.data "photos" "1700000000005" = none :=
  deleteHandler_consistent sampleCfg
    (runOps sampleCfg sampleWorld [Op.upload sampleEnv 1700000000005 sampleUpload])
    ⟨"photos", "1700000000005"⟩ (by decide) (by decide)

/-- C15: the delete handler answers not-found exactly when no entry of the
index of the type has the id, and then it leaves the state as it was and takes
no step (no index write, no store delete). When an entry has the id, it answers
success; the index of the type afterwards is the previous one without the first
entry that has the id, the other entries in their order; the other indexes are
unchanged; and the first step is the index write, followed by at most the store
delete of the key of the removed entry. -/
theorem deleteRun_frame (cfg : Config) (world : World) (req : DeleteRequest) :
    ((deleteRun cfg world req).outcome.response = Response.json 404 (JsonBody.failure none)
        ↔ ∀ e ∈ (world.data req.type).getD [], e.id ≠ req.id)
      ∧ ((∀ e ∈ (world.data req.type).getD [], e.id ≠ req.id) →
          (deleteRun cfg world req).outcome.world = world
            ∧ (deleteRun cfg world req).steps = []
            ∧ (deleteRun cfg world req).outcome.effects = [])
      ∧ ((∃ e ∈ (world.data req.type).getD [], e.id = req.id) →
          (deleteRun cfg world req).outcome.response = Response.json 200 JsonBody.done
            ∧ ∃ pre d post, (world.data req.type).getD [] = pre ++ d :: post
              ∧ d.id = req.id ∧ (∀ e ∈ pre, e.id ≠ req.id)
              ∧ (deleteRun cfg world req).outcome.world.data req.type = some (pre ++ post)
              ∧ (∀ t, t ≠ req.type →
                  (deleteRun cfg world req).outcome.world.data t = world.data t)
              ∧ ∃ tail, (deleteRun cfg world req).steps
                  = DeleteStep.writeIndex req.type (pre ++ post) :: tail
                ∧ (tail = [] ∨ ∃ key, d.key = some key
                    ∧ tail = [DeleteStep.deleteObject key])) := by
  have hfound : (∃ e ∈ (world.data req.type).getD [], e.id = req.id) →
      (deleteRun cfg world req).outcome.response = Response.json 200 JsonBody.done
        ∧ ∃ pre d post, (world.data req.type).getD [] = pre ++ d :: post
          ∧ d.id = req.id ∧ (∀ e ∈ pre, e.id ≠ req.id)
          ∧ (deleteRun cfg world req).outcome.world.data req.type = some (pre ++ post)
          ∧ (∀ t, t ≠ req.type →
              (deleteRun cfg world req).outcome.world.data t = world.data t)
          ∧ ∃ tail, (deleteRun cfg world req).steps
              = DeleteStep.writeIndex req.type (pre ++ post) :: tail
            ∧ (tail = [] ∨ ∃ key, d.key = some key
                ∧ tail = [DeleteStep.deleteObject key]) := by
    intro h
    obtain ⟨pre, d, post, hl, hd, hpre, hresp, hdata, hsteps⟩ := deleteRun_split cfg world req h
    refine ⟨hresp, pre, d, post, by rw [hl]; rfl, hd, hpre, by rw [hdata]; simp,
      fun t ht => by rw [hdata]; simp [ht], hsteps⟩
  refine ⟨⟨?_, ?_⟩, ?_, hfound⟩
  · intro h404 e he heq
    have := (hfound ⟨e, he, heq⟩).1
    rw [this] at h404
    simp at h404
  · intro h
    rw [deleteRun_missing cfg world req h]
    rfl
  · intro h
    rw [deleteRun_missing cfg world req h]
    exact ⟨rfl, rfl, rfl⟩

/-- Witness of `deleteRun_frame`: on the index of two uploads with one id,
deleting that id writes the index without its first entry, then deletes the
object of that entry; deleting an unknown id takes no step. -/
theorem deleteRun_frame_witness :
    (deleteRun sampleCfg sampleTwinWorld ⟨"photos", "1700000000005"⟩).outcome.response
        = Response.json 200 JsonBody.done
      ∧ (deleteRun sampleCfg sampleTwinWorld ⟨"photos", "17"⟩).steps = [] := by
  have h1 := (deleteRun_frame sampleCfg sampleTwinWorld ⟨"photos", "1700000000005"⟩).2.2
    ⟨uploadEntry sampleLaterEnv 1700000000005 sampleCfg "photos/1700000000001-cat.png" sampleFile,
      by decide, rfl⟩
  have h2 := (deleteRun_frame sampleCfg sampleTwinWorld ⟨"photos", "17"⟩).2.1 (by decide)
  exact ⟨h1.1, h2.2.1⟩


/-! ## The analytics sink -/

theorem contains_upload_types {type : String} :
    ["photos", "videos", "sponsors"].contains type = true
      ↔ type ∈ ["photos", "videos", "sponsors"] := by
  simp only [List.contains_iff_exists_mem_beq, beq_iff_eq, List.mem_cons, List.mem_singleton,
    List.not_mem_nil, or_false, exists_eq_right']

theorem recordUpload_unusable (type month m : String) :
    recordUpload type month (AnalyticsFile.unusable m) = Except.error (Exn.Library m) := rfl

/-- C16, as stated, fails: with an analytics file that cannot be parsed, the
completion handler called with a valid type and key answers 500 with the error
of the sink, although it has put the entry in the photos index. -/
theorem completeHandler_fails_with_sink :
    (completeHandler sampleEnv sampleCfg sampleBrokenSinkWorld sampleComplete).response
        = Response.json 500 (JsonBody.failure (some "Unexpected end of JSON input"))
      ∧ (completeHandler sampleEnv sampleCfg sampleBrokenSinkWorld sampleComplete).world.data
          "photos"
        = some [completeEntry sampleEnv sampleCfg "photos/1700000000000-cat.png"
            sampleComplete] := by
  decide

/-- C16, amended: when the analytics file is unusable, the completion handler,
the link handler and the form upload, called with valid arguments, have put
their entry in front of the index of the type and leave it there, and answer
500 with the message of the sink error instead of the entry. -/
theorem handlers_fail_with_sink (env : Env) (cfg : Config) (world : World) (m : String)
    (hsink : world.analytics = AnalyticsFile.unusable m) :
    (∀ (req : CompleteRequest) (type key : String), req.type = some type →
        type ∈ ["photos", "videos", "sponsors"] → req.key = some key → key ≠ "" →
        (completeHandler env cfg world req).response
            = Response.json 500 (JsonBody.failure (some m))
          ∧ (completeHandler env cfg world req).world.data type
            = some (completeEntry env cfg key req :: (world.data type).getD []))
      ∧ (∀ (url : String) (v : List Char), url ≠ "" → matchYoutubeId url.data = some v →
        (youtubeHandler env world ⟨some url⟩).response
            = Response.json 500 (JsonBody.failure (some m))
          ∧ (youtubeHandler env world ⟨some url⟩).world.data "videos"
            = some (youtubeEntry env ⟨v⟩ url :: (world.data "videos").getD []))
      ∧ (∀ (idNow : Nat) (req : UploadRequest) (file : UploadedFile) (bucket : String)
          (s3 : S3State),
        req.type ∈ ["photos", "videos", "sponsors"] → req.file = some file →
        truthy cfg.S3_BUCKET = some bucket →
        putObject cfg world.s3 (uploadKey req.type env.now file.originalname)
            { body := file.buffer, contentType := some file.mimetype, cacheControl := none }
          = Except.ok s3 →
        (uploadHandler env idNow cfg world req).response
            = Response.json 500 (JsonBody.failure (some m))
          ∧ (uploadHandler env idNow cfg world req).world.data req.type
            = some (uploadEntry env idNow cfg (uploadKey req.type env.now file.originalname) file
                :: (world.data req.type).getD [])) := by
  refine ⟨?_, ?_, ?_⟩
  · intro req type key ht hv hkey hne
    have hc := contains_complete_types.2 hv
    have hk := truthy_eq_some hkey hne
    unfold completeHandler
    simp only [ht, hc, not_true_eq_false, if_false, hk, hsink, recordUpload_unusable]
    exact ⟨rfl, by simp [saveMetadata]⟩
  · intro url v hurl hm
    have ht : truthy (some url) = some url := truthy_eq_some rfl hurl
    unfold youtubeHandler
    simp only [ht, hm, hsink, recordUpload_unusable]
    exact ⟨rfl, by simp [saveMetadata]⟩
  · intro idNow req file bucket s3 hv hfile hb hput
    have hc := contains_upload_types.2 hv
    unfold uploadHandler
    simp only [hc, not_true_eq_false, if_false, hfile, hb, hput, hsink, recordUpload_unusable]
    exact ⟨rfl, by simp [saveMetadata]⟩

/-- Witness of `handlers_fail_with_sink`: the three handlers on the sample
server whose analytics file is not JSON. -/
theorem handlers_fail_with_sink_witness :
    (completeHandler sampleEnv sampleCfg sampleBrokenSinkWorld sampleComplete).response
        = Response.json 500 (JsonBody.failure (some "Unexpected end of JSON input"))
      ∧ (youtubeHandler sampleEnv sampleBrokenSinkWorld
          ⟨some "https://youtu.be/dQw4w9WgXcQ"⟩).response
        = Response.json 500 (JsonBody.failure (some "Unexpected end of JSON input"))
      ∧ (uploadHandler sampleEnv 1700000000005 sampleCfg sampleBrokenSinkWorld sampleUpload).response
        = Response.json 500 (JsonBody.failure (some "Unexpected end of JSON input")) :=
  have h := handlers_fail_with_sink sampleEnv sampleCfg sampleBrokenSinkWorld
    "Unexpected end of JSON input" rfl
  ⟨(h.1 sampleComplete "photos" "photos/1700000000000-cat.png" rfl (by decide) rfl
      (by decide)).1,
    (h.2.1 "https://youtu.be/dQw4w9WgXcQ" "dQw4w9WgXcQ".data (by decide) (by decide)).1,
    (h.2.2 1700000000005 sampleUpload sampleFile "farm-media" _ (by decide) rfl rfl rfl).1⟩

/-! ## Routing of the upload protocol -/

/-- C17, failing input: `POST /upload/complete` and `POST /upload/youtube` of a
logged-in client are dispatched to the form upload `POST /upload/:type`, which
is registered first; it answers `Invalid type` and no entry is saved, whereas
the handlers the requests were meant for accept the same bodies. -/
theorem serve_upload_routes_shadowed :
    dispatch Method.POST ["upload", "complete"] = some (Endpoint.uploadForm, ["complete"])
      ∧ (serve sampleEnv 1700000000005 sampleFfmpeg sampleCfg sampleWorld sampleCompleteHttp).map
          (fun o => (o.response, o.world.data "photos"))
        = some (Response.json 400 (JsonBody.failure (some "Invalid type")), none)
      ∧ dispatch Method.POST ["upload", "youtube"] = some (Endpoint.uploadForm, ["youtube"])
      ∧ (serve sampleEnv 1700000000005 sampleFfmpeg sampleCfg sampleWorld sampleYoutubeHttp).map
          (fun o => (o.response, o.world.data "videos"))
        = some (Response.json 400 (JsonBody.failure (some "Invalid type")), none)
      ∧ (completeHandler sampleEnv sampleCfg sampleWorld sampleComplete).response
        = Response.json 200 (JsonBody.entry
            (completeEntry sampleEnv sampleCfg "photos/1700000000000-cat.png" sampleComplete))
      ∧ (youtubeHandler sampleEnv sampleWorld ⟨some "https://youtu.be/dQw4w9WgXcQ"⟩).response
        = Response.json 200 (JsonBody.entry
            (youtubeEntry sampleEnv "dQw4w9WgXcQ" "https://youtu.be/dQw4w9WgXcQ")) := by
  decide

/-- The other endpoints of the upload protocol reach their own handlers:
every `POST /upload/presign/:type`, `GET /data/:type` and
`DELETE /delete/:type/:id` with non-empty parameters. -/
theorem dispatch_own_handler (type id : String) (ht : type ≠ "") (hid : id ≠ "") :
    dispatch Method.POST ["upload", "presign", type] = some (Endpoint.uploadPresign, [type])
      ∧ dispatch Method.GET ["data", type] = some (Endpoint.dataList, [type])
      ∧ dispatch Method.DELETE ["delete", type, id] = some (Endpoint.deleteEntry, [type, id]) := by
  have e1 : toLowerCase "upload" = "upload" := by decide
  have e2 : toLowerCase "presign" = "presign" := by decide
  have e3 : toLowerCase "data" = "data" := by decide
  have e4 : toLowerCase "delete" = "delete" := by decide
  have n1 : ("upload" : String) ≠ "" := by decide
  have n2 : ("upload" : String) ≠ "analytics" := by decide
  have n3 : ("presign" : String) ≠ "youtube" := by decide
  have n4 : ("data" : String) ≠ "session" := by decide
  have n5 : ("data" : String) ≠ "admin.html" := by decide
  have n6 : ("delete" : String) ≠ "analytics" := by decide
  refine ⟨?_, ?_, ?_⟩
  · simp [dispatch, dispatchIn, routes, matchPattern, e1, e2, ht, n2, n3]
  · simp [dispatch, dispatchIn, routes, matchPattern, e3, ht, n4, n5]
  · simp [dispatch, dispatchIn, routes, matchPattern, e4, ht, hid, n6]

/-! ## ExtractPoster -/

theorem setPoster_none {id key pk pu : String} : ∀ {l : List Entry},
    setPoster id key pk pu l = none ↔ ∀ e ∈ l, ¬ (e.id = id ∨ e.key = some key) := by
  intro l
  induction l with
  | nil => simp [setPoster]
  | cons a l ih =>
    unfold setPoster
    by_cases ha : a.id = id ∨ a.key = some key
    · rw [if_pos ha]
      simp only [reduceCtorEq, false_iff, List.mem_cons, forall_eq_or_imp, not_and]
      exact fun h => absurd ha h
    · rw [if_neg ha]
      cases hr : setPoster id key pk pu l with
      | none =>
        have := ih.1 hr
        simp only [true_iff, List.mem_cons, forall_eq_or_imp]
        exact ⟨ha, this⟩
      | some u =>
        have hne : ¬ ∀ e ∈ l, ¬ (e.id = id ∨ e.key = some key) := fun h => by
          rw [ih.2 h] at hr; exact Option.noConfusion hr
        simp only [false_iff, reduceCtorEq]
        intro h
        exact hne (fun e he => h e (List.mem_cons_of_mem _ he))

theorem setPoster_some {id key pk pu : String} : ∀ {l updated : List Entry},
    setPoster id key pk pu l = some updated →
    ∃ pre e post, l = pre ++ e :: post ∧ (e.id = id ∨ e.key = some key)
      ∧ (∀ x ∈ pre, x.id ≠ id ∧ x.key ≠ some key)
      ∧ updated = pre ++ { e with posterKey := some pk, posterUrl := some pu } :: post := by
  intro l
  induction l with
  | nil => intro updated h; simp [setPoster] at h
  | cons a l ih =>
    intro updated h
    unfold setPoster at h
    by_cases ha : a.id = id ∨ a.key = some key
    · rw [if_pos ha] at h
      exact ⟨[], a, l, rfl, ha, by simp, (Option.some.inj h).symm⟩
    · rw [if_neg ha] at h
      cases hr : setPoster id key pk pu l with
      | none => rw [hr] at h; simp at h
      | some u =>
        rw [hr] at h
        obtain ⟨pre, e, post, hl, he, hpre, hu⟩ := ih hr
        refine ⟨a :: pre, e, post, by rw [hl]; rfl, he, ?_, ?_⟩
        · intro x hx
          rcases List.mem_cons.1 hx with rfl | hx
          · exact ⟨fun h1 => ha (Or.inl h1), fun h2 => ha (Or.inr h2)⟩
          · exact hpre x hx
        · rw [← Option.some.inj h, hu]; rfl

theorem posterHandler_success (ffmpeg : Bytes → Except Exn Bytes) (cfg : Config)
    (world : World) (req : PosterRequest) (pk pu : String)
    (h : (posterHandler ffmpeg cfg world req).response = Response.json 200 (JsonBody.poster pk pu)) :
    ∃ key, truthy req.key = some key ∧ pk = thumbKey key ∧ pu = s3ObjectUrl cfg (thumbKey key)
      ∧ (posterHandler ffmpeg cfg world req).world.data
        = attachPoster world.data req.id key (thumbKey key) (s3ObjectUrl cfg (thumbKey key)) := by
  unfold posterHandler at h ⊢
  cases hk : truthy req.key with
  | none => rw [hk] at h; simp at h
  | some key =>
    simp only [hk] at h ⊢
    cases hg : getObject cfg world.s3 key with
    | error e => rw [hg] at h; simp at h
    | ok buf =>
      simp only [hg] at h ⊢
      cases hf : ffmpeg buf with
      | error e => rw [hf] at h; simp at h
      | ok out =>
        simp only [hf] at h ⊢
        cases hp : putObject cfg world.s3 (thumbKey key)
            { body := out, contentType := some "image/jpeg",
              cacheControl := some immutableCache } with
        | error e => rw [hp] at h; simp at h
        | ok s3 =>
          simp only [hp] at h ⊢
          simp only [Response.json.injEq, JsonBody.poster.injEq, true_and] at h
          exact ⟨key, rfl, h.1.symm, h.2.symm, rfl⟩


/-- C18, as stated, fails: the videos index holds two entries for one video
key, ids `1700000000001` (first) and `1700000000000`; the poster call for that
key with id `1700000000000` succeeds, and the entry it changes is the one with
id `1700000000001`, found by its key, while the entry with the id given keeps no
poster. -/
theorem posterHandler_updates_first_found :
    (posterHandler sampleFfmpeg sampleCfg sampleVideoWorld samplePoster).response
        = Response.json 200 (JsonBody.poster "thumbnails/1700000000000-clip.jpg"
            "https://farm-media.s3.amazonaws.com/thumbnails/1700000000000-clip.jpg")
      ∧ (sampleVideoWorld.data "videos").map (fun l => l.map (fun e => (e.id, e.posterKey)))
        = some [("1700000000001", none), ("1700000000000", none)]
      ∧ ((posterHandler sampleFfmpeg sampleCfg sampleVideoWorld samplePoster).world.data
          "videos").map (fun l => l.map (fun e => (e.id, e.posterKey)))
        = some [("1700000000001", some "thumbnails/1700000000000-clip.jpg"),
            ("1700000000000", none)] := by
  decide

/-- C18, amended: for every videos index and every successful poster call with
a source key and an id that an entry carries, the resulting videos index is the
previous one in which one entry is changed: the first entry whose id is the id
given or whose key is the source key. It is changed only by setting `posterKey`
to `thumbnails/` + the base name of the source key without its extension +
`.jpg` and `posterUrl` to the public URL of that key; the other entries and the
indexes of the other types are unchanged. -/
theorem posterHandler_frame (ffmpeg : Bytes → Except Exn Bytes) (cfg : Config)
    (world : World) (req : PosterRequest) (key id pk pu : String)
    (hresp : (posterHandler ffmpeg cfg world req).response
      = Response.json 200 (JsonBody.poster pk pu))
    (hkey : truthy req.key = some key) (hid : truthy req.id = some id)
    (hmatch : ∃ e ∈ (world.data "videos").getD [], e.id = id) :
    pk = "thumbnails/" ++ stripExtension (lastSegment key) ++ ".jpg"
      ∧ pu = s3ObjectUrl cfg pk
      ∧ ∃ pre e post, world.data "videos" = some (pre ++ e :: post)
        ∧ (e.id = id ∨ e.key = some key)
        ∧ (∀ x ∈ pre, x.id ≠ id ∧ x.key ≠ some key)
        ∧ (posterHandler ffmpeg cfg world req).world.data "videos"
          = some (pre ++ { e with posterKey := some pk, posterUrl := some pu } :: post)
        ∧ ∀ t, t ≠ "videos" →
          (posterHandler ffmpeg cfg world req).world.data t = world.data t := by
  obtain ⟨key2, hk2, hpk, hpu, hdata⟩ := posterHandler_success ffmpeg cfg world req pk pu hresp
  rw [hkey] at hk2
  have hkk : key = key2 := Option.some.inj hk2
  subst hkk
  refine ⟨hpk, by rw [hpu, hpk], ?_⟩
  obtain ⟨e0, he0, hid0⟩ := hmatch
  cases hl : world.data "videos" with
  | none => rw [hl] at he0; simp at he0
  | some list =>
    rw [hl] at he0
    simp only [Option.getD_some] at he0
    cases hs : setPoster id key (thumbKey key) (s3ObjectUrl cfg (thumbKey key)) list with
    | none => exact absurd (Or.inl hid0) (setPoster_none.1 hs e0 he0)
    | some updated =>
      obtain ⟨pre, e, post, hlist, he, hpre, hu⟩ := setPoster_some hs
      refine ⟨pre, e, post, by rw [hlist], he, hpre, ?_, ?_⟩
      · rw [hdata]
        simp only [attachPoster, hid, hl, hs, if_true]
        rw [hu, hpk, hpu]
      · intro t ht
        rw [hdata]
        simp only [attachPoster, hid, hl, hs, if_neg ht]

/-- Witness of `posterHandler_frame`: the poster call on the sample videos
index. -/
theorem posterHandler_frame_witness :
    ("thumbnails/1700000000000-clip.jpg" : String)
      = "thumbnails/" ++ stripExtension (lastSegment "videos/1700000000000-clip.mp4") ++ ".jpg" :=
  (posterHandler_frame sampleFfmpeg sampleCfg sampleVideoWorld samplePoster
    "videos/1700000000000-clip.mp4" "1700000000000" "thumbnails/1700000000000-clip.jpg"
    "https://farm-media.s3.amazonaws.com/thumbnails/1700000000000-clip.jpg"
    (by decide) (by decide) (by decide)
    ⟨completeEntry sampleEnv sampleCfg "videos/1700000000000-clip.mp4" sampleCompleteVideo,
      by decide, rfl⟩).1

/-! ## Invariants of the index -/

theorem isPrefixOf_append (p r : List Char) : List.isPrefixOf p (p ++ r) = true := by
  induction p with
  | nil => simp [List.isPrefixOf]
  | cons a p ih => simp [List.isPrefixOf, ih]

theorem inNamespace_uploadKey (type : String) (now : Nat) (filename : String) :
    inNamespace type (uploadKey type now filename) = true := by
  have h : (uploadKey type now filename).data
      = (type ++ "/").data ++ ((Nat.repr now).data
          ++ '-' :: replaceWhitespaceRunsAux false filename.data) := by
    rw [uploadKey_data, String.data_append]
    simp
  simp only [inNamespace, h, isPrefixOf_append]

theorem truthy_some {x : Option String} {s : String} (h : truthy x = some s) : x = some s := by
  cases x with
  | none => simp [truthy] at h
  | some k =>
    simp only [truthy] at h
    split at h
    · exact Option.noConfusion h
    · exact h

theorem uploadHandler_step (env : Env) (idNow : Nat) (cfg : Config) (world : World)
    (req : UploadRequest) :
    IndexStep (Op.upload env idNow req) world.data (uploadHandler env idNow cfg world req).world.data
      ∧ (issuedId (uploadHandler env idNow cfg world req) = none
        ∨ issuedId (uploadHandler env idNow cfg world req) = some (Nat.repr idNow)) := by
  unfold uploadHandler
  split
  · exact ⟨Or.inl rfl, Or.inl rfl⟩
  · cases hf : req.file with
    | none => exact ⟨Or.inl rfl, Or.inl rfl⟩
    | some file =>
      simp only
      cases hb : truthy cfg.S3_BUCKET with
      | none => exact ⟨Or.inl rfl, Or.inl rfl⟩
      | some b =>
        simp only
        cases hp : putObject cfg world.s3 (uploadKey req.type env.now file.originalname)
            { body := file.buffer, contentType := some file.mimetype, cacheControl := none } with
        | error e => exact ⟨Or.inl rfl, Or.inl rfl⟩
        | ok s3 =>
          simp only
          have hstep : IndexStep (Op.upload env idNow req) world.data
              (saveMetadata world.data req.type
                (uploadEntry env idNow cfg (uploadKey req.type env.now file.originalname) file)) := by
            refine Or.inr (Or.inl ⟨req.type, _, idNow, rfl, rfl, rfl, ?_⟩)
            intro _ k hk
            have : k = uploadKey req.type env.now file.originalname :=
              (Option.some.inj hk).symm
            rw [this]
            exact inNamespace_uploadKey _ _ _
          cases hr : recordUpload req.type env.month world.analytics with
          | error e => exact ⟨hstep, Or.inl rfl⟩
          | ok a => exact ⟨hstep, Or.inr rfl⟩

theorem completeHandler_step (env : Env) (cfg : Config) (world : World)
    (req : CompleteRequest) :
    IndexStep (Op.complete env req) world.data (completeHandler env cfg world req).world.data
      ∧ (issuedId (completeHandler env cfg world req) = none
        ∨ issuedId (completeHandler env cfg world req) = some (Nat.repr env.now)) := by
  unfold completeHandler
  cases ht : req.type with
  | none => exact ⟨Or.inl rfl, Or.inl rfl⟩
  | some type =>
    simp only
    split
    · exact ⟨Or.inl rfl, Or.inl rfl⟩
    · cases hk : truthy req.key with
      | none => exact ⟨Or.inl rfl, Or.inl rfl⟩
      | some key =>
        simp only
        have hkey := truthy_some hk
        have hstep : IndexStep (Op.complete env req) world.data
            (saveMetadata world.data type (completeEntry env cfg key req)) := by
          refine Or.inr (Or.inl ⟨type, _, env.now, rfl, rfl, rfl, ?_⟩)
          intro hns k hkk
          have : k = key := (Option.some.inj hkk).symm
          rw [this]
          simpa [Op.keyInNamespace, ht, hkey] using hns
        cases hr : recordUpload type env.month world.analytics with
        | error e => exact ⟨hstep, Or.inl rfl⟩
        | ok a => exact ⟨hstep, Or.inr rfl⟩

theorem youtubeHandler_step (env : Env) (world : World) (req : YoutubeRequest) :
    IndexStep (Op.youtube env req) world.data (youtubeHandler env world req).world.data
      ∧ (issuedId (youtubeHandler env world req) = none
        ∨ issuedId (youtubeHandler env world req) = some (Nat.repr env.now)) := by
  unfold youtubeHandler
  cases hu : truthy req.url with
  | none => exact ⟨Or.inl rfl, Or.inl rfl⟩
  | some url =>
    simp only
    cases hm : matchYoutubeId url.data with
    | none => exact ⟨Or.inl rfl, Or.inl rfl⟩
    | some v =>
      simp only
      have hstep : IndexStep (Op.youtube env req) world.data
          (saveMetadata world.data "videos" (youtubeEntry env ⟨v⟩ url)) := by
        refine Or.inr (Or.inl ⟨"videos", _, env.now, rfl, rfl, rfl, ?_⟩)
        intro _ k hk
        exact Option.noConfusion hk
      cases hr : recordUpload "videos" env.month world.analytics with
      | error e => exact ⟨hstep, Or.inl rfl⟩
      | ok a => exact ⟨hstep, Or.inr rfl⟩


theorem posterHandler_step (ffmpeg : Bytes → Except Exn Bytes) (cfg : Config) (world : World)
    (req : PosterRequest) :
    IndexStep (Op.poster ffmpeg req) world.data (posterHandler ffmpeg cfg world req).world.data
      ∧ issuedId (posterHandler ffmpeg cfg world req) = none := by
  have hattach : ∀ (key pk pu : String),
      IndexStep (Op.poster ffmpeg req) world.data (attachPoster world.data req.id key pk pu) := by
    intro key pk pu
    unfold attachPoster
    cases hid : truthy req.id with
    | none => exact Or.inl rfl
    | some id =>
      cases hl : world.data "videos" with
      | none => exact Or.inl rfl
      | some list =>
        simp only
        cases hs : setPoster id key pk pu list with
        | none => exact Or.inl rfl
        | some updated =>
          obtain ⟨pre, e, post, hlist, _, _, hu⟩ := setPoster_some hs
          refine Or.inr (Or.inr ⟨"videos", list, updated, hl, rfl, ?_, ?_⟩)
          · rw [hu, hlist]
            simp
          · intro x hx
            rw [hu] at hx
            rw [hlist]
            rcases List.mem_append.1 hx with h | h
            · exact ⟨x, List.mem_append_left _ h, rfl⟩
            · rcases List.mem_cons.1 h with h | h
              · exact ⟨e, by simp, by rw [h]⟩
              · exact ⟨x, by simp [h], rfl⟩
  unfold posterHandler
  cases hk : truthy req.key with
  | none => exact ⟨Or.inl rfl, rfl⟩
  | some key =>
    simp only
    cases hg : getObject cfg world.s3 key with
    | error e => exact ⟨Or.inl rfl, rfl⟩
    | ok buf =>
      simp only
      cases hf : ffmpeg buf with
      | error e => exact ⟨Or.inl rfl, rfl⟩
      | ok out =>
        simp only
        cases hp : putObject cfg world.s3 (thumbKey key)
            { body := out, contentType := some "image/jpeg",
              cacheControl := some immutableCache } with
        | error e => exact ⟨Or.inl rfl, rfl⟩
        | ok s3 => exact ⟨hattach _ _ _, rfl⟩

theorem deleteHandler_step (cfg : Config) (world : World) (req : DeleteRequest) :
    IndexStep (Op.delete req) world.data (deleteHandler cfg world req).world.data
      ∧ issuedId (deleteHandler cfg world req) = none := by
  by_cases h : ∃ e ∈ (world.data req.type).getD [], e.id = req.id
  · obtain ⟨pre, d, post, hl, _, _, hresp, hdata, _⟩ := deleteRun_split cfg world req h
    constructor
    · refine Or.inr (Or.inr ⟨req.type, pre ++ d :: post, pre ++ post, hl, hdata, ?_, ?_⟩)
      · exact ((List.sublist_cons_self d post).append_left pre).map _
      · intro x hx
        refine ⟨x, ?_, rfl⟩
        rcases List.mem_append.1 hx with h1 | h1
        · exact List.mem_append_left _ h1
        · exact List.mem_append_right _ (List.mem_cons_of_mem _ h1)
    · simp only [issuedId, deleteHandler, hresp]
  · have hnone : ∀ e ∈ (world.data req.type).getD [], e.id ≠ req.id :=
      fun e he heq => h ⟨e, he, heq⟩
    simp only [deleteHandler, deleteRun_missing cfg world req hnone, deleteNotFound]
    exact ⟨Or.inl rfl, rfl⟩

theorem Op.run_step (cfg : Config) (world : World) (op : Op) :
    IndexStep op world.data (op.run cfg world).world.data
      ∧ (issuedId (op.run cfg world) = none
        ∨ ∃ c, op.idClock = some c ∧ issuedId (op.run cfg world) = some (Nat.repr c)) := by
  cases op with
  | upload env idNow req =>
    have h := uploadHandler_step env idNow cfg world req
    exact ⟨h.1, h.2.imp id (fun h2 => ⟨idNow, rfl, h2⟩)⟩
  | complete env req =>
    have h := completeHandler_step env cfg world req
    exact ⟨h.1, h.2.imp id (fun h2 => ⟨env.now, rfl, h2⟩)⟩
  | youtube env req =>
    have h := youtubeHandler_step env world req
    exact ⟨h.1, h.2.imp id (fun h2 => ⟨env.now, rfl, h2⟩)⟩
  | poster ffmpeg req =>
    have h := posterHandler_step ffmpeg cfg world req
    exact ⟨h.1, Or.inl h.2⟩
  | delete req =>
    have h := deleteHandler_step cfg world req
    exact ⟨h.1, Or.inl h.2⟩


theorem idsOf_saveMetadata (data : DataDir) (type : String) (e : Entry) (t : String) :
    idsOf (saveMetadata data type e) t
      = if t = type then e.id :: idsOf data type else idsOf data t := by
  by_cases h : t = type
  · subst h; simp [idsOf, saveMetadata]
  · simp [idsOf, saveMetadata, h]

theorem IdsFrom_step (op : Op) (old new : DataDir) (clocks : List Nat)
    (hstep : IndexStep op old new) (hold : IdsFrom clocks old)
    (hfresh : ∀ c, op.idClock = some c → c ∉ clocks) :
    IdsFrom (op.idClock.toList ++ clocks) new := by
  have hmono : ∀ t, ∀ i ∈ idsOf old t, ∃ c ∈ op.idClock.toList ++ clocks, i = Nat.repr c := by
    intro t i hi
    obtain ⟨c, hc, hic⟩ := (hold t).2 i hi
    exact ⟨c, List.mem_append_right _ hc, hic⟩
  rcases hstep with h | ⟨type, e, c, hnew, hclock, hid, _⟩ | ⟨type, list, updated, hl, hnew, hsub, _⟩
  · rw [h]
    exact fun t => ⟨(hold t).1, hmono t⟩
  · intro t
    rw [hnew, idsOf_saveMetadata]
    by_cases ht : t = type
    · subst ht
      rw [if_pos rfl]
      constructor
      · refine List.nodup_cons.2 ⟨?_, (hold t).1⟩
        intro hmem
        obtain ⟨c2, hc2, heq⟩ := (hold t).2 _ hmem
        rw [hid] at heq
        have : c = c2 := repr_injective heq
        exact hfresh c hclock (this ▸ hc2)
      · intro i hi
        rcases List.mem_cons.1 hi with h | h
        · exact ⟨c, List.mem_append_left _ (by simp [hclock]), by rw [h, hid]⟩
        · exact hmono t i h
    · rw [if_neg ht]
      exact ⟨(hold t).1, hmono t⟩
  · intro t
    by_cases ht : t = type
    · subst ht
      have hids : idsOf new t = updated.map (fun e => e.id) := by
        simp [idsOf, hnew]
      have hold_ids : idsOf old t = list.map (fun e => e.id) := by
        simp [idsOf, hl]
      rw [hids]
      have hsub2 : List.Sublist (updated.map (fun e => e.id)) (idsOf old t) := by
        rw [hold_ids]; exact hsub
      exact ⟨List.Nodup.sublist hsub2 (hold t).1, fun i hi => hmono t i (hsub2.subset hi)⟩
    · have hids : idsOf new t = idsOf old t := by
        simp [idsOf, hnew, ht]
      rw [hids]
      exact ⟨(hold t).1, hmono t⟩


theorem runOps_IdsFrom (cfg : Config) : ∀ (ops : List Op) (world : World) (clocks : List Nat),
    IdsFrom clocks world.data → (ops.filterMap Op.idClock).Nodup →
    (∀ c ∈ ops.filterMap Op.idClock, c ∉ clocks) →
    ∀ t, (idsOf (runOps cfg world ops).data t).Nodup := by
  intro ops
  induction ops with
  | nil => intro world clocks h _ _ t; exact (h t).1
  | cons op ops ih =>
    intro world clocks h hnodup hfresh t
    have hstep := (Op.run_step cfg world op).1
    cases hc : op.idClock with
    | none =>
      have hfm : (op :: ops).filterMap Op.idClock = ops.filterMap Op.idClock := by
        simp [List.filterMap_cons, hc]
      rw [hfm] at hnodup hfresh
      have h2 := IdsFrom_step op _ _ clocks hstep h (fun c hcc => by rw [hc] at hcc; cases hcc)
      rw [hc] at h2
      exact ih (op.run cfg world).world clocks h2 hnodup hfresh t
    | some c =>
      have hfm : (op :: ops).filterMap Op.idClock = c :: ops.filterMap Op.idClock := by
        simp [List.filterMap_cons, hc]
      rw [hfm] at hnodup hfresh
      have hcfresh : c ∉ clocks := hfresh c (List.mem_cons_self _ _)
      have h2 := IdsFrom_step op _ _ clocks hstep h
        (fun c2 hcc => by rw [hc] at hcc; cases hcc; exact hcfresh)
      rw [hc] at h2
      refine ih (op.run cfg world).world (c :: clocks) h2 (List.nodup_cons.1 hnodup).2 ?_ t
      intro c2 hc2 hmem
      rcases List.mem_cons.1 hmem with h3 | h3
      · exact (List.nodup_cons.1 hnodup).1 (h3 ▸ hc2)
      · exact hfresh c2 (List.mem_cons_of_mem _ hc2) h3

theorem issuedIds_sublist (cfg : Config) : ∀ (ops : List Op) (world : World),
    List.Sublist (issuedIds cfg world ops) ((ops.filterMap Op.idClock).map Nat.repr) := by
  intro ops
  induction ops with
  | nil => intro world; exact List.Sublist.refl _
  | cons op ops ih =>
    intro world
    have hrest := ih (op.run cfg world).world
    rcases (Op.run_step cfg world op).2 with h | ⟨c, hc, h⟩
    · simp only [issuedIds, h, Option.toList, List.nil_append]
      cases hc : op.idClock with
      | none => simpa [List.filterMap_cons, hc] using hrest
      | some c =>
        simp only [List.filterMap_cons, hc, List.map_cons]
        exact List.Sublist.cons _ hrest
    · simp only [issuedIds, h, Option.toList, List.filterMap_cons, hc, List.map_cons,
        List.singleton_append]
      exact List.Sublist.cons₂ _ hrest

/-- C11, as stated, fails: two form uploads whose Puts end in the same
millisecond are answered with the same id twice, and the photos index they
leave holds two entries with that id. -/
theorem runOps_repeats_id :
    issuedIds sampleCfg sampleWorld
        [Op.upload sampleEnv 1700000000005 sampleUpload,
         Op.upload sampleLaterEnv 1700000000005 sampleUpload]
        = ["1700000000005", "1700000000005"]
      ∧ idsOf (runOps sampleCfg sampleWorld
          [Op.upload sampleEnv 1700000000005 sampleUpload,
           Op.upload sampleLaterEnv 1700000000005 sampleUpload]).data "photos"
        = ["1700000000005", "1700000000005"] := by
  decide

/-- C11, amended: start from empty indexes and run any sequence of form
uploads, completions, links, poster calls and deletes in which no two
operations read the same clock value for the id of their entry. Then in the
index of every type no two entries carry the same id, and no id is returned
twice by the answers. -/
theorem runOps_distinct_ids (cfg : Config) (world : World) (ops : List Op)
    (hempty : ∀ t, world.data t = none)
    (hclocks : (ops.filterMap Op.idClock).Nodup) :
    (∀ t, (idsOf (runOps cfg world ops).data t).Nodup)
      ∧ (issuedIds cfg world ops).Nodup := by
  constructor
  · apply runOps_IdsFrom cfg ops world [] _ hclocks (fun c _ => List.not_mem_nil c)
    intro t
    simp [idsOf, hempty t]
  · refine List.Nodup.sublist (issuedIds_sublist cfg ops world) ?_
    exact List.Nodup.map (fun a b h => repr_injective h) hclocks

/-- Witness of `runOps_distinct_ids`: two form uploads with distinct id clock
readings, then a link. -/
theorem runOps_distinct_ids_witness :
    (issuedIds sampleCfg sampleWorld
        [Op.upload sampleEnv 1700000000005 sampleUpload,
         Op.upload sampleLaterEnv 1700000000006 sampleUpload,
         Op.youtube sampleLaterEnv ⟨some "https://youtu.be/dQw4w9WgXcQ"⟩]).Nodup :=
  (runOps_distinct_ids sampleCfg sampleWorld
    [Op.upload sampleEnv 1700000000005 sampleUpload,
     Op.upload sampleLaterEnv 1700000000006 sampleUpload,
     Op.youtube sampleLaterEnv ⟨some "https://youtu.be/dQw4w9WgXcQ"⟩]
    (fun _ => rfl) (by decide)).2


theorem KeysInNamespace_step (op : Op) (old new : DataDir) (hstep : IndexStep op old new)
    (hold : KeysInNamespace old) (hop : op.keyInNamespace = true) : KeysInNamespace new := by
  rcases hstep with h | ⟨type, e, c, hnew, _, _, hkey⟩ | ⟨type, list, updated, hl, hnew, _, hkeys⟩
  · rw [h]; exact hold
  · intro t x k hx hk
    rw [hnew] at hx
    by_cases ht : t = type
    · subst ht
      simp only [saveMetadata, if_true, Option.getD_some, List.mem_cons] at hx
      rcases hx with h | h
      · rw [h] at hk
        exact hkey hop k hk
      · exact hold t x k h hk
    · simp only [saveMetadata, if_neg ht] at hx
      exact hold t x k hx hk
  · intro t x k hx hk
    rw [hnew] at hx
    by_cases ht : t = type
    · subst ht
      simp only [if_true, Option.getD_some] at hx
      obtain ⟨y, hy, hxy⟩ := hkeys x hx
      refine hold t y k ?_ (by rw [← hxy]; exact hk)
      rw [hl]
      exact hy
    · simp only [if_neg ht] at hx
      exact hold t x k hx hk

theorem runOps_KeysInNamespace (cfg : Config) : ∀ (ops : List Op) (world : World),
    KeysInNamespace world.data → (∀ op ∈ ops, op.keyInNamespace = true) →
    KeysInNamespace (runOps cfg world ops).data := by
  intro ops
  induction ops with
  | nil => intro world h _; exact h
  | cons op ops ih =>
    intro world h hops
    exact ih (op.run cfg world).world
      (KeysInNamespace_step op _ _ (Op.run_step cfg world op).1 h
        (hops op (List.mem_cons_self _ _)))
      (fun o ho => hops o (List.mem_cons_of_mem _ ho))

/-- C20, as stated, fails: a completion for the type photos that reports the
key `videos/1700000000000-clip.mp4` succeeds, and the photos index then holds an
entry whose key does not begin with `photos/`. -/
theorem runOps_foreign_key :
    (completeHandler sampleEnv sampleCfg sampleWorld sampleCompleteForeign).response
        = Response.json 200 (JsonBody.entry
            (completeEntry sampleEnv sampleCfg "videos/1700000000000-clip.mp4"
              sampleCompleteForeign))
      ∧ ((runOps sampleCfg sampleWorld [Op.complete sampleEnv sampleCompleteForeign]).data
          "photos").map (fun l => l.map (fun e => e.key))
        = some [some "videos/1700000000000-clip.mp4"]
      ∧ inNamespace "photos" "videos/1700000000000-clip.mp4" = false := by
  decide

/-- C20, amended: start from empty indexes and run any sequence of form
uploads, completions, links, poster calls and deletes in which every completion
reports a key that begins with its type followed by `/` (as the keys issued by
the presign handler for that type do). Then every entry with a storage key, in
the index of any type, has a key that begins with the type followed by `/`. -/
theorem runOps_keys_in_namespace (cfg : Config) (world : World) (ops : List Op)
    (hempty : ∀ t, world.data t = none)
    (hops : ∀ op ∈ ops, op.keyInNamespace = true) :
    KeysInNamespace (runOps cfg world ops).data := by
  apply runOps_KeysInNamespace cfg ops world _ hops
  intro t e k he
  rw [hempty t] at he
  simp at he

/-- Witness of `runOps_keys_in_namespace`: a form upload, a completion for a
key of its own type, a link, a poster call and a delete. -/
theorem runOps_keys_in_namespace_witness :
    KeysInNamespace (runOps sampleCfg sampleWorld
      [Op.upload sampleEnv 1700000000005 sampleUpload,
       Op.complete sampleLaterEnv sampleCompleteVideo,
       Op.youtube sampleLaterEnv ⟨some "https://youtu.be/dQw4w9WgXcQ"⟩,
       Op.poster sampleFfmpeg samplePoster,
       Op.delete ⟨"photos", "1700000000005"⟩]).data :=
  runOps_keys_in_namespace sampleCfg sampleWorld
    [Op.upload sampleEnv 1700000000005 sampleUpload,
     Op.complete sampleLaterEnv sampleCompleteVideo,
     Op.youtube sampleLaterEnv ⟨some "https://youtu.be/dQw4w9WgXcQ"⟩,
     Op.poster sampleFfmpeg samplePoster,
     Op.delete ⟨"photos", "1700000000005"⟩]
    (fun _ => rfl)
    (fun op hop => by
      simp only [List.mem_cons, List.mem_singleton, List.not_mem_nil, or_false] at hop
      rcases hop with h | h | h | h | h <;> rw [h] <;> decide)

/-! ## The arguments of the resize -/

/-- The handler calls `resize` exactly when one of the two bounds is a non-zero
number, and passes `null` for a bound that is zero or `NaN`; with `w=800` and
`h=0` it passes width 800 and no height. -/
theorem imgPipeline_resize (req : ImgRequest) :
    ((imgPipeline req).resize = none
        ↔ truthyNum (imgWidth req) = none ∧ truthyNum (imgHeight req) = none)
      ∧ ((imgPipeline req).resize ≠ none →
          (imgPipeline req).resize = some (truthyNum (imgWidth req), truthyNum (imgHeight req)))
      ∧ (imgPipeline ⟨"photos/123-cat.png", some "800", some "0", some "webp", some "80"⟩).resize
        = some (some 800, none) := by
  refine ⟨?_, ?_, by decide⟩
  · simp only [imgPipeline]
    cases truthyNum (imgWidth req) <;> cases truthyNum (imgHeight req) <;> simp
  · simp only [imgPipeline]
    cases truthyNum (imgWidth req) <;> cases truthyNum (imgHeight req) <;> simp


/-! ## The output dimensions of the resize -/

theorem scaleDim_pos (d p q : Nat) : 0 < scaleDim d p q := by
  unfold scaleDim
  omega

theorem scaleDim_one {d : Nat} (hd : 0 < d) : scaleDim d 1 1 = d := by
  unfold scaleDim
  omega

theorem scaleDim_round (d p q : Nat) (hq : 0 < q) :
    ∃ r, scaleDim d p q = max 1 r ∧ 2 * (q * r) ≤ 2 * (d * p) + q
      ∧ 2 * (d * p) + q < 2 * (q * r) + 2 * q := by
  refine ⟨(2 * d * p + q) / (2 * q), rfl, ?_, ?_⟩
  · have h := Nat.div_mul_le_self (2 * d * p + q) (2 * q)
    nlinarith
  · have h := Nat.lt_div_mul_add (a := 2 * d * p + q) (b := 2 * q) (by omega)
    nlinarith

theorem scaleDim_self {p q : Nat} (hp : 0 < p) (hq : 0 < q) : scaleDim q p q = p := by
  obtain ⟨r, hr, h1, h2⟩ := scaleDim_round q p q hq
  have hrp : r = p := by
    rcases Nat.lt_trichotomy r p with h | h | h
    · have : q * (r + 1) ≤ q * p := Nat.mul_le_mul_left q h
      nlinarith
    · exact h
    · have : q * (p + 1) ≤ q * r := Nat.mul_le_mul_left q h
      nlinarith
  rw [hr, hrp]
  omega

theorem scaleDim_le_bound {d p q b : Nat} (hq : 0 < q) (hb : 0 < b) (h : d * p ≤ b * q) :
    scaleDim d p q ≤ b := by
  obtain ⟨r, hr, h1, _⟩ := scaleDim_round d p q hq
  have hrb : r ≤ b := by
    by_contra hc
    have : q * (b + 1) ≤ q * r := Nat.mul_le_mul_left q (by omega)
    nlinarith
  rw [hr]
  omega

theorem scaleDim_near {d p q : Nat} (hq : 0 < q) (hdp : 0 < d * p) :
    scaleDim d p q * q < d * p + q ∧ d * p < scaleDim d p q * q + q := by
  obtain ⟨r, hr, h1, h2⟩ := scaleDim_round d p q hq
  rw [hr]
  rcases Nat.eq_zero_or_pos r with h0 | hpos
  · subst h0
    simp only [Nat.mul_zero, Nat.max_zero, Nat.zero_max] at *
    constructor <;> nlinarith
  · have : max 1 r = r := by omega
    rw [this]
    constructor <;> nlinarith

theorem fitInside_cases (W H : Nat) (hW : 0 < W) (hH : 0 < H) (w h : Option Int)
    (hw : ∀ b, w = some b → 0 < b) (hh : ∀ b, h = some b → 0 < b) :
    (fitInside W H w h = (W, H) ∧ (∀ b, w = some b → (W : Int) ≤ b)
        ∧ (∀ b, h = some b → (H : Int) ≤ b))
    ∨ (∃ a : Nat, w = some (a : Int) ∧ 0 < a ∧ a < W
        ∧ fitInside W H w h = (a, scaleDim H a W)
        ∧ (∀ c : Nat, h = some (c : Int) → H * a ≤ c * W))
    ∨ (∃ c : Nat, h = some (c : Int) ∧ 0 < c ∧ c < H
        ∧ fitInside W H w h = (scaleDim W c H, c)
        ∧ (∀ a : Nat, w = some (a : Int) → W * c ≤ a * H)) := by
  cases w with
  | none =>
    cases h with
    | none =>
      left
      simp [fitInside, scaleDim_one hW, scaleDim_one hH]
    | some c =>
      have hc := hh c rfl
      obtain ⟨c, rfl⟩ := Int.eq_ofNat_of_zero_le (le_of_lt hc)
      have hc0 : 0 < c := by omega
      by_cases hlt : c < H
      · right; right
        refine ⟨c, rfl, hc0, hlt, ?_, by simp⟩
        simp [fitInside, hlt, scaleDim_self hc0 hH]
      · left
        refine ⟨?_, by simp, ?_⟩
        · simp [fitInside, hlt, scaleDim_one hW, scaleDim_one hH]
        · intro b hb
          simp only [Option.some.injEq] at hb
          omega
  | some a =>
    have ha := hw a rfl
    obtain ⟨a, rfl⟩ := Int.eq_ofNat_of_zero_le (le_of_lt ha)
    have ha0 : 0 < a := by omega
    cases h with
    | none =>
      by_cases hlt : a < W
      · right; left
        refine ⟨a, rfl, ha0, hlt, ?_, by simp⟩
        simp [fitInside, hlt, scaleDim_self ha0 hW]
      · left
        refine ⟨?_, ?_, by simp⟩
        · simp [fitInside, hlt, scaleDim_one hW, scaleDim_one hH]
        · intro b hb
          simp only [Option.some.injEq] at hb
          omega
    | some c =>
      have hc := hh c rfl
      obtain ⟨c, rfl⟩ := Int.eq_ofNat_of_zero_le (le_of_lt hc)
      have hc0 : 0 < c := by omega
      by_cases hlt : a < W
      · by_cases hlt2 : c * W < a * H
        · right; right
          have hcH : c < H := by
            by_contra hn
            have h1 : H * W ≤ c * W := Nat.mul_le_mul_right W (by omega)
            have h2 : a * H ≤ W * H := Nat.mul_le_mul_right H (by omega)
            nlinarith
          refine ⟨c, rfl, hc0, hcH, ?_, ?_⟩
          · simp [fitInside, hlt, hlt2, scaleDim_self hc0 hH]
          · intro a2 ha2
            simp only [Option.some.injEq, Nat.cast_inj] at ha2
            subst ha2
            nlinarith
        · right; left
          refine ⟨a, rfl, ha0, hlt, ?_, ?_⟩
          · simp [fitInside, hlt, hlt2, scaleDim_self ha0 hW]
          · intro c2 hc2
            simp only [Option.some.injEq, Nat.cast_inj] at hc2
            subst hc2
            nlinarith
      · by_cases hlt2 : c < H
        · right; right
          refine ⟨c, rfl, hc0, hlt2, ?_, ?_⟩
          · simp [fitInside, hlt, hlt2, scaleDim_self hc0 hH]
          · intro a2 ha2
            simp only [Option.some.injEq, Nat.cast_inj] at ha2
            subst ha2
            have h1 : W * c ≤ a * c := Nat.mul_le_mul_right c (by omega)
            have h2 : a * c ≤ a * H := Nat.mul_le_mul_left a (by omega)
            omega
        · left
          refine ⟨?_, ?_, ?_⟩
          · simp [fitInside, hlt, hlt2, scaleDim_one hW, scaleDim_one hH]
          · intro b hb
            simp only [Option.some.injEq] at hb
            omega
          · intro b hb
            simp only [Option.some.injEq] at hb
            omega

theorem fitInside_props (W H : Nat) (hW : 0 < W) (hH : 0 < H) (w h : Option Int)
    (hw : ∀ b, w = some b → 0 < b) (hh : ∀ b, h = some b → 0 < b) :
    (∀ b, w = some b → ((fitInside W H w h).1 : Int) ≤ b)
      ∧ (∀ b, h = some b → ((fitInside W H w h).2 : Int) ≤ b)
      ∧ (0 < (fitInside W H w h).1 ∧ (fitInside W H w h).1 ≤ W)
      ∧ (0 < (fitInside W H w h).2 ∧ (fitInside W H w h).2 ≤ H)
      ∧ ((∀ b, w = some b → (W : Int) ≤ b) → (∀ b, h = some b → (H : Int) ≤ b) →
          fitInside W H w h = (W, H))
      ∧ (h = none → ∀ b, w = some b → b ≤ (W : Int) → ((fitInside W H w h).1 : Int) = b)
      ∧ (w = none → ∀ b, h = some b → b ≤ (H : Int) → ((fitInside W H w h).2 : Int) = b)
      ∧ ((fitInside W H w h).1 * H < (fitInside W H w h).2 * W + max W H
        ∧ (fitInside W H w h).2 * W < (fitInside W H w h).1 * H + max W H) := by
  have hmW : W ≤ max W H := Nat.le_max_left W H
  have hmH : H ≤ max W H := Nat.le_max_right W H
  rcases fitInside_cases W H hW hH w h hw hh with
    ⟨he, h1, h2⟩ | ⟨a, hwa, ha0, haW, he, hb⟩ | ⟨c, hhc, hc0, hcH, he, hb⟩
  · rw [he]
    refine ⟨h1, h2, ⟨hW, le_refl _⟩, ⟨hH, le_refl _⟩, fun _ _ => rfl, ?_, ?_, ?_⟩
    · intro _ b hb hle
      exact le_antisymm (h1 b hb) hle
    · intro _ b hb hle
      exact le_antisymm (h2 b hb) hle
    · simp only
      constructor <;> nlinarith
  · rw [he]
    have hle : scaleDim H a W ≤ H :=
      scaleDim_le_bound hW hH (Nat.mul_le_mul_left H (le_of_lt haW))
    have hnear := scaleDim_near (d := H) (p := a) hW (Nat.mul_pos hH ha0)
    refine ⟨?_, ?_, ⟨ha0, le_of_lt haW⟩, ⟨scaleDim_pos _ _ _, hle⟩, ?_, ?_, ?_, ?_⟩
    · intro b hb1
      rw [hwa] at hb1
      simp only [Option.some.injEq] at hb1
      simp [← hb1]
    · intro b hb1
      have hbpos := hh b hb1
      obtain ⟨c, rfl⟩ := Int.eq_ofNat_of_zero_le (le_of_lt hbpos)
      have := scaleDim_le_bound hW (by omega : 0 < c) (hb c hb1)
      simp only
      exact_mod_cast this
    · intro h1 _
      have := h1 a hwa
      omega
    · intro _ b hb1 _
      rw [hwa] at hb1
      simp only [Option.some.injEq] at hb1
      simp [← hb1]
    · intro hn
      rw [hn] at hwa
      exact Option.noConfusion hwa
    · simp only
      constructor <;> nlinarith [hnear.1, hnear.2]
  · rw [he]
    have hle : scaleDim W c H ≤ W :=
      scaleDim_le_bound hH hW (Nat.mul_le_mul_left W (le_of_lt hcH))
    have hnear := scaleDim_near (d := W) (p := c) hH (Nat.mul_pos hW hc0)
    refine ⟨?_, ?_, ⟨scaleDim_pos _ _ _, hle⟩, ⟨hc0, le_of_lt hcH⟩, ?_, ?_, ?_, ?_⟩
    · intro b hb1
      have hbpos := hw b hb1
      obtain ⟨a, rfl⟩ := Int.eq_ofNat_of_zero_le (le_of_lt hbpos)
      have := scaleDim_le_bound hH (by omega : 0 < a) (hb a hb1)
      simp only
      exact_mod_cast this
    · intro b hb1
      rw [hhc] at hb1
      simp only [Option.some.injEq] at hb1
      simp [← hb1]
    · intro _ h2
      have := h2 c hhc
      omega
    · intro hn
      rw [hn] at hhc
      exact Option.noConfusion hhc
    · intro _ b hb1 _
      rw [hhc] at hb1
      simp only [Option.some.injEq] at hb1
      simp [← hb1]
    · simp only
      constructor <;> nlinarith [hnear.1, hnear.2]

theorem truthyNum_mathMax_pos (x : JSNum) (b : Int)
    (h : truthyNum (mathMax (JSNum.int 0) x) = some b) : 0 < b := by
  cases x with
  | nan => simp [mathMax, truthyNum] at h
  | int z =>
    simp only [mathMax, truthyNum] at h
    split at h
    · exact Option.noConfusion h
    · simp only [Option.some.injEq] at h
      omega

theorem outputSize_imgPipeline (req : ImgRequest) (W H : Nat) (hW : 0 < W) (hH : 0 < H) :
    outputSize W H (imgPipeline req)
      = fitInside W H (truthyNum (imgWidth req)) (truthyNum (imgHeight req)) := by
  simp only [outputSize, imgPipeline]
  cases truthyNum (imgWidth req) <;> cases truthyNum (imgHeight req) <;>
    simp [fitInside, scaleDim_one hW, scaleDim_one hH]

/-- C19: the output dimensions of the transform (the pipeline the handler
builds, with the resize of the image library as `fitInside` models it) on a
source of `W`×`H` pixels, for a request whose width and height are `NaN` or
integers below `2^53` in magnitude. With both bounds zero there is no resize step and the output has the
source dimensions. Otherwise the output fits within each non-zero bound, is
never larger than the source, reaches a bound that is at most the source
dimension when the other bound is zero, has exactly the source dimensions when
every non-zero bound is at least the source dimension, and keeps the aspect
ratio to within one pixel. A 2000×1000 source with `w=800`, `h=0` gives
800×400. -/
theorem imgPipeline_fits_inside (req : ImgRequest) (W H : Nat) (hW : 0 < W) (hH : 0 < H)
    (_hw : (imgWidth req).isExact = true) (_hh : (imgHeight req).isExact = true) :
    ((truthyNum (imgWidth req) = none ∧ truthyNum (imgHeight req) = none) →
        (imgPipeline req).resize = none ∧ outputSize W H (imgPipeline req) = (W, H))
      ∧ (∀ b, truthyNum (imgWidth req) = some b →
          ((outputSize W H (imgPipeline req)).1 : Int) ≤ b)
      ∧ (∀ b, truthyNum (imgHeight req) = some b →
          ((outputSize W H (imgPipeline req)).2 : Int) ≤ b)
      ∧ (0 < (outputSize W H (imgPipeline req)).1 ∧ (outputSize W H (imgPipeline req)).1 ≤ W)
      ∧ (0 < (outputSize W H (imgPipeline req)).2 ∧ (outputSize W H (imgPipeline req)).2 ≤ H)
      ∧ ((∀ b, truthyNum (imgWidth req) = some b → (W : Int) ≤ b) →
          (∀ b, truthyNum (imgHeight req) = some b → (H : Int) ≤ b) →
          outputSize W H (imgPipeline req) = (W, H))
      ∧ (truthyNum (imgHeight req) = none → ∀ b, truthyNum (imgWidth req) = some b →
          b ≤ (W : Int) → ((outputSize W H (imgPipeline req)).1 : Int) = b)
      ∧ (truthyNum (imgWidth req) = none → ∀ b, truthyNum (imgHeight req) = some b →
          b ≤ (H : Int) → ((outputSize W H (imgPipeline req)).2 : Int) = b)
      ∧ ((outputSize W H (imgPipeline req)).1 * H
            < (outputSize W H (imgPipeline req)).2 * W + max W H
          ∧ (outputSize W H (imgPipeline req)).2 * W
            < (outputSize W H (imgPipeline req)).1 * H + max W H)
      ∧ outputSize 2000 1000
          (imgPipeline ⟨"photos/123-cat.png", some "800", some "0", some "webp", some "80"⟩)
        = (800, 400) := by
  have hp := fitInside_props W H hW hH (truthyNum (imgWidth req)) (truthyNum (imgHeight req))
    (fun b hb => truthyNum_mathMax_pos _ b hb) (fun b hb => truthyNum_mathMax_pos _ b hb)
  rw [← outputSize_imgPipeline req W H hW hH] at hp
  obtain ⟨p1, p2, p3, p4, p5, p6, p7, p8⟩ := hp
  refine ⟨?_, p1, p2, p3, p4, p5, p6, p7, p8, by decide⟩
  intro hn
  refine ⟨(imgPipeline_resize req).1.2 hn, ?_⟩
  apply p5
  · intro b hb
    rw [hn.1] at hb
    exact Option.noConfusion hb
  · intro b hb
    rw [hn.2] at hb
    exact Option.noConfusion hb

/-- Witness of `imgPipeline_fits_inside`: a 2000×1000 source requested with
`w=3000`, `h=300`; the output is at most 300 pixels high. -/
theorem imgPipeline_fits_inside_witness :
    (imgWidth ⟨"photos/123-cat.png", some "3000", some "300", some "webp", none⟩).isExact = true
      ∧ (imgHeight ⟨"photos/123-cat.png", some "3000", some "300", some "webp", none⟩).isExact
        = true
      ∧ ((outputSize 2000 1000 (imgPipeline
          ⟨"photos/123-cat.png", some "3000", some "300", some "webp", none⟩)).2 : Int) ≤ 300 :=
  ⟨by decide, by decide,
    (imgPipeline_fits_inside ⟨"photos/123-cat.png", some "3000", some "300", some "webp", none⟩
      2000 1000 (by decide) (by decide) (by decide) (by decide)).2.2.1 300 (by decide)⟩

/-! ## The backfill script -/

/-- C21, failing input: the presign handler issues the key
`photos/1700000000000-photo_#1.png` for the file name `photo #1.png`; from the
public URL of that key `extractKey` returns `photos/1700000000000-photo_`, the
path before the `#`. For the file name `café.png` it returns the key with `é`
percent-encoded, and for the local URL `/uploads/photos/photo_#1.png` it
returns `photos/photo_`. -/
theorem extractKey_not_inverse :
    (presignHandler sampleEnv sampleCfg sampleWorld
        ⟨"photos", some "photo #1.png", some "image/png"⟩).response
        = Response.json 200 (JsonBody.slot
            "https://signed.example/photos/1700000000000-photo_#1.png"
            "photos/1700000000000-photo_#1.png"
            "https://farm-media.s3.amazonaws.com/photos/1700000000000-photo_#1.png")
      ∧ extractKey sampleAuthorityOk
          (s3ObjectUrl sampleCfg (uploadKey "photos" 1700000000000 "photo #1.png"))
        = some "photos/1700000000000-photo_"
      ∧ extractKey sampleAuthorityOk
          (s3ObjectUrl sampleCfg (uploadKey "photos" 1700000000000 "café.png"))
        = some "photos/1700000000000-caf%C3%A9.png"
      ∧ extractKey sampleAuthorityOk "/uploads/photos/photo_#1.png" = some "photos/photo_" := by
  decide

theorem dropWhile_none {p : Char → Bool} : ∀ {l : List Char},
    (∀ c ∈ l, p c = false) → l.dropWhile p = l := by
  intro l
  cases l with
  | nil => intro _; rfl
  | cons a l => intro h; simp [List.dropWhile, h a (List.mem_cons_self _ _)]

theorem takeWhile_stop {p : Char → Bool} (x : Char) (r : List Char) (hx : p x = false) :
    ∀ (l : List Char), (∀ c ∈ l, p c = true) → (l ++ x :: r).takeWhile p = l := by
  intro l
  induction l with
  | nil => intro _; simp [List.takeWhile, hx]
  | cons a l ih =>
    intro h
    have ih2 := ih (fun c hc => h c (List.mem_cons_of_mem _ hc))
    simp [List.takeWhile_cons, h a (List.mem_cons_self _ _), ih2]

theorem dropWhile_stop {p : Char → Bool} (x : Char) (r : List Char) (hx : p x = false) :
    ∀ (l : List Char), (∀ c ∈ l, p c = true) → (l ++ x :: r).dropWhile p = x :: r := by
  intro l
  induction l with
  | nil => intro _; simp [List.dropWhile, hx]
  | cons a l ih =>
    intro h
    simp only [List.cons_append, List.dropWhile, h a (List.mem_cons_self _ _)]
    exact ih (fun c hc => h c (List.mem_cons_of_mem _ hc))

theorem isPlainChar_facts {c : Char} (h : isPlainChar c = true) :
    inPathPercentEncodeSet c = false ∧ c ≠ '/' ∧ c ≠ '\\' ∧ c ≠ '?' ∧ c ≠ '#'
      ∧ isAuthorityEnd c = false ∧ ¬ (c.toNat ≤ 0x20)
      ∧ ¬ (c.toNat = 9 ∨ c.toNat = 10 ∨ c.toNat = 13) ∧ isJsWhitespace c = false := by
  have hn : (48 ≤ c.toNat ∧ c.toNat ≤ 57) ∨ (65 ≤ c.toNat ∧ c.toNat ≤ 90)
      ∨ (97 ≤ c.toNat ∧ c.toNat ≤ 122) ∨ c.toNat = 45 ∨ c.toNat = 95 ∨ c.toNat = 46 := by
    simp only [isPlainChar, Char.isAlphanum, Char.isAlpha, Char.isUpper, Char.isLower,
      Char.isDigit, Bool.or_eq_true, Bool.and_eq_true, decide_eq_true_eq, beq_iff_eq] at h
    rcases h with ((((h | h) | h) | h) | h) | h
    · exact Or.inr (Or.inl ⟨h.1, h.2⟩)
    · exact Or.inr (Or.inr (Or.inl ⟨h.1, h.2⟩))
    · exact Or.inl ⟨h.1, h.2⟩
    · rw [h]; decide
    · rw [h]; decide
    · rw [h]; decide
  have hne : ∀ d : Char, c = d → c.toNat = d.toNat := fun d hd => by rw [hd]
  refine ⟨?_, ?_, ?_, ?_, ?_, ?_, ?_, ?_, ?_⟩
  · simp only [inPathPercentEncodeSet, Bool.or_eq_false_iff, decide_eq_false_iff_not]
    omega
  · intro hc; have := hne _ hc; simp at this; omega
  · intro hc; have := hne _ hc; simp at this; omega
  · intro hc; have := hne _ hc; simp at this; omega
  · intro hc; have := hne _ hc; simp at this; omega
  · simp only [isAuthorityEnd, Bool.or_eq_false_iff, beq_eq_false_iff_ne, ne_eq]
    refine ⟨⟨⟨?_, ?_⟩, ?_⟩, ?_⟩ <;> (intro hc; have := hne _ hc; simp at this; omega)
  · omega
  · omega
  · simp only [isJsWhitespace]
    simp
    omega


theorem urlPreprocess_id {l : List Char} (h : ∀ c ∈ l, ¬ (c.toNat ≤ 0x20)) :
    urlPreprocess l = l := by
  have h1 : l.dropWhile (fun c => decide (c.toNat ≤ 0x20)) = l :=
    dropWhile_none (fun c hc => by simpa using h c hc)
  have h2 : l.reverse.dropWhile (fun c => decide (c.toNat ≤ 0x20)) = l.reverse :=
    dropWhile_none (fun c hc => by simpa using h c (List.mem_reverse.1 hc))
  simp only [urlPreprocess, h1, h2, List.reverse_reverse]
  apply List.filter_eq_self.2
  intro c hc
  have := h c hc
  simp only [Bool.not_eq_true', Bool.or_eq_false_iff, decide_eq_false_iff_not]
  omega

theorem pathState_plain : ∀ (s : List Char) (path : List (List Char)) (buffer tail : List Char),
    (∀ c ∈ s, isPlainChar c = true) →
    pathState path buffer (s ++ tail) = pathState path (buffer ++ s) tail := by
  intro s
  induction s with
  | nil => intro path buffer tail _; simp
  | cons a s ih =>
    intro path buffer tail h
    obtain ⟨henc, h1, h2, h3, h4, _⟩ := isPlainChar_facts (h a (List.mem_cons_self _ _))
    have hstep : pathState path buffer (a :: (s ++ tail))
        = pathState path (buffer ++ [a]) (s ++ tail) := by
      rw [pathState]
      simp [h1, h2, h3, h4, encodePathChar, henc]
    rw [List.cons_append, hstep, ih _ _ _ (fun c hc => h c (List.mem_cons_of_mem _ hc))]
    simp

theorem not_dot_of_dash {segment : List Char} (h : '-' ∈ segment) :
    isSingleDot segment = false ∧ isDoubleDot segment = false := by
  have hm : '-' ∈ segment.map Char.toLower := List.mem_map.2 ⟨'-', h, by decide⟩
  constructor
  · simp only [isSingleDot, Bool.or_eq_false_iff, decide_eq_false_iff_not]
    constructor
    · intro he; rw [he] at h; revert h; decide
    · intro he; rw [he] at hm; revert hm; decide
  · simp only [isDoubleDot, Bool.or_eq_false_iff, decide_eq_false_iff_not]
    refine ⟨⟨⟨?_, ?_⟩, ?_⟩, ?_⟩ <;> (intro he; rw [he] at hm; revert hm; decide)

theorem closeSegment_plain (path : List (List Char)) (segment : List Char) (atSlash : Bool)
    (h1 : isSingleDot segment = false) (h2 : isDoubleDot segment = false) :
    closeSegment path segment atSlash = path ++ [segment] := by
  simp [closeSegment, h1, h2]

theorem pathState_segment (path : List (List Char)) (s tail : List Char)
    (hp : ∀ c ∈ s, isPlainChar c = true)
    (hd : isSingleDot s = false ∧ isDoubleDot s = false) :
    pathState path [] (s ++ '/' :: tail) = pathState (path ++ [s]) [] tail := by
  rw [pathState_plain s path [] _ hp, pathState]
  simp only [true_or, if_true, List.nil_append]
  rw [closeSegment_plain path s true hd.1 hd.2]

theorem pathState_last (path : List (List Char)) (s : List Char)
    (hp : ∀ c ∈ s, isPlainChar c = true)
    (hd : isSingleDot s = false ∧ isDoubleDot s = false) :
    pathState path [] s = path ++ [s] := by
  have h := pathState_plain s path [] [] hp
  rw [List.append_nil] at h
  rw [h, pathState]
  simp only [List.nil_append]
  rw [closeSegment_plain path s false hd.1 hd.2]

theorem parseUrl_https_cons (authorityOk : String → Bool) (a : Char) (host key : List Char)
    (hhost : ∀ c ∈ a :: host, isPlainChar c = true)
    (hkey : ∀ c ∈ key, ¬ (c.toNat ≤ 0x20))
    (hok : authorityOk ⟨a :: host⟩ = true) :
    parseUrl authorityOk ⟨"https://".data ++ ((a :: host) ++ '/' :: key)⟩
      = UrlParse.parsed (pathState [] [] key) := by
  have hall : ∀ c ∈ "https://".data ++ ((a :: host) ++ '/' :: key), ¬ (c.toNat ≤ 0x20) := by
    intro c hc
    rcases List.mem_append.1 hc with h | h
    · have h8 : ∀ d ∈ "https://".data, ¬ (d.toNat ≤ 0x20) := by decide
      exact h8 c h
    · rcases List.mem_append.1 h with h | h
      · exact (isPlainChar_facts (hhost c h)).2.2.2.2.2.2.1
      · rcases List.mem_cons.1 h with h | h
        · rw [h]; decide
        · exact hkey c h
  have ha := (isPlainChar_facts (hhost a (List.mem_cons_self _ _))).2.2.2.2.2.1
  have ha1 : a ≠ '/' := (isPlainChar_facts (hhost a (List.mem_cons_self _ _))).2.1
  have ha2 : a ≠ '\\' := (isPlainChar_facts (hhost a (List.mem_cons_self _ _))).2.2.1
  have hscheme : splitScheme ("https://".data ++ ((a :: host) ++ '/' :: key))
      = some (['h', 't', 't', 'p', 's'], '/' :: '/' :: ((a :: host) ++ '/' :: key)) := by
    show splitScheme ('h' :: 't' :: 't' :: 'p' :: 's' :: ':' :: '/' :: '/'
      :: ((a :: host) ++ '/' :: key)) = _
    simp +decide [splitScheme, List.dropWhile, List.takeWhile]
  have hp : ∀ c ∈ a :: host, (fun c => !isAuthorityEnd c) c = true := by
    intro c hc
    simp [(isPlainChar_facts (hhost c hc)).2.2.2.2.2.1]
  have hend : (fun c => !isAuthorityEnd c) '/' = false := by decide
  have hslashes : List.dropWhile (fun c => c == '/' || c == '\\')
      ('/' :: '/' :: ((a :: host) ++ '/' :: key)) = (a :: host) ++ '/' :: key := by
    have hb : (a == '/' || a == '\\') = false := by simp [ha1, ha2]
    simp [List.dropWhile, hb]
  simp only [parseUrl, urlPreprocess_id hall, hscheme]
  simp +decide only [if_false, if_true, true_or]
  simp only [specialAuthority, hslashes, takeWhile_stop '/' key hend _ hp,
    dropWhile_stop '/' key hend _ hp, hok, pathStart]
  simp


theorem parseUrl_https (authorityOk : String → Bool) (host key : List Char)
    (hne : host ≠ []) (hhost : ∀ c ∈ host, isPlainChar c = true)
    (hkey : ∀ c ∈ key, ¬ (c.toNat ≤ 0x20))
    (hok : authorityOk ⟨host⟩ = true) :
    parseUrl authorityOk ⟨"https://".data ++ (host ++ '/' :: key)⟩
      = UrlParse.parsed (pathState [] [] key) := by
  obtain ⟨a, rest, rfl⟩ := List.exists_cons_of_ne_nil hne
  exact parseUrl_https_cons authorityOk a rest key hhost hkey hok

theorem parseUrl_local (authorityOk : String → Bool) (a : Char) (rest : List Char)
    (ha : isPlainChar a = true) (hrest : ∀ c ∈ rest, ¬ (c.toNat ≤ 0x20)) :
    parseUrl authorityOk ⟨'/' :: a :: rest⟩ = UrlParse.parsed (pathState [] [] (a :: rest)) := by
  have hfacts := isPlainChar_facts ha
  have hall : ∀ c ∈ '/' :: a :: rest, ¬ (c.toNat ≤ 0x20) := by
    intro c hc
    rcases List.mem_cons.1 hc with h | h
    · rw [h]; decide
    · rcases List.mem_cons.1 h with h | h
      · rw [h]; exact hfacts.2.2.2.2.2.2.1
      · exact hrest c h
  have hscheme : splitScheme ('/' :: a :: rest) = none := by
    simp +decide [splitScheme]
  simp only [parseUrl, urlPreprocess_id hall, hscheme, relativeState]
  simp [hfacts.2.1, hfacts.2.2.1]

/-- The keys the presign handler issues for file names of plain characters are
recovered from their public URL, and so is the key of a local URL with plain
type and file name: for a bucket named in plain characters, the default region
and no public base, a valid type and a file name of ASCII letters, digits, `-`,
`_` and `.`, `extractKey` applied to the public URL of the upload key returns
the key; and applied to `/uploads/type/file`, for a file name that is not a dot
segment, it returns `type/file`. -/
theorem extractKey_roundtrip_plain (authorityOk : String → Bool) (cfg : Config)
    (bucket type filename : String) (now : Nat)
    (hbase : cfg.S3_PUBLIC_URL_BASE = "") (hregion : cfg.AWS_REGION = none)
    (hbucket : cfg.S3_BUCKET = some bucket)
    (hb : ∀ c ∈ bucket.data, isPlainChar c = true)
    (hok : authorityOk (bucket ++ ".s3.amazonaws.com") = true)
    (ht : type ∈ ["photos", "videos", "sponsors"])
    (hf : ∀ c ∈ filename.data, isPlainChar c = true) :
    extractKey authorityOk (s3ObjectUrl cfg (uploadKey type now filename))
        = some (uploadKey type now filename)
      ∧ (isSingleDot filename.data = false → isDoubleDot filename.data = false →
          extractKey authorityOk ("/uploads/" ++ type ++ "/" ++ filename)
            = some (type ++ "/" ++ filename)) := by
  have hclean : ∀ c ∈ filename.data, isJsWhitespace c = false :=
    fun c hc => (isPlainChar_facts (hf c hc)).2.2.2.2.2.2.2.2
  have hsafe : replaceWhitespaceRunsAux false filename.data = filename.data :=
    replaceWhitespaceRunsAux_id _ false hclean
  have hdigit : ∀ c ∈ (Nat.repr now).data, isPlainChar c = true := by
    intro c hc
    have := repr_isDigit now c hc
    simp [isPlainChar, Char.isAlphanum, this]
  have hseg2 : ∀ c ∈ (Nat.repr now).data ++ '-' :: filename.data, isPlainChar c = true := by
    intro c hc
    rcases List.mem_append.1 hc with h | h
    · exact hdigit c h
    · rcases List.mem_cons.1 h with h | h
      · rw [h]; decide
      · exact hf c h
  have hdot2 := not_dot_of_dash
    (List.mem_append_right (Nat.repr now).data (List.mem_cons_self '-' filename.data))
  have htype : (∀ c ∈ type.data, isPlainChar c = true)
      ∧ (isSingleDot type.data = false ∧ isDoubleDot type.data = false)
      ∧ (∀ tail, List.dropWhile (fun c => c == '/') (type.data ++ tail) = type.data ++ tail)
      ∧ (∀ tail, List.isPrefixOf "uploads/".data (type.data ++ tail) = false) := by
    simp only [List.mem_cons, List.mem_singleton, List.not_mem_nil, or_false] at ht
    rcases ht with h | h | h <;> subst h <;>
      exact ⟨by decide, by decide, fun tail => by simp +decide [List.dropWhile],
        fun tail => by simp +decide [List.isPrefixOf]⟩
  obtain ⟨htp, htd, htdrop, htpre⟩ := htype
  constructor
  · have hkeydata : (uploadKey type now filename).data
        = type.data ++ '/' :: ((Nat.repr now).data ++ '-' :: filename.data) := by
      rw [uploadKey_data, hsafe]
    have hkeychars : ∀ c ∈ (uploadKey type now filename).data, ¬ (c.toNat ≤ 0x20) := by
      intro c hc
      rw [hkeydata] at hc
      rcases List.mem_append.1 hc with h | h
      · exact (isPlainChar_facts (htp c h)).2.2.2.2.2.2.1
      · rcases List.mem_cons.1 h with h | h
        · rw [h]; decide
        · exact (isPlainChar_facts (hseg2 c h)).2.2.2.2.2.2.1
    have hhost : ∀ c ∈ bucket.data ++ ".s3.amazonaws.com".data, isPlainChar c = true := by
      intro c hc
      rcases List.mem_append.1 hc with h | h
      · exact hb c h
      · have hs : ∀ d ∈ ".s3.amazonaws.com".data, isPlainChar d = true := by decide
        exact hs c h
    have hurl : s3ObjectUrl cfg (uploadKey type now filename)
        = ⟨"https://".data ++ ((bucket.data ++ ".s3.amazonaws.com".data)
            ++ '/' :: (uploadKey type now filename).data)⟩ := by
      apply String.ext
      simp [s3ObjectUrl, hbase, hregion, hbucket, orDefault, interpolate, String.data_append]
    have hparse := parseUrl_https authorityOk (bucket.data ++ ".s3.amazonaws.com".data)
      (uploadKey type now filename).data (by simp) hhost hkeychars
      (by rw [← hok]; congr 1)
    have hpath : pathState [] [] (uploadKey type now filename).data
        = [type.data, (Nat.repr now).data ++ '-' :: filename.data] := by
      rw [hkeydata, pathState_segment [] _ _ htp htd, pathState_last _ _ hseg2 hdot2]
      rfl
    rw [hpath] at hparse
    rw [hurl]
    unfold extractKey
    rw [hparse]
    simp only [pathname, stripLeadingSlashes, List.nil_append, List.flatMap_cons,
      List.flatMap_nil, List.append_nil, List.cons_append]
    have hdrop1 : List.dropWhile (fun c => c == '/')
        ('/' :: (type.data ++ '/' :: ((Nat.repr now).data ++ '-' :: filename.data)))
        = type.data ++ '/' :: ((Nat.repr now).data ++ '-' :: filename.data) := by
      rw [List.dropWhile_cons]
      simp only [beq_self_eq_true, if_true]
      exact htdrop _
    rw [hdrop1, htpre, htdrop]
    simp only [Bool.false_eq_true, if_false]
    congr 1
    exact String.ext hkeydata.symm
  · intro hd1 hd2
    have hurl : "/uploads/" ++ type ++ "/" ++ filename
        = ⟨'/' :: 'u' :: ("ploads".data ++ '/' :: (type.data ++ '/' :: filename.data))⟩ := by
      apply String.ext
      simp [String.data_append]
    have hrest : ∀ c ∈ "ploads".data ++ '/' :: (type.data ++ '/' :: filename.data),
        ¬ (c.toNat ≤ 0x20) := by
      intro c hc
      rcases List.mem_append.1 hc with h | h
      · have hs : ∀ d ∈ "ploads".data, ¬ (d.toNat ≤ 0x20) := by decide
        exact hs c h
      · rcases List.mem_cons.1 h with h | h
        · rw [h]; decide
        · rcases List.mem_append.1 h with h | h
          · exact (isPlainChar_facts (htp c h)).2.2.2.2.2.2.1
          · rcases List.mem_cons.1 h with h | h
            · rw [h]; decide
            · exact (isPlainChar_facts (hf c h)).2.2.2.2.2.2.1
    have hparse := parseUrl_local authorityOk 'u'
      ("ploads".data ++ '/' :: (type.data ++ '/' :: filename.data)) (by decide) hrest
    have hpath : pathState [] [] ('u' :: ("ploads".data ++ '/' :: (type.data ++ '/' :: filename.data)))
        = ["uploads".data, type.data, filename.data] := by
      have h1 := pathState_segment [] "uploads".data (type.data ++ '/' :: filename.data)
        (by decide) (by decide)
      have h2 := pathState_segment ([] ++ ["uploads".data]) type.data filename.data htp htd
      have h3 := pathState_last ([] ++ ["uploads".data] ++ [type.data]) filename.data hf ⟨hd1, hd2⟩
      rw [h2, h3] at h1
      exact h1
    rw [hpath] at hparse
    rw [hurl]
    unfold extractKey
    rw [hparse]
    have hprefix : ∀ tail, List.isPrefixOf "uploads/".data ("uploads".data ++ '/' :: tail) = true :=
      fun tail => isPrefixOf_append "uploads/".data tail
    have hdrop : ∀ tail : List Char, List.dropWhile (fun c => c == '/')
        ('/' :: ("uploads".data ++ '/' :: tail)) = "uploads".data ++ '/' :: tail := by
      intro tail
      rfl
    have hpn : (pathname ["uploads".data, type.data, filename.data]).data
        = '/' :: ("uploads".data ++ '/' :: (type.data ++ '/' :: filename.data)) := by
      simp [pathname]
    simp only [stripLeadingSlashes, hpn, hdrop, hprefix, if_true, stripUploads]
    congr 1
    apply String.ext
    simp [String.data_append]


end FarmGirl
